import Mathlib

/-!
# disktype_json

A shallow embedding of the content-object log (`json.c`), the dynamic `String`
(`string.c`) and representative detectors (`amiga.c`, `cdrom.c`, `cdaccess.c`),
followed by the theorems that settle the claims about them.

Conventions of the embedding

* A C `char` is a natural number (a byte is below 256); a `char[]` argument is a
  `List Nat`, whose C string is the part before the first NUL (`c_str`).
* A C array is a total map `Nat → α` together with the capacity the source
  declares; an access outside the capacity, a failed `assert` and exhausted
  fuel make an operation return `none`.
* Some text buffers are lists of the cells written, without a cut at the
  capacity: the heap buffer of a `String` (the writes lie inside it when
  `CString.fits` holds, that is from a size of 2 on), `disk_id` of
  `add_cd_rom_json` (nine chars, enough for an identifier below 2^32),
  `json_output` (one char) and `value_as_chars` in the event forms of the
  numeric `add_property` calls (the functions on the state check its 12 or 21
  chars). Theorems about them state the bound as a hypothesis, and the
  document is the String built by `convert_to_json_trace`.
* The globals of `json.c` (`id`, `property_counter`, `given_file`, `json`,
  `json_output`) and `latin1` of `main.c` form the record `State`.
-/

namespace Disktype

set_option maxRecDepth 100000

/-! ## C strings -/

/-- Bytes of an ASCII literal. -/
def ascii (s : String) : List Nat := s.toList.map Char.toNat

/-- The C string held by a char array: the chars before the first NUL (the end
of the list stands for the terminator of an array that shows none). -/
def c_str (a : List Nat) : List Nat := a.takeWhile (fun c => decide (c ≠ 0))

/-- C `strlen`. -/
def strlen (a : List Nat) : Nat := (c_str a).length

/-- The test `strcmp(a, b) == 0`: both arrays hold the same C string. -/
def strcmp_eq (a b : List Nat) : Bool := decide (c_str a = c_str b)

/-- The assignment `a[i] = v` on the initialised part of an array: cell `i` is
replaced, or appended when `i` is the first cell not yet written. -/
def array_set (a : List Nat) (i : Nat) (v : Nat) : List Nat :=
  a.take i ++ [v] ++ a.drop (i + 1)

/-! ## string.c: the dynamic `String` -/

/-- The struct `String` of global.h. The field `string` lists the cells of the
heap buffer that have been written, from index 0; a NULL pointer is `[]`. -/
structure CString where
  used_size : Nat
  total_size : Nat
  string : List Nat
deriving DecidableEq

/-- The all-zero `String`, as left by `= { 0 }` and by `free_String`. -/
def CString.zero : CString := ⟨0, 0, []⟩

/-- Source `initialize_String`: `assert(init_size > 0)`, then an empty string
with its terminator in a buffer of `init_size` chars. -/
def initialize_String (init_size : Nat) : Option CString :=
  if 0 < init_size then some ⟨1, init_size, [0]⟩ else none

/-- Source `insert_single_char`. A NUL is not inserted. A full String grows by
`total_size *= 1.5` (the product is truncated to `size_t`), then the
terminator is overwritten by the char and a new terminator is appended. The
field `string` lists the cells written whether or not they lie inside the
buffer of `total_size` chars: they do when `CString.fits` holds, while a full
String of size 1 "grows" to size 1 and is written behind its buffer. -/
def insert_single_char (str : CString) (element : Nat) : CString :=
  if element = 0 then str
  else
    { used_size := str.used_size + 1
      total_size :=
        if str.used_size = str.total_size then str.total_size * 3 / 2 else str.total_size
      string := array_set (array_set str.string (str.used_size - 1) element) str.used_size 0 }

/-- Source `insert_chars`: `for (i = 0; i < strlen(append); i++)
insert_single_char(str, append[i])`. -/
def insert_chars (str : CString) (append : List Nat) : CString :=
  (c_str append).foldl insert_single_char str

/-- Source `insert_string`: `for (i = 0; i < append->used_size; i++)
insert_single_char(str, append->string[i])`. -/
def insert_string (str : CString) (append : CString) : CString :=
  (append.string.take append.used_size).foldl insert_single_char str

/-- Source `extract_chars`: an empty String leaves `chars` untouched, otherwise
`strncpy(chars, str->string, str->used_size)` overwrites its first `used_size`
cells (the copy stops at the terminator and pads with NUL). -/
def extract_chars (str : CString) (chars : List Nat) : List Nat :=
  if str.string.headD 0 = 0 then chars
  else
    let src := c_str str.string
    (src ++ List.replicate (str.used_size - src.length) 0).take str.used_size
      ++ chars.drop str.used_size

/-- Source `free_String`. -/
def free_String (_str : CString) : CString := CString.zero

/-! ## global.h: the log -/

/-- The struct `property`. -/
structure property where
  key : CString
  value : CString

/-- The struct `content_object`; `properties` has 100 cells. -/
structure content_object where
  id : Nat
  level : Int
  parent_id : Int
  object_type : CString
  wikidata : CString
  number_of_properties : Nat
  properties : Nat → property

/-- The struct `file_info`; `content` has 500 cells. -/
structure file_info where
  file_kind : CString
  path : CString
  size : Nat
  number_of_objects : Nat
  content : Nat → content_object

/-- The globals: `id`, `property_counter`, `given_file`, `json` and
`json_output` of json.c, `latin1` of main.c. -/
structure State where
  id : Nat
  property_counter : Nat
  given_file : file_info
  latin1 : Int
  json : CString
  json_output : List Nat

/-- The zero-initialised `struct property`. -/
def property.zero : property := ⟨CString.zero, CString.zero⟩

/-- The zero-initialised `struct content_object`. -/
def content_object.zero : content_object :=
  ⟨0, 0, 0, CString.zero, CString.zero, 0, fun _ => property.zero⟩

/-- The value `(const struct file_info) { 0 }`. -/
def file_info.zero : file_info :=
  ⟨CString.zero, CString.zero, 0, 0, fun _ => content_object.zero⟩

/-- The state at program start: zero-initialised globals, `json_output = ""`. -/
def State.initial : State := ⟨0, 0, file_info.zero, 0, CString.zero, [0]⟩

/-- Capacity of `given_file.content`. -/
def MAX_OBJECTS : Nat := 500

/-- Capacity of `content_object.properties`, also the bound asserted by
`add_property`. -/
def MAX_PROPERTIES : Nat := 100

/-! ## json.c: arranging the data -/

/-- The loop of `identify_parent_id`, `for (i = id - 1; i > -1; i--)`: the
argument `n` is `i + 1`, so `0` is the exit of the loop. -/
def identify_parent_loop (content : Nat → content_object) (level : Int) : Nat → Int
  | 0 => -1
  | i + 1 =>
    if (content i).level < level then (i : Int)
    else identify_parent_loop content level i

/-- Source `identify_parent_id`. -/
def identify_parent_id (s : State) (level : Int) : Int :=
  if s.id = 0 ∨ level = 0 then -1
  else identify_parent_loop s.given_file.content level s.id

/-! ## Number formatting of `sprintf` -/

/-- One digit as an ASCII char, upper case above 9. -/
def digit_char (d : Nat) : Nat := if d < 10 then 48 + d else 55 + d

/-- The digits of `n` in `base`, most significant first; `fuel` bounds their
number. -/
def digits_fuel (base : Nat) : Nat → Nat → List Nat
  | 0, _ => []
  | fuel + 1, n =>
    if n < base then [digit_char n]
    else digits_fuel base fuel (n / base) ++ [digit_char (n % base)]

/-- The conversions `%d` (of a non-negative value), `%lu` and `%llu`. -/
def decimal (n : Nat) : List Nat := digits_fuel 10 (n + 1) n

/-- The conversion `%d` of an `int`. -/
def decimal_int (v : Int) : List Nat :=
  if v < 0 then 45 :: decimal v.natAbs else decimal v.natAbs

/-- The conversion `%04X`: upper-case hexadecimal, zero-padded to four digits. -/
def sprintf_04X (n : Nat) : List Nat :=
  let d := digits_fuel 16 (n + 1) n
  List.replicate (4 - d.length) 48 ++ d

/-! ## json.c: escaping -/

/-- The loop of `clean_char`: `value` is the input from `index` on, `clean` the
output written so far (`clean_index` is its length). -/
def clean_char_loop : List Nat → List Nat → List Nat
  | [], clean => clean
  | c :: value, clean =>
    if c = 0 then clean
    else if c = 37 then clean_char_loop value (clean ++ [37, 37])
    else if c = 0x5C ∨ c = 0x22 ∨ c ≤ 0x1F ∨ c ≥ 0x80 then
      clean_char_loop value (clean ++ [0x5C, 117] ++ sprintf_04X c)
    else clean_char_loop value (clean ++ [c])

/-- Source `clean_char`: without latin1 the array itself is returned, with
latin1 the escaped copy, closed by `'\0'`. -/
def clean_char (latin1 : Int) (value : List Nat) : List Nat :=
  if latin1 = 0 then value else clean_char_loop value [] ++ [0]

/-! ## json.c: filling the log -/

/-- Source `add_file_path`: the cleaned path is copied char by char, terminator
included, into a String of exactly that size. -/
def add_file_path (s : State) (path : List Nat) : Option State :=
  let u_path := clean_char s.latin1 path
  let len := strlen u_path
  match initialize_String (len + 1) with
  | some p =>
    some { s with given_file := { s.given_file with
      path := { p with string := c_str u_path ++ [0], used_size := len + 1 } } }
  | none => none

/-- Source `add_file_characteristics`. -/
def add_file_characteristics (s : State) (file_kind : List Nat) (size : Nat) : Option State :=
  match initialize_String 3 with
  | some k =>
    some { s with given_file := { s.given_file with
      file_kind := insert_chars k file_kind, size := size } }
  | none => none

/-- Source `add_content_object`. The write to `given_file.content[id]` needs
`id` inside the 500 cells of the array. -/
def add_content_object (s : State) (level : Int) (object_type wikidata : List Nat) :
    Option State :=
  if s.id < MAX_OBJECTS then
    match initialize_String 25, initialize_String 25 with
    | some t, some w =>
      let obj : content_object :=
        { s.given_file.content s.id with
          id := s.id
          level := level
          parent_id := identify_parent_id s level
          object_type := insert_chars t object_type
          wikidata := insert_chars w wikidata
          number_of_properties := 0 }
      some { s with
        property_counter := 0
        id := s.id + 1
        given_file := { s.given_file with
          number_of_objects := s.given_file.number_of_objects + 1
          content := Function.update s.given_file.content s.id obj } }
    | _, _ => none
  else none

/-- The duplicate search of `add_property`: some `index < property_counter` has
a key equal (by `strcmp`) to `key`. -/
def key_present (s : State) (key : List Nat) : Bool :=
  (List.range s.property_counter).any fun index =>
    strcmp_eq ((s.given_file.content (s.id - 1)).properties index).key.string key

/-- Source `add_property`: both assertions, the duplicate search, then the new
property is written to cell `property_counter` of the latest object. -/
def add_property (s : State) (key value : List Nat) : Option State :=
  if 0 < s.id ∧ s.property_counter < MAX_PROPERTIES then
    if key_present s key then some s
    else
      let clean_value := clean_char s.latin1 value
      match initialize_String 4, initialize_String 4 with
      | some k, some v =>
        let cur := s.given_file.content (s.id - 1)
        let p : property := ⟨insert_chars k key, insert_chars v clean_value⟩
        let cur1 : content_object :=
          { cur with
            properties := Function.update cur.properties s.property_counter p
            number_of_properties := cur.number_of_properties + 1 }
        some { s with
          property_counter := s.property_counter + 1
          given_file := { s.given_file with
            content := Function.update s.given_file.content (s.id - 1) cur1 } }
      | _, _ => none
  else none

/-- Source `add_property_int`: `sprintf` writes the number and its terminator
into `char value_as_chars[12]`; a longer text leaves the array. -/
def add_property_int (s : State) (key : List Nat) (value : Int) : Option State :=
  if (decimal_int value ++ [0]).length ≤ 12 then add_property s key (decimal_int value ++ [0])
  else none

/-- Source `add_property_u4`: `sprintf` writes the number and its terminator
into `char value_as_chars[12]`; a longer text leaves the array. -/
def add_property_u4 (s : State) (key : List Nat) (value : Nat) : Option State :=
  if (decimal value ++ [0]).length ≤ 12 then add_property s key (decimal value ++ [0])
  else none

/-- Source `add_property_u8`: `sprintf` writes the number and its terminator
into `char value_as_chars[21]`; a longer text leaves the array. -/
def add_property_u8 (s : State) (key : List Nat) (value : Nat) : Option State :=
  if (decimal value ++ [0]).length ≤ 21 then add_property s key (decimal value ++ [0])
  else none

/-- Source `add_property_endianness`. -/
def add_property_endianness (s : State) (endianness : Int) : Option State :=
  add_property s (ascii "endianness")
    (if endianness ≠ 0 then ascii "little" else ascii "big")

/-- Source `reset_json`. `sizeof(json_output)` is 1, so only its first cell is
cleared. -/
def reset_json (s : State) : State :=
  { s with
    json_output := array_set s.json_output 0 0
    json := free_String s.json
    property_counter := 0
    id := 0
    given_file := file_info.zero }

/-! ## Call sequences of the log's interface -/

/-- One call of the log's interface. -/
inductive Op where
  | object (level : Int) (object_type wikidata : List Nat)
  | prop (key value : List Nat)
  | file_path (path : List Nat)
  | file_characteristics (file_kind : List Nat) (size : Nat)

/-- The call an `Op` stands for. -/
def Op.apply (s : State) : Op → Option State
  | Op.object level object_type wikidata => add_content_object s level object_type wikidata
  | Op.prop key value => add_property s key value
  | Op.file_path path => add_file_path s path
  | Op.file_characteristics file_kind size => add_file_characteristics s file_kind size

/-- A sequence of calls, in order; `none` as soon as one call fails. -/
def run (s : State) : List Op → Option State
  | [] => some s
  | op :: ops =>
    match op.apply s with
    | some s1 => run s1 ops
    | none => none

/-- The property list of object `i`: the cells below `number_of_properties`, as
pairs of the C strings of key and value. -/
def property_list (s : State) (i : Nat) : List (List Nat × List Nat) :=
  (List.range (s.given_file.content i).number_of_properties).map fun k =>
    (c_str ((s.given_file.content i).properties k).key.string,
     c_str ((s.given_file.content i).properties k).value.string)

/-! ## Example logs -/

/-- The state after the two objects of `test_add_content_object`. -/
def frame_example_state : State :=
  ((add_content_object State.initial 5 (ascii "some type") (ascii "Q1234567")).bind
    fun s => add_content_object s 7 (ascii "different type") (ascii "Qyyy")).getD State.initial

/-! ## Well-formed `String`s -/

/-- The String `str` holds the text `cs`: its buffer is `cs` followed by the
terminator, `used_size` counts both, and `cs` has no NUL. -/
def CString.holds (str : CString) (cs : List Nat) : Prop :=
  str.string = cs ++ [0] ∧ str.used_size = cs.length + 1 ∧ ∀ c ∈ cs, c ≠ 0

/-- The calls `add_content_object(level, type, wikidata)` for a list of
argument triples. -/
def object_ops (calls : List (Int × List Nat × List Nat)) : List Op :=
  calls.map fun c => Op.object c.1 c.2.1 c.2.2

/-- The two calls of `test_add_content_object`. -/
def dense_example_calls : List (Int × List Nat × List Nat) :=
  [(5, ascii "some type", ascii "Q1234567"), (7, ascii "different type", ascii "Qyyy")]

/-! ## First write wins: the reference list -/

/-- The calls `add_property(key, value)` for a list of argument pairs. -/
def prop_ops (calls : List (List Nat × List Nat)) : List Op :=
  calls.map fun c => Op.prop c.1 c.2

/-- What a call `add_property(key, value)` offers for storage: the C string of
the key and the C string of `clean_char(value)`. -/
def offered (latin1 : Int) (calls : List (List Nat × List Nat)) :
    List (List Nat × List Nat) :=
  calls.map fun c => (c_str c.1, c_str (clean_char latin1 c.2))

/-- First occurrences, in order, of the keys not in `seen`. -/
def first_writes_aux : List (List Nat) → List (List Nat × List Nat) →
    List (List Nat × List Nat)
  | _, [] => []
  | seen, (k, v) :: rest =>
    if k ∈ seen then first_writes_aux seen rest
    else (k, v) :: first_writes_aux (seen ++ [k]) rest

/-- The sequence of first occurrences of each distinct key, in order, each
with the value of its first occurrence. -/
def first_writes (l : List (List Nat × List Nat)) : List (List Nat × List Nat) :=
  first_writes_aux [] l

/-- The keys 1, 2, ..., n as one-char strings, each with an empty value. -/
def distinct_keys (n : Nat) : List (List Nat × List Nat) :=
  (List.range n).map fun i => ([i + 1], [])

/-- The latest object is `i0`, its stored properties are the list `l`, and
`property_counter` is in step with its `number_of_properties`. -/
def current_holds (t : State) (i0 : Nat) (l : List (List Nat × List Nat)) : Prop :=
  t.id = i0 + 1 ∧ t.property_counter = l.length ∧
  (t.given_file.content i0).number_of_properties = l.length ∧
  property_list t i0 = l

/-- The four `add_property` calls of `test_add_property`; the third passes
the key in an array of 20 chars. -/
def first_write_example_calls : List (List Nat × List Nat) :=
  [(ascii "volume name", ascii "my beautiful FAT12 volume"),
   (ascii "volume name", ascii "a second volume name"),
   (ascii "volume name" ++ List.replicate 9 0, ascii "a second volume name"),
   (ascii "volume size", ascii "4000")]

/-- The initial state with the option `--latin1` set. -/
def State.initial_latin1 : State := { State.initial with latin1 := 1 }

/-! ## The escaping rule, as the specification words it -/

/-- An upper-case hexadecimal digit. -/
def hex_upper (d : Nat) : Nat := (ascii "0123456789ABCDEF").getD d 0

/-- The escape of one byte: `%%` for `%`; backslash, `u` and the byte's value
as the four hexadecimal digits `00XX` for a backslash, a double quote, a byte
up to 0x1F and a byte from 0x80; the byte itself otherwise. -/
def escape_byte (b : Nat) : List Nat :=
  if b = 37 then [37, 37]
  else if b = 0x5C ∨ b = 0x22 ∨ b ≤ 0x1F ∨ 0x80 ≤ b then
    [0x5C, 117, 48, 48, hex_upper (b / 16), hex_upper (b % 16)]
  else [b]

/-- The reference function for `clean_char`: the input unchanged without
latin1, the concatenation of the escapes of the string's bytes with latin1. -/
def clean_char_reference (latin1 : Int) (value : List Nat) : List Nat :=
  if latin1 = 0 then value else (c_str value).flatMap escape_byte

/-! ## Detectors: what they call, in order

A detector is embedded as the list of the calls it makes to the log
(`add_content_object`, `add_property`), to the output (`print_line`), to the
buffer (`get_buffer`) and to the dispatcher (`analyze_recursive`,
`analyze_source_special`). What `get_buffer` returns, the width of
`unsigned long` and the library functions that are not part of the sources
at hand are parameters. -/

/-- An argument of a `print_line` format. -/
inductive Arg where
  | int (v : Int)
  | ulong (v : Nat)
  | ullong (v : Nat)
  | str (s : List Nat)
deriving DecidableEq

/-- One call made by a detector. -/
inductive Event where
  | add_content_object (level : Int) (object_type wikidata : List Nat)
  | add_property (key value : List Nat)
  | print_line (level : Int) (fmt : List Nat) (args : List Arg)
  | get_buffer (pos len : Nat)
  | analyze_recursive (level : Int) (rel_pos size : Nat) (flags : Int)
  | analyze_source_special (level : Int) (pos size : Nat)
deriving DecidableEq

/-- Library functions of the program that the sources at hand only declare
(`global.h`); the detectors pass their results on. -/
structure Lib where
  format_blocky_size : Nat → Nat → List Nat → List Nat → List Nat
  format_size : Nat → List Nat
  get_pstring : List Nat → List Nat
  get_padded_string : List Nat → Nat → Nat → List Nat
  format_utf16_be : List Nat → Nat → List Nat
  get_name_for_mbrtype : Int → List Nat

/-- Conversion of an `int` to an unsigned type of `w` bits. -/
def to_unsigned (w : Nat) (x : Int) : Nat := (x % (2 : Int) ^ w).toNat

/-- Conversion of an unsigned value to `int` (32 bits, two's complement). -/
def to_int (x : Nat) : Int :=
  if x % 2 ^ 32 < 2 ^ 31 then ((x % 2 ^ 32 : Nat) : Int) else ((x % 2 ^ 32 : Nat) : Int) - 2 ^ 32

/-- The conversion `%08lX`. -/
def sprintf_08lX (n : Nat) : List Nat :=
  let d := digits_fuel 16 (n + 1) n
  List.replicate (8 - d.length) 48 ++ d

/-- Event form of `add_property_int`. -/
def ev_property_int (key : List Nat) (value : Int) : Event :=
  Event.add_property key (decimal_int value ++ [0])

/-- Event form of `add_property_u4`. -/
def ev_property_u4 (key : List Nat) (value : Nat) : Event :=
  Event.add_property key (decimal value ++ [0])

/-- Event form of `add_property_u8`. -/
def ev_property_u8 (key : List Nat) (value : Nat) : Event :=
  Event.add_property key (decimal value ++ [0])

/-! ## cdaccess.c -/

/-- The macro `LBA_TO_SECS` on an `unsigned long` of `w` bits. -/
def LBA_TO_SECS (w : Nat) (lba : Nat) : Nat := (lba + 150) % 2 ^ w / 75

/-- The loop of `cddb_sum`, `while (n > 0)`; `fuel` bounds the iterations. -/
def cddb_sum_loop : Nat → Int → Int → Int
  | 0, _, ret => ret
  | fuel + 1, n, ret =>
    if n > 0 then cddb_sum_loop fuel (Int.tdiv n 10) (ret + Int.tmod n 10) else ret

/-- Source `cddb_sum`. The argument is an `int`, below 2^31, and every round
divides it by 10, so 10 rounds are never used up. -/
def cddb_sum (n : Int) : Int := cddb_sum_loop 10 n 0

/-- Source `add_cd_rom_json`, as the calls it makes. `sprintf` writes the
identifier to `char disk_id[9]`: eight digits and the terminator for an
identifier below 2^32. A larger one (of a 64-bit `unsigned long`) has more
digits than the array holds; the list shows them without a cut. -/
def add_cd_rom_json (level : Int) (ntracks : Int) (diskid : Nat) : List Event :=
  [Event.add_content_object level (ascii "CD-ROM") (ascii "Q7982"),
   ev_property_int (ascii "number_of_tracks") ntracks,
   Event.add_property (ascii "disk_ID") (sprintf_08lX diskid ++ [0])]

/-- Source `add_track_json`; `none` when `assert(kind == 0 || kind == 1)`
fails. `length * bytes_per_sector` is an `unsigned long` product. -/
def add_track_json (w : Nat) (level : Int) (kind : Int) (num : Int) (length : Nat)
    (seconds : Int) : Option (List Event) :=
  if kind = 0 then
    some [Event.add_content_object level (ascii "Audio track") (ascii "Q7302866"),
      ev_property_int (ascii "seconds") seconds,
      ev_property_int (ascii "number") num,
      ev_property_u8 (ascii "size") (length * 2352 % 2 ^ w)]
  else if kind = 1 then
    some [Event.add_content_object level (ascii "Track") (ascii "Q7831478"),
      ev_property_int (ascii "number") num,
      ev_property_u8 (ascii "size") (length * 2048 % 2 ^ w)]
  else none

/-- The table of contents as the two ioctls deliver it: the header (first and
last track number) and, per index, the control field and the `int` start
frame; `none` where the ioctl fails. Index `ntracks` is the lead-out. -/
structure Toc where
  header : Option (Nat × Nat)
  entry : Nat → Option (Nat × Int)

/-- The array `lba` after the read loop: the start frame of entry `i` as an
`unsigned long`. -/
def Toc.lba (toc : Toc) (w : Nat) (i : Nat) : Nat :=
  match toc.entry i with
  | some e => to_unsigned w e.2
  | none => 0

/-- The array `ctrl` after the read loop. -/
def Toc.ctrl (toc : Toc) (i : Nat) : Nat :=
  match toc.entry i with
  | some e => e.1
  | none => 0

/-- The checksum loop of `analyze_cdaccess`. -/
def cddb_cksum (w : Nat) (lba : Nat → Nat) : Nat → Int
  | 0 => 0
  | i + 1 => cddb_cksum w lba i + cddb_sum (to_int (LBA_TO_SECS w (lba i)))

/-- The value `totaltime` of `analyze_cdaccess`. -/
def cddb_totaltime (w : Nat) (lba : Nat → Nat) (ntracks : Nat) : Int :=
  to_int ((LBA_TO_SECS w (lba ntracks) + 2 ^ w - LBA_TO_SECS w (lba 0)) % 2 ^ w)

/-- The value `diskid` of `analyze_cdaccess`:
`(u4)(cksum % 0xff) << 24 | (u4)totaltime << 8 | (u4)ntracks`. -/
def cddb_diskid (w : Nat) (lba : Nat → Nat) (ntracks : Nat) : Nat :=
  (to_unsigned w (Int.tmod (cddb_cksum w lba ntracks) 255) <<< 24) % 2 ^ w |||
    (to_unsigned w (cddb_totaltime w lba ntracks) <<< 8) % 2 ^ w |||
    to_unsigned w ntracks

/-- One round of the track loop of `analyze_cdaccess`. -/
def track_events (lib : Lib) (w : Nat) (level : Int) (first : Int) (ctrl lba : Nat → Nat)
    (i : Nat) : Option (List Event) :=
  let length := (lba (i + 1) + 2 ^ w - lba i) % 2 ^ w
  if ctrl i &&& 4 = 0 then
    let seconds := to_int (length / 75)
    match add_track_json w level 0 (first + i) length seconds with
    | some evs =>
      some (evs ++ [Event.print_line level
        (ascii "Track %d: Audio track, %s, %3d min %02d sec")
        [Arg.int (first + i), Arg.str (lib.format_size (length * 2352 % 2 ^ 64)),
         Arg.int (Int.tdiv seconds 60), Arg.int (Int.tmod seconds 60)]])
    | none => none
  else
    match add_track_json w level 1 (first + i) length 0 with
    | some evs =>
      some (evs ++ [Event.print_line level (ascii "Track %d: Data track, %s")
          [Arg.int (first + i), Arg.str (lib.format_size (length * 2048 % 2 ^ w))],
        Event.analyze_source_special (level + 1) (lba i * 2048 % 2 ^ 64)
          ((length + 2 ^ w - 250) % 2 ^ w * 2048 % 2 ^ 64)])
    | none => none

/-- The track loop of `analyze_cdaccess`, rounds `0 .. n - 1`. -/
def track_loop (lib : Lib) (w : Nat) (level : Int) (first : Int) (ctrl lba : Nat → Nat) :
    Nat → Option (List Event)
  | 0 => some []
  | n + 1 =>
    match track_loop lib w level first ctrl lba n,
      track_events lib w level first ctrl lba n with
    | some a, some b => some (a ++ b)
    | _, _ => none

/-- Source `analyze_cdaccess` (the variant compiled with `USE_IOCTL_LINUX`):
the return value and the calls made. A failing ioctl and more than 99 tracks
return 0. `none` stands for the read of `lba[ntracks]` with a negative
`ntracks`. -/
def analyze_cdaccess (lib : Lib) (w : Nat) (toc : Toc) (level : Int) :
    Option (Int × List Event) :=
  match toc.header with
  | none => some (0, [])
  | some (first, last) =>
    let ntracks : Int := (last : Int) + 1 - first
    if ntracks > 99 then some (0, [])
    else if ntracks < 0 then none
    else if (List.range (ntracks.toNat + 1)).any (fun i => (toc.entry i).isNone) then
      some (0, [])
    else
      let n := ntracks.toNat
      let diskid := cddb_diskid w (toc.lba w) n
      match track_loop lib w level first toc.ctrl (toc.lba w) n with
      | some evs =>
        some (1,
          [Event.print_line level (ascii "CD-ROM, %d track%s, CDDB disk ID %08lX")
            [Arg.int ntracks, Arg.str (if ntracks ≠ 1 then ascii "s" else []),
             Arg.ulong diskid]]
          ++ add_cd_rom_json level ntracks diskid ++ evs)
      | none => none

/-! ## The CDDB identifier, as the specification words it -/

/-- Start of a track in seconds: `(frames + 150) / 75`. -/
def secs (f : Nat) : Nat := (f + 150) / 75

/-- The checksum: the sum, over the tracks `i < n`, of the sum of the decimal
digits of the track's start in seconds. -/
def cddb_checksum_reference (frames : Nat → Nat) (n : Nat) : Nat :=
  ((List.range n).map fun i => (Nat.digits 10 (secs (frames i))).sum).sum

/-- The identifier: checksum mod 255 from bit 24, total time from bit 8, track
count in the lowest byte. -/
def cddb_diskid_reference (frames : Nat → Nat) (n : Nat) : Nat :=
  (cddb_checksum_reference frames n % 255) <<< 24 |||
    (secs (frames n) - secs (frames 0)) <<< 8 ||| n

/-- Library functions that format nothing: enough to run a detector on an
example. -/
def Lib.blank : Lib :=
  ⟨fun _ _ _ _ => [], fun _ => [], fun _ => [], fun _ _ _ => [], fun _ _ => [],
   fun _ => []⟩

/-- A table of contents with one audio track at frame 0 and the lead-out at
frame 7500. -/
def toc_one_track : Toc :=
  ⟨some (1, 1), fun i => if i = 0 then some (0, 0) else some (0, 7500)⟩

/-- A table of contents whose header announces the tracks 1 to 100. -/
def toc_hundred_tracks : Toc :=
  ⟨some (1, 100), fun i => some (0, (i : Int) * 1000)⟩

/-- A table of contents whose only track starts at frame -151. -/
def toc_negative_frame : Toc :=
  ⟨some (1, 1), fun i => if i = 0 then some (0, -151) else some (0, 7500)⟩

/-! ## json.c: converting the log to JSON

The functions below write to the global `String json`. They are embedded as
functions on the pair of that String and a ghost list, which records the
`obj_id` of every call of `add_obj_json` in call order. -/

/-- Source `add_file_characteristics_json`. The argument `digits` is the value
of `floor(log10(given_file.size)) + 1`, a floating-point computation that the
embedding takes as a parameter. `sprintf` writes the size, a `d` and the
terminator to the temporary String, whose `used_size` is then set to `digits`;
`none` when that reaches beyond what was written. -/
def add_file_characteristics_json (digits : Nat) (s : State) (json : CString) :
    Option CString :=
  let j1 := insert_chars json (ascii "\x7b\"file kind\": \"")
  let j2 := insert_string j1 s.given_file.file_kind
  let j3 := insert_chars j2 (ascii "\", \"path\": \"")
  let j4 := insert_string j3 s.given_file.path
  let j5 := insert_chars j4 (ascii "\", \"size\": \"")
  match initialize_String 100 with
  | some _ =>
    let written := decimal s.given_file.size ++ [100, 0]
    if digits ≤ written.length then
      let size : CString := { used_size := digits, total_size := digits, string := written }
      let j6 := insert_string j5 size
      some (insert_chars j6 (ascii "\", \"content\": ["))
    else none
  | none => none

/-- Source `add_property_json`. -/
def add_property_json (s : State) (json : CString) (obj_id prop_id : Nat) : CString :=
  let j0 := if prop_id ≠ 0 then insert_chars json (ascii ", ") else json
  let j1 := insert_chars j0 (ascii "\"")
  let j2 := insert_string j1 ((s.given_file.content obj_id).properties prop_id).key
  let j3 := insert_chars j2 (ascii "\": \"")
  let j4 := insert_string j3 ((s.given_file.content obj_id).properties prop_id).value
  insert_chars j4 (ascii "\"")

/-- The loop over the candidates `x` of `add_obj_json`, with the flag
`new_content_list`; `recurse` is the recursive call. -/
def add_children (recurse : Nat → Int → CString × List Nat → Option (CString × List Nat))
    (s : State) (obj_id : Nat) :
    List Nat → Int → CString × List Nat → Option (CString × List Nat)
  | [], _, acc => some acc
  | x :: xs, new_content_list, acc =>
    if (s.given_file.content x).parent_id = (obj_id : Int) then
      match recurse x new_content_list acc with
      | some acc1 => add_children recurse s obj_id xs 0 acc1
      | none => none
    else add_children recurse s obj_id xs new_content_list acc

/-- Source `add_obj_json`; `fuel` bounds the depth of the recursion, `none`
when it is used up. -/
def add_obj_json : Nat → State → Nat → Int → CString × List Nat →
    Option (CString × List Nat)
  | 0, _, _, _, _ => none
  | fuel + 1, s, obj_id, first_in_a_list, (json, emitted) =>
    let j0 := if first_in_a_list = 0 then insert_chars json (ascii ", ") else json
    let j1 := insert_chars j0 (ascii "\x7b\"type\": \"")
    let j2 := insert_string j1 (s.given_file.content obj_id).object_type
    let j3 := insert_chars j2 (ascii "\",")
    let j4 := insert_chars j3 (ascii " \"wikidata\": \"")
    let j5 := insert_string j4 (s.given_file.content obj_id).wikidata
    let j6 := insert_chars j5 (ascii "\",")
    let j7 := insert_chars j6 (ascii " \"properties\": \x7b")
    let j8 := (List.range (s.given_file.content obj_id).number_of_properties).foldl
      (fun j i => add_property_json s j obj_id i) j7
    let j9 := insert_chars j8 (ascii "\x7d, \"content\": [")
    match add_children (add_obj_json fuel s) s obj_id
        (List.range s.given_file.number_of_objects) 1 (j9, emitted ++ [obj_id]) with
    | some (j10, emitted1) => some (insert_chars j10 (ascii "]\x7d"), emitted1)
    | none => none

/-- The loop of `convert_to_json` over all objects. -/
def add_roots (fuel : Nat) (s : State) :
    List Nat → CString × List Nat → Option (CString × List Nat)
  | [], acc => some acc
  | i :: rest, acc =>
    if (s.given_file.content i).level = 0 then
      match add_obj_json fuel s i (if i = 0 then 1 else 0) acc with
      | some acc1 => add_roots fuel s rest acc1
      | none => none
    else add_roots fuel s rest acc

/-- Source `convert_to_json` up to the closing brackets: the String `json` and
the ghost list of emitted ids. -/
def convert_to_json_trace (fuel digits : Nat) (s : State) : Option (CString × List Nat) :=
  match initialize_String 1000 with
  | some j0 =>
    match add_file_characteristics_json digits s j0 with
    | some j1 =>
      match add_roots fuel s (List.range s.given_file.number_of_objects) (j1, []) with
      | some (j2, emitted) => some (insert_chars j2 (ascii "]\x7d"), emitted)
      | none => none
    | none => none
  | none => none

/-- Source `convert_to_json`: the text is built in `json`
(`convert_to_json_trace`) and copied to `json_output` by `extract_chars`.
`json_output` is declared with one cell; the list shows what the copy writes
from that cell on, all but the first char of it behind the array. -/
def convert_to_json (fuel digits : Nat) (s : State) : Option State :=
  match convert_to_json_trace fuel digits s with
  | some (json, _) =>
    some { s with json := json, json_output := extract_chars json s.json_output }
  | none => none

/-! ## The document, as the specification words it -/

/-- The text of a String: its chars before the terminator. -/
def CString.text (c : CString) : List Nat := c_str c.string

/-- The ids of the objects whose `parent_id` is `p`, ascending. -/
def children_of (s : State) (p : Nat) : List Nat :=
  (List.range s.given_file.number_of_objects).filter fun x =>
    decide ((s.given_file.content x).parent_id = (p : Int))

/-- The ids of the level-0 objects, ascending. -/
def roots_of (s : State) : List Nat :=
  (List.range s.given_file.number_of_objects).filter fun i =>
    decide ((s.given_file.content i).level = 0)

/-- The properties of object `i` as `"key": "value"` pairs in insertion order,
separated by `, `. -/
def render_properties (s : State) (i : Nat) : List Nat :=
  (ascii ", ").intercalate ((property_list s i).map fun kv =>
    ascii "\"" ++ kv.1 ++ ascii "\": \"" ++ kv.2 ++ ascii "\"")

/-- Object `i` as a JSON object: type name, wikidata identifier, properties,
and the nested content list of its children, rendered the same way and
separated by `, `. `depth` bounds the nesting. -/
def render_object : Nat → State → Nat → List Nat
  | 0, _, _ => []
  | depth + 1, s, i =>
    ascii "\x7b\"type\": \"" ++ (s.given_file.content i).object_type.text ++
    ascii "\", \"wikidata\": \"" ++ (s.given_file.content i).wikidata.text ++
    ascii "\", \"properties\": \x7b" ++ render_properties s i ++
    ascii "\x7d, \"content\": [" ++
    (ascii ", ").intercalate ((children_of s i).map (render_object depth s)) ++
    ascii "]\x7d"

/-- The head of the document: file kind, path and size. The size shows the
first `digits` chars of what `sprintf("%llud")` wrote. -/
def render_header (digits : Nat) (s : State) : List Nat :=
  ascii "\x7b\"file kind\": \"" ++ s.given_file.file_kind.text ++
  ascii "\", \"path\": \"" ++ s.given_file.path.text ++
  ascii "\", \"size\": \"" ++ c_str ((decimal s.given_file.size ++ [100, 0]).take digits) ++
  ascii "\", \"content\": ["

/-- The document: the head, then the level-0 objects in ascending id order,
each but object 0 preceded by `, `, then the closing brackets. A nesting deeper
than the number of objects does not occur. -/
def render_document (digits : Nat) (s : State) : List Nat :=
  render_header digits s ++
  ((roots_of s).map fun r =>
    (if r = 0 then [] else ascii ", ") ++
      render_object s.given_file.number_of_objects s r).flatten ++
  ascii "]\x7d"

/-- The order in which the objects are emitted: object `i`, then its children
with their descendants. -/
def emission_order : Nat → State → Nat → List Nat
  | 0, _, _ => []
  | depth + 1, s, i => i :: ((children_of s i).map (emission_order depth s)).flatten

/-! ## Invariant of the log -/

/-- A String of the log is either untouched (all zero) or holds its text. -/
def CString.text_ok (c : CString) : Prop := c = CString.zero ∨ c.holds c.text

/-- What every log built through the interface satisfies: the two object
counters agree and stay within the array, `property_counter` is the property
count of the latest object, every parent id is below the object's own id, and
every String in use is well formed. -/
def log_ok (s : State) : Prop :=
  s.id = s.given_file.number_of_objects ∧ s.id ≤ MAX_OBJECTS ∧
  (0 < s.id → s.property_counter = (s.given_file.content (s.id - 1)).number_of_properties) ∧
  s.given_file.file_kind.text_ok ∧ s.given_file.path.text_ok ∧
  ∀ x, x < s.id →
    (s.given_file.content x).parent_id < (x : Int) ∧
    (s.given_file.content x).object_type.text_ok ∧
    (s.given_file.content x).wikidata.text_ok ∧
    ∀ k, k < (s.given_file.content x).number_of_properties →
      ((s.given_file.content x).properties k).key.text_ok ∧
      ((s.given_file.content x).properties k).value.text_ok

/-- Items of a list, the first preceded by `, ` unless `flag` is set, every
later one preceded by `, `: what the flag `new_content_list` produces. -/
def sep_join : Int → List (List Nat) → List Nat
  | _, [] => []
  | flag, a :: rest => (if flag = 0 then ascii ", " else []) ++ a ++ sep_join 0 rest

/-- Property `k` of object `i` as `"key": "value"`. -/
def render_property (s : State) (i k : Nat) : List Nat :=
  ascii "\"" ++ ((s.given_file.content i).properties k).key.text ++ ascii "\": \"" ++
    ((s.given_file.content i).properties k).value.text ++ ascii "\""

/-- Calls that build a log with two roots: object 0 with the children 1 (which
has the child 2) and 3, and object 4. -/
def json_example_ops : List Op :=
  [Op.file_characteristics (ascii "Regular file") 987654321, Op.file_path (ascii "/p"),
   Op.object 0 (ascii "A") (ascii "Q1"), Op.prop (ascii "k") (ascii "v"),
   Op.prop (ascii "k2") (ascii "v2"),
   Op.object 1 (ascii "B") (ascii "Q2"), Op.object 2 (ascii "C") (ascii "Q3"),
   Op.object 1 (ascii "D") (ascii "Q4"),
   Op.object 0 (ascii "E") (ascii "Q5"), Op.prop (ascii "z") (ascii "1")]

/-- The log built by `json_example_ops`. -/
def json_example_log : State :=
  (run (reset_json State.initial) json_example_ops).getD State.initial

/-- The parent links of a log are those of the backward scan: an object of
level 0 has none; any other object has none when no earlier object has a
lower level, and otherwise has the last earlier object of lower level. -/
def parents_ok (s : State) : Prop :=
  ∀ x, x < s.id →
    ((s.given_file.content x).level = 0 → (s.given_file.content x).parent_id = -1) ∧
    ((s.given_file.content x).level ≠ 0 →
      ((s.given_file.content x).parent_id = -1 ∧
        ∀ j, j < x → ¬ (s.given_file.content j).level < (s.given_file.content x).level) ∨
      ∃ p : Nat, (s.given_file.content x).parent_id = (p : Int) ∧ p < x ∧
        (s.given_file.content p).level < (s.given_file.content x).level ∧
        ∀ j, p < j → j < x →
          ¬ (s.given_file.content j).level < (s.given_file.content x).level)

/-- The first index from `a` on, among `c` cells, whose level is at most `L`;
`a + c` when there is none. -/
def scan_end (lev : Nat → Int) (L : Int) : Nat → Nat → Nat
  | a, 0 => a
  | a, c + 1 => if lev a ≤ L then a else scan_end lev L (a + 1) c

/-- The end of the subtree of object `i`: the first later object whose level
is not above the level of `i`, or the number of objects. -/
def subtree_end (s : State) (i : Nat) : Nat :=
  scan_end (fun j => (s.given_file.content j).level) (s.given_file.content i).level (i + 1)
    (s.given_file.number_of_objects - (i + 1))

/-! ## Helpers of the detectors -/

/-- Modelled from the spec: `get_be_long` is only declared in global.h; it
reads the big-endian 32-bit value at `buf + off` ("read a big-endian
block-size field"). -/
def get_be_long (buf : List Nat) (off : Nat) : Nat :=
  buf.getD off 0 * 2 ^ 24 + buf.getD (off + 1) 0 * 2 ^ 16 + buf.getD (off + 2) 0 * 2 ^ 8
    + buf.getD (off + 3) 0

/-- The test `memcmp(buf + off, sig, n) == 0` for a signature of `n` bytes. -/
def memcmp_eq (buf : List Nat) (off : Nat) (sig : List Nat) : Bool :=
  decide ((buf.drop off).take sig.length = sig)

/-! ## amiga.c -/

/-- The struct `dostype`; a NULL pointer is `none`. `properties` lists the
properties that the call of `add_amiga_dostype` passes. -/
structure dostype where
  typecode : Option (List Nat)
  isfs : Int
  name : Option (List Nat)
  wikidata : Option (List Nat)
  property_count : Nat
  properties : List (List Nat × List Nat)

/-- The table `amiga_dostypes` as `init_amiga` fills it: 46 named entries and
the closing entry without a name. -/
def init_amiga : List dostype :=
  let intl_t := (ascii "intl", ascii "true")
  let intl_f := (ascii "intl", ascii "false")
  let dir_cache_t := (ascii "dir_cache", ascii "true")
  let dir_cache_f := (ascii "dir_cache", ascii "false")
  let multiuser_t := (ascii "multiuser", ascii "true")
  let multiuser_f := (ascii "multiuser", ascii "false")
  let longfilenames_t := (ascii "long_file_names", ascii "true")
  let version_0 := (ascii "version", ascii "0")
  let version_1 := (ascii "version", ascii "1")
  let version_2 := (ascii "version", ascii "2")
  let version_3 := (ascii "version", ascii "3")
  let scsidirect := (ascii "SCSI_direct", ascii "true")
  let root := (ascii "kind", ascii "root")
  let swap := (ascii "kind", ascii "swap")
  let other := (ascii "kind", ascii "other")
  let experimental := (ascii "experimental", ascii "true")
  let e := fun (code : List Nat) (isfs : Int) (name wikidata : String) (count : Nat)
      (props : List (List Nat × List Nat)) =>
    (⟨some code, isfs, some (ascii name), some (ascii wikidata), count, props⟩ : dostype)
  [e (ascii "DOS" ++ [0]) 1 "Amiga Old File System" "Q4746198" 2 [intl_f, multiuser_f],
   e (ascii "DOS" ++ [1]) 1 "Amiga Fast File System" "Q370047" 2 [intl_f, multiuser_f],
   e (ascii "DOS" ++ [2]) 1 "Amiga Old File System" "Q4746198" 3
     [intl_t, multiuser_f, dir_cache_f],
   e (ascii "DOS" ++ [3]) 1 "Amiga Fast File System" "Q370047" 3
     [intl_t, multiuser_f, dir_cache_f],
   e (ascii "DOS" ++ [4]) 1 "Amiga Old File System" "Q4746198" 3
     [intl_t, multiuser_f, dir_cache_t],
   e (ascii "DOS" ++ [5]) 1 "Amiga Fast File System" "Q370047 " 3
     [intl_t, multiuser_f, dir_cache_t],
   e (ascii "DOS" ++ [6]) 1 "Amiga Old File System" "Q4746198" 2
     [multiuser_f, longfilenames_t],
   e (ascii "DOS" ++ [7]) 1 "Amiga Fast File System" "Q370047" 2
     [multiuser_f, longfilenames_t],
   e (ascii "muFS") 1 "Amiga Fast File System" "Q370047" 3 [intl_t, multiuser_t, dir_cache_f],
   e (ascii "muF" ++ [0]) 1 "Amiga Old File System" "Q4746198" 2 [intl_f, multiuser_t],
   e (ascii "muF" ++ [1]) 1 "Amiga Fast File System" "Q370047" 2 [intl_f, multiuser_t],
   e (ascii "muF" ++ [2]) 1 "Amiga Old File System" "Q4746198" 3
     [intl_t, multiuser_t, dir_cache_f],
   e (ascii "muF" ++ [3]) 1 "Amiga Fast File System" "Q370047" 3
     [intl_t, multiuser_t, dir_cache_f],
   e (ascii "muF" ++ [4]) 1 "Amiga Old File System" "Q4746198" 3
     [intl_t, multiuser_t, dir_cache_t],
   e (ascii "muF" ++ [5]) 1 "Amiga Fast File System" "Q370047" 3
     [intl_t, multiuser_t, dir_cache_t],
   e (ascii "SFS" ++ [0]) 1 "Amiga Smart File System" "Q1054031" 0 [],
   e (ascii "PFS" ++ [0]) 1 "Amiga Professional File System" "Q7247965" 1 [version_0],
   e (ascii "PFS" ++ [1]) 1 "Amiga Professional File System" "Q7247965" 1 [version_1],
   e (ascii "PFS" ++ [2]) 1 "Amiga Professional File System" "Q7247965" 1 [version_2],
   e (ascii "PFS" ++ [3]) 1 "Amiga Professional File System" "Q7247965" 1 [version_3],
   e (ascii "PDS" ++ [2]) 1 "Amiga Professional File System" "Q7247965" 2
     [version_2, scsidirect],
   e (ascii "PDS" ++ [3]) 1 "Amiga Professional File System" "Q7247965" 3
     [version_3, scsidirect],
   e (ascii "muPF") 1 "Amiga Professional File System" "Q7247965" 1 [multiuser_t],
   e (ascii "AFS" ++ [0]) 1 "Amiga Ami-File-Safe" "Q55340903 " 0 [],
   e (ascii "AFS" ++ [1]) 1 "Amiga Ami-File-Safe" "Q55340903 " 1 [experimental],
   e (ascii "UNI" ++ [0]) 0 "Amiga Unix" "Q295179" 0 [],
   e (ascii "UNI" ++ [1]) 0 "Amiga Unix" "Q295179" 0 [],
   e (ascii "KICK") 1 "Boot disk" "Q893130 " 0 [],
   e (ascii "BOOU") 1 "Boot disk" "Q893130 " 0 [],
   e (ascii "CD00") 0 "High Sierra format" "Q5756978" 0 [],
   e (ascii "CD01") 0 "ISO9660" "Q55336682" 0 [],
   e (ascii "CDDA") 0 "Audio CD" "Q1121020" 0 [],
   e (ascii "CDFS") 0 "CD-ROM" "Q7982" 0 [],
   e [0x66, 0x2d, 0xab, 0xac] 0 "CD-ROM" "Q7982" 0 [],
   e (ascii "NBR" ++ [7]) 0 "NetBSD" "Q34225" 1 [root],
   e (ascii "NBS" ++ [1]) 0 "NetBSD" "Q34225" 1 [swap],
   e (ascii "NBR" ++ [7]) 0 "NetBSD" "Q34225" 1 [other],
   e (ascii "LNX" ++ [0]) 0 "Linux" "Q388" 0 [],
   e (ascii "EXT2") 0 "Ext2" "Q283527 " 0 [],
   e (ascii "SWAP") 0 "Linux swap" "Q779098" 0 [],
   e (ascii "SWP" ++ [0]) 0 "Linux swap" "Q779098" 0 [],
   e (ascii "MNX" ++ [0]) 0 "MINIX" "Q685924" 0 [],
   e (ascii "MAC" ++ [0]) 0 "Apple HFS" "Q1058465" 0 [],
   e (ascii "MSD" ++ [0]) 0 "MS-DOS" "Q47604" 0 [],
   e (ascii "MSH" ++ [0]) 0 "MS-DOS" "Q47604" 0 [],
   e (ascii "BFFS") 0 "Berkeley Fast Filesystem" "Q2704864" 0 [],
   ⟨none, 0, none, none, 0, []⟩]

/-- The global table after `init_amiga`. -/
def amiga_dostypes : List dostype := init_amiga

/-- The loop of `get_dostype` from index `i` on: it ends at the first entry
without a name (or at the end of the array). -/
def get_dostype_loop (code : List Nat) : List dostype → Nat → Int
  | [], _ => -1
  | e :: rest, i =>
    match e.name, e.typecode with
    | some _, some typecode =>
      if code.take 4 = typecode.take 4 then (i : Int) else get_dostype_loop code rest (i + 1)
    | some _, none => get_dostype_loop code rest (i + 1)
    | none, _ => -1

/-- Source `get_dostype`. -/
def get_dostype (code : List Nat) : Int := get_dostype_loop code amiga_dostypes 0

/-- The loop of `get_name_for_dostype`. -/
def get_name_loop (code : List Nat) : List dostype → List Nat
  | [] => ascii "Unknown"
  | e :: rest =>
    match e.name, e.typecode with
    | some name, some typecode =>
      if code.take 4 = typecode.take 4 then name else get_name_loop code rest
    | some _, none => get_name_loop code rest
    | none, _ => ascii "Unknown"

/-- Source `get_name_for_dostype`. -/
def get_name_for_dostype (code : List Nat) : List Nat := get_name_loop code amiga_dostypes

/-- A lower-case hexadecimal digit. -/
def hex_lower (d : Nat) : Nat := if d < 10 then 48 + d else 87 + d

/-- Source `format_dostype`: a byte below 10 as a backslash and a digit, a
byte below 32 by `0x%02x`, any other byte as it is. -/
def format_dostype (code : List Nat) : List Nat :=
  (List.range 4).flatMap fun i =>
    let c := code.getD i 0
    if c < 10 then [0x5C, 48 + c]
    else if c < 32 then [48, 120, hex_lower (c / 16), hex_lower (c % 16)]
    else [c]

/-- The scan of `detect_amiga_partmap` for the signature `RDSK` in the blocks
`off, off + 1, ...` while `off < 16`; `n` is `16 - off`. The result is the
reads made and, when found, the block number and the block. -/
def find_rdsk (get_buffer : Nat → Nat → List Nat) :
    Nat → Nat → List Event × Option (Nat × List Nat)
  | _, 0 => ([], none)
  | off, n + 1 =>
    let buf := get_buffer (off * 512) 512
    if buf.length < 512 then ([Event.get_buffer (off * 512) 512], none)
    else if memcmp_eq buf 0 (ascii "RDSK") then
      ([Event.get_buffer (off * 512) 512], some (off, buf))
    else
      let r := find_rdsk get_buffer (off + 1) n
      (Event.get_buffer (off * 512) 512 :: r.1, r.2)

/-- The calls that record the content object of a partition's type: the table
entry at the index that `get_dostype` returns. `none` stands for the read of
`amiga_dostypes[-1]` and for the read of a property that the table entry
announces but was not given. -/
def dostype_object_events (level : Int) (code : List Nat) : Option (List Event) :=
  match get_dostype code with
  | Int.ofNat index =>
    match amiga_dostypes[index]? with
    | some e =>
      match e.name, e.wikidata with
      | some name, some wikidata =>
        if e.property_count ≤ e.properties.length then
          some (Event.add_content_object (level + 1) name wikidata ::
            (e.properties.take e.property_count).map fun p => Event.add_property p.1 p.2)
        else none
      | _, _ => none
    | none => none
  | Int.negSucc _ => none

/-- The value `size` of one round of the partition loop: the cylinder count
`high + 1 - low`, an `unsigned long` of `w` bits, times the cylinder size, a
64-bit product. -/
def partition_sectors (w : Nat) (buf : List Nat) : Nat :=
  (get_be_long buf 168 + 1 + 2 ^ w - get_be_long buf 164) % 2 ^ w *
    (get_be_long buf 140 * get_be_long buf 148 % 2 ^ 64) % 2 ^ 64

/-- The value `start` of one round of the partition loop. -/
def partition_start (buf : List Nat) : Nat :=
  get_be_long buf 164 * (get_be_long buf 140 * get_be_long buf 148 % 2 ^ 64) % 2 ^ 64

/-- One round of the partition loop of `detect_amiga_partmap` on a readable
block with the signature `PART`: the calls made after the block was read. -/
def partition_entry_events (lib : Lib) (w : Nat) (level : Int) (i : Int) (buf : List Nat) :
    Option (List Event) :=
  let start := partition_start buf
  let size := partition_sectors w buf
  let s := lib.format_blocky_size size 512 (ascii "sectors") (ascii " from " ++ decimal start)
  let name := lib.get_pstring (buf.drop 36)
  match dostype_object_events level (buf.drop 192) with
  | some type_events =>
    some (
      [Event.add_content_object level (ascii "Partition") (ascii "Q255215"),
       Event.add_property (ascii "kind") (ascii "amiga"),
       ev_property_int (ascii "number") i,
       ev_property_u8 (ascii "size") (size * 512 % 2 ^ 64),
       ev_property_int (ascii "sector_size") 512,
       Event.print_line level (ascii "Partition %d: %s") [Arg.int i, Arg.str s]]
      ++ (if name.headD 0 ≠ 0 then
            [Event.add_property (ascii "drive_name") name,
             Event.print_line (level + 1) (ascii "Drive name \"%s\"") [Arg.str name]]
          else [])
      ++ type_events
      ++ [Event.print_line (level + 1) (ascii "Type \"%s\" (%s)")
            [Arg.str (format_dostype (buf.drop 192)),
             Arg.str (get_name_for_dostype (buf.drop 192))]]
      ++ (if size > 0 ∧ start > 0 then
            [Event.analyze_recursive (level + 1) (start * 512 % 2 ^ 64) (size * 512 % 2 ^ 64) 0]
          else []))
  | none => none

/-- The partition loop of `detect_amiga_partmap`,
`for (i = 1; part_ptr != 0xffffffffUL; i++)`; `fuel` bounds the rounds, `none`
when it is used up. The two `print_line` calls of the error exits name `%d`
in the format and pass no argument. -/
def partition_walk (lib : Lib) (w : Nat) (get_buffer : Nat → Nat → List Nat) (level : Int) :
    Nat → Int → Nat → Option (List Event)
  | 0, _, _ => none
  | fuel + 1, i, part_ptr =>
    if part_ptr = 0xffffffff then some []
    else
      let buf := get_buffer (part_ptr * 512) 256
      if buf.length < 256 then
        some [Event.get_buffer (part_ptr * 512) 256,
          Event.add_content_object level (ascii "Partition") (ascii "Q255215"),
          Event.add_property (ascii "kind") (ascii "amiga"),
          ev_property_int (ascii "number") i,
          Event.print_line level (ascii "Partition %d: Can't read partition info block") []]
      else if ¬ memcmp_eq buf 0 (ascii "PART") then
        some [Event.get_buffer (part_ptr * 512) 256,
          Event.add_content_object level (ascii "Partition") (ascii "Q255215"),
          Event.add_property (ascii "kind") (ascii "amiga"),
          ev_property_int (ascii "number") i,
          Event.print_line level (ascii "Partition %d: Invalid signature") []]
      else
        match partition_entry_events lib w level i buf,
          partition_walk lib w get_buffer level fuel (i + 1) (get_be_long buf 16) with
        | some evs, some rest => some (Event.get_buffer (part_ptr * 512) 256 :: evs ++ rest)
        | _, _ => none

/-- Source `detect_amiga_partmap`. -/
def detect_amiga_partmap (lib : Lib) (w : Nat) (get_buffer : Nat → Nat → List Nat)
    (level : Int) (fuel : Nat) : Option (List Event) :=
  match find_rdsk get_buffer 0 16 with
  | (reads, none) => some reads
  | (reads, some (off, buf)) =>
    let blocksize := get_be_long buf 16
    let head :=
      reads ++
      [Event.add_content_object level (ascii "Amiga rigid disk partition map")
        (ascii "Q55357472")] ++
      (if off = 0 then [Event.print_line level (ascii "Amiga Rigid Disk partition map") []]
       else
        [ev_property_int (ascii "sector") off,
         Event.print_line level (ascii "Amiga Rigid Disk partition map at sector %d")
           [Arg.int off]]) ++
      [ev_property_u4 (ascii "sector_size") blocksize]
    if blocksize < 256 ∨ blocksize &&& ((blocksize + 2 ^ w - 1) % 2 ^ w) ≠ 0 then
      some (head ++
        [Event.print_line (level + 1) (ascii "Illegal block size %lu") [Arg.ulong blocksize]])
    else
      match partition_walk lib w get_buffer level fuel 1 (get_be_long buf 28) with
      | some walk =>
        some (head ++
          (if blocksize ≠ 512 then
            [Event.print_line (level + 1)
              (ascii "Unusual block size %lu, not sure this will work...")
              [Arg.ulong blocksize]]
           else []) ++ walk)
      | none => none

/-! ## Reading a detector's calls as recorded objects -/

/-- The `add_property` calls that follow in the list before the next call that
creates an object or starts a nested analysis: the calls made while the same
object is the current one. -/
def property_calls : List Event → List (List Nat × List Nat)
  | [] => []
  | Event.add_property key value :: rest => (key, value) :: property_calls rest
  | Event.print_line _ _ _ :: rest => property_calls rest
  | Event.get_buffer _ _ :: rest => property_calls rest
  | Event.add_content_object _ _ _ :: _ => []
  | Event.analyze_recursive _ _ _ _ :: _ => []
  | Event.analyze_source_special _ _ _ :: _ => []

/-- The property lists of the objects of type `Partition` that a list of calls
records, in order: for each such `add_content_object` the first writes among
the `add_property` calls that follow it. -/
def partition_records (latin1 : Int) : List Event → List (List (List Nat × List Nat))
  | [] => []
  | Event.add_content_object _ object_type _ :: rest =>
    if c_str object_type = ascii "Partition" then
      first_writes (offered latin1 (property_calls rest)) :: partition_records latin1 rest
    else partition_records latin1 rest
  | Event.add_property _ _ :: rest => partition_records latin1 rest
  | Event.print_line _ _ _ :: rest => partition_records latin1 rest
  | Event.get_buffer _ _ :: rest => partition_records latin1 rest
  | Event.analyze_recursive _ _ _ _ :: rest => partition_records latin1 rest
  | Event.analyze_source_special _ _ _ :: rest => partition_records latin1 rest

/-- An example partition-map block: signature `RDSK`, block size 1024, the
partition list at block 1. -/
def amiga_example_rdsk : List Nat :=
  ascii "RDSK" ++ List.replicate 12 0 ++ [0, 0, 4, 0] ++ List.replicate 8 0 ++ [0, 0, 0, 1] ++
    List.replicate 480 0

/-- An example partition block: signature `PART`, next pointer 0xffffffff, no
drive name, 2 heads, 3 sectors per track, cylinders 1 to 4, type `DOS\0`. -/
def amiga_example_part : List Nat :=
  ascii "PART" ++ List.replicate 12 0 ++ [255, 255, 255, 255] ++ List.replicate 120 0 ++
    [0, 0, 0, 2] ++ List.replicate 4 0 ++ [0, 0, 0, 3] ++ List.replicate 12 0 ++
    [0, 0, 0, 1] ++ [0, 0, 0, 4] ++ List.replicate 20 0 ++ ascii "DOS" ++ [0] ++
    List.replicate 60 0

/-- A disk whose block 0 is `amiga_example_rdsk` and whose block 1 starts with
`amiga_example_part`; nothing else can be read. -/
def amiga_example_get_buffer (pos len : Nat) : List Nat :=
  if pos = 0 ∧ len = 512 then amiga_example_rdsk
  else if pos = 512 ∧ len = 256 then amiga_example_part
  else []

/-- No call in the list creates an object of type `Partition`. -/
def no_partition_object (evs : List Event) : Prop :=
  ∀ level object_type wikidata, Event.add_content_object level object_type wikidata ∈ evs →
    c_str object_type ≠ ascii "Partition"

/-! ## cdrom.c -/

/-- Modelled from the spec: `get_le_long` is only declared in global.h; by its
name it reads the little-endian 32-bit value at `buf + off`. -/
def get_le_long (buf : List Nat) (off : Nat) : Nat :=
  buf.getD off 0 + buf.getD (off + 1) 0 * 2 ^ 8 + buf.getD (off + 2) 0 * 2 ^ 16
    + buf.getD (off + 3) 0 * 2 ^ 24

/-- Modelled from the spec: `get_le_short` is only declared in global.h; by
its name it reads the little-endian 16-bit value at `buf + off`. -/
def get_le_short (buf : List Nat) (off : Nat) : Nat :=
  buf.getD off 0 + buf.getD (off + 1) 0 * 2 ^ 8

/-- The table `media_types`. -/
def media_types : List (List Nat) :=
  [ascii "non-emulated", ascii "1.2M floppy", ascii "1.44M floppy", ascii "2.88M floppy",
   ascii "hard disk", ascii "reserved type 5", ascii "reserved type 6",
   ascii "reserved type 7", ascii "reserved type 8", ascii "reserved type 9",
   ascii "reserved type 10", ascii "reserved type 11", ascii "reserved type 12",
   ascii "reserved type 13", ascii "reserved type 14", ascii "reserved type 15"]

/-- Source `get_name_for_eltorito_platform`. -/
def get_name_for_eltorito_platform (id : Int) : List Nat :=
  if id = 0 then ascii "x86"
  else if id = 1 then ascii "PowerPC"
  else if id = 2 then ascii "Macintosh"
  else if id = 0xEF then ascii "EFI"
  else ascii "unknown"

/-- The `switch (media)` of `dump_boot_catalog`: case 4 has no `break` and
falls through to the default. -/
def media_events (media : Nat) : List Event :=
  if media = 0 then [Event.add_property (ascii "source") (ascii "non-emulated")]
  else if media = 1 then
    [Event.add_property (ascii "source") (ascii "floppy"),
     Event.add_property (ascii "floppy_size") (ascii "1.2")]
  else if media = 2 then
    [Event.add_property (ascii "source") (ascii "floppy"),
     Event.add_property (ascii "floppy_size") (ascii "1.44")]
  else if media = 3 then
    [Event.add_property (ascii "source") (ascii "floppy"),
     Event.add_property (ascii "floppy_size") (ascii "2.88")]
  else if media = 4 then
    [Event.add_property (ascii "source") (ascii "hard_disk"),
     Event.add_property (ascii "source") (ascii "unknown")]
  else [Event.add_property (ascii "source") (ascii "unknown")]

/-- The branch of `dump_boot_catalog` for a boot entry (tag 0x88 or 0x00) at
offset `off` of the sector `buf`. -/
def boot_entry_events (lib : Lib) (w : Nat) (level : Int) (platform : Nat) (buf : List Nat)
    (off : Nat) : List Event :=
  let bootable := buf.getD off 0 = 0x88
  let media := buf.getD (off + 1) 0 % 16
  let system_type := buf.getD (off + 4) 0
  let start := get_le_long buf (off + 8)
  let preload := get_le_short buf (off + 6)
  [Event.print_line level (ascii "%s %s image, starts at %lu, preloads %s")
    [Arg.str (if bootable then ascii "Bootable" else ascii "Non-bootable"),
     Arg.str (media_types.getD media []), Arg.ulong start,
     Arg.str (lib.format_size (preload * 512 % 2 ^ w))],
   Event.print_line (level + 1) (ascii "Platform 0x%02X (%s), System Type 0x%02X (%s)")
    [Arg.int platform, Arg.str (get_name_for_eltorito_platform platform),
     Arg.int system_type, Arg.str (lib.get_name_for_mbrtype system_type)],
   Event.add_content_object level (ascii "Disk Image") (ascii "Q592312"),
   Event.add_property (ascii "bootable") (if bootable then ascii "true" else ascii "false")]
  ++ media_events media
  ++ [ev_property_u4 (ascii "start_sector") start,
      Event.add_property (ascii "platform") (get_name_for_eltorito_platform platform),
      Event.add_property (ascii "mbr_type") (lib.get_name_for_mbrtype system_type)]
  ++ (if start > 0 then [Event.analyze_recursive (level + 1) (start * 2048) 0 0] else [])

/-- The loop of `dump_boot_catalog`,
`for (entry = 1; entry < maxentry + 1; entry++)`, with the variables `entry`,
`maxentry`, `platform` and the sector `buf` at hand. `fuel` bounds the rounds;
`none` when it is used up, and when `entry * 32` leaves the `int` range. -/
def boot_catalog_loop (lib : Lib) (w : Nat) (get_buffer : Nat → Nat → List Nat) (pos : Nat)
    (level : Int) : Nat → Nat → Nat → Nat → List Nat → Option (List Event)
  | 0, _, _, _, _ => none
  | fuel + 1, entry, maxentry, platform, buf =>
    if ¬ entry < maxentry + 1 then some []
    else if 2 ^ 31 ≤ entry * 32 then none
    else
      let next := entry % 64 = 0
      let sector_pos := (pos + entry / 64 * 2048) % 2 ^ 64
      let reads := if next then [Event.get_buffer sector_pos 2048] else []
      let buf := if next then get_buffer sector_pos 2048 else buf
      if next ∧ buf.length < 2048 then some reads
      else
        let off := entry * 32 % 2048
        let tag := buf.getD off 0
        if maxentry ≤ entry ∧ tag ≠ 0x88 then some reads
        else
          let maxentry := if maxentry ≤ entry then maxentry + 1 else maxentry
          if entry = 1 ∧ ¬ (tag = 0x88 ∨ tag = 0x00) then
            some (reads ++ [Event.print_line level (ascii "Initial/Default entry missing") []])
          else
            let maxentry :=
              if entry = 1 ∧ (buf.getD (off + 32) 0 = 0x90 ∨ buf.getD (off + 32) 0 = 0x91) then 3
              else maxentry
            if tag = 0x88 ∨ tag = 0x00 then
              match boot_catalog_loop lib w get_buffer pos level fuel (entry + 1) maxentry
                  platform buf with
              | some rest => some (reads ++ boot_entry_events lib w level platform buf off ++ rest)
              | none => none
            else if tag = 0x44 then
              match boot_catalog_loop lib w get_buffer pos level fuel (entry + 1) (maxentry + 1)
                  platform buf with
              | some rest => some (reads ++ rest)
              | none => none
            else if tag = 0x90 ∨ tag = 0x91 then
              match boot_catalog_loop lib w get_buffer pos level fuel (entry + 1)
                  (entry + 1 + get_le_short buf (off + 2) + (if tag = 0x90 then 1 else 0))
                  (buf.getD (off + 1) 0) buf with
              | some rest => some (reads ++ rest)
              | none => none
            else
              some (reads ++
                [Event.print_line level (ascii "Unknown entry type 0x%02X") [Arg.int tag]])

/-- Source `dump_boot_catalog`. -/
def dump_boot_catalog (lib : Lib) (w : Nat) (get_buffer : Nat → Nat → List Nat) (pos : Nat)
    (level : Int) (fuel : Nat) : Option (List Event) :=
  let buf := get_buffer pos 2048
  if buf.length < 2048 then some [Event.get_buffer pos 2048]
  else if buf.getD 0 0 ≠ 0x01 ∨ buf.getD 30 0 ≠ 0x55 ∨ buf.getD 31 0 ≠ 0xAA then
    some [Event.get_buffer pos 2048,
      Event.print_line level (ascii "Validation entry missing") []]
  else
    match boot_catalog_loop lib w get_buffer pos level fuel 1 2 (buf.getD 1 0) buf with
    | some evs => some (Event.get_buffer pos 2048 :: evs)
    | none => none

/-- The loop `for (i = strlen(t)-1; i >= 0 && t[i] == ' '; i--) t[i] = 0;`:
the string without its trailing blanks. -/
def trim_blanks (t : List Nat) : List Nat :=
  ((c_str t).reverse.dropWhile fun c => c = 32).reverse

/-- The `switch (type)` of `detect_iso` for the descriptor `buf` read at
`sector`; `cfuel` is the fuel of `dump_boot_catalog`. -/
def iso_descriptor_events (lib : Lib) (w : Nat) (get_buffer : Nat → Nat → List Nat)
    (level : Int) (cfuel : Nat) (sector : Nat) (buf : List Nat) : Option (List Event) :=
  let type := buf.getD 0 0
  if type = 0 then
    if ¬ memcmp_eq buf 7 (ascii "EL TORITO SPECIFICATION") then
      some [Event.print_line (level + 1) (ascii "Boot record of unknown format") []]
    else
      let bcpos := get_le_long buf 0x47
      match dump_boot_catalog lib w get_buffer (bcpos * 2048 % 2 ^ 64) (level + 2) cfuel with
      | some evs =>
        some ([Event.print_line (level + 1) (ascii "El Torito boot record, catalog at %llu")
                [Arg.ullong bcpos],
               ev_property_u8 (ascii "el_torito_boot_record") bcpos] ++ evs)
      | none => none
  else if type = 1 then
    some [Event.print_line (level + 1) (ascii "Additional Primary Volume Descriptor") [],
      Event.add_property (ascii "descriptor") (ascii "additional_primary_volume_descriptor")]
  else if type = 2 then
    let t := trim_blanks (lib.format_utf16_be (buf.drop 40) 32)
    some [Event.print_line (level + 1) (ascii "Joliet extension, volume name \"%s\"")
        [Arg.str t],
      Event.add_property (ascii "joliet_extension") t]
  else if type = 3 then
    some [Event.print_line (level + 1) (ascii "Volume Partition Descriptor") [],
      Event.add_property (ascii "descriptor") (ascii "volume_partition_descriptor")]
  else
    some [Event.print_line (level + 1) (ascii "Descriptor type %d at sector %d")
      [Arg.int type, Arg.int sector]]

/-- The loop `for (sector = 17; ; sector++)` of `detect_iso` from `sector` on.
`fuel` bounds the rounds; `none` when it is used up, and when `sector * 2048`
leaves the `int` range. -/
def iso_sector_loop (lib : Lib) (w : Nat) (get_buffer : Nat → Nat → List Nat) (level : Int)
    (cfuel : Nat) : Nat → Nat → Option (List Event)
  | 0, _ => none
  | fuel + 1, sector =>
    if 2 ^ 31 ≤ sector * 2048 then none
    else
      let buf := get_buffer (sector * 2048) 2048
      if buf.length < 2048 then some [Event.get_buffer (sector * 2048) 2048]
      else if ¬ memcmp_eq buf 1 (ascii "CD001") then
        some [Event.get_buffer (sector * 2048) 2048,
          Event.print_line (level + 1) (ascii "Signature missing in sector %d")
            [Arg.int sector]]
      else if buf.getD 0 0 = 255 then some [Event.get_buffer (sector * 2048) 2048]
      else
        match iso_descriptor_events lib w get_buffer level cfuel sector buf,
            iso_sector_loop lib w get_buffer level cfuel fuel (sector + 1) with
        | some evs, some rest => some (Event.get_buffer (sector * 2048) 2048 :: evs ++ rest)
        | _, _ => none

/-- The calls of `detect_iso` between the signature check and the descriptor
loop, for the volume descriptor `buf`. -/
def iso_volume_events (lib : Lib) (level : Int) (buf : List Nat) : List Event :=
  let volume := lib.get_padded_string (buf.drop 40) 32 32
  let publisher := lib.get_padded_string (buf.drop 318) 128 32
  let preparer := lib.get_padded_string (buf.drop 446) 128 32
  let application := lib.get_padded_string (buf.drop 574) 128 32
  let blocks := get_le_long buf 80
  let blocksize := get_le_short buf 128
  [Event.print_line level (ascii "ISO9660 file system") [],
   Event.print_line (level + 1) (ascii "Volume name \"%s\"") [Arg.str volume],
   Event.add_content_object level (ascii "ISO9660") (ascii "Q55336682"),
   Event.add_property (ascii "volume_name") volume]
  ++ (if publisher.headD 0 ≠ 0 then
        [Event.print_line (level + 1) (ascii "Publisher   \"%s\"") [Arg.str publisher],
         Event.add_property (ascii "publisher") publisher]
      else [])
  ++ (if preparer.headD 0 ≠ 0 then
        [Event.print_line (level + 1) (ascii "Preparer    \"%s\"") [Arg.str preparer],
         Event.add_property (ascii "preparer") preparer]
      else [])
  ++ (if application.headD 0 ≠ 0 then
        [Event.print_line (level + 1) (ascii "Application \"%s\"") [Arg.str application],
         Event.add_property (ascii "application") application]
      else [])
  ++ [Event.print_line (level + 1) (ascii "Data size %s")
        [Arg.str (lib.format_blocky_size blocks blocksize (ascii "blocks") [])],
      ev_property_u8 (ascii "block_size") blocksize,
      ev_property_u8 (ascii "volume_size") (blocks * blocksize % 2 ^ 64)]

/-- Source `detect_iso`; `fuel` bounds the descriptor loop, `cfuel` each walk
of a boot catalog. -/
def detect_iso (lib : Lib) (w : Nat) (get_buffer : Nat → Nat → List Nat) (level : Int)
    (fuel cfuel : Nat) : Option (List Event) :=
  let buf := get_buffer 32768 2048
  if buf.length < 2048 then some [Event.get_buffer 32768 2048]
  else if ¬ memcmp_eq buf 0 (1 :: ascii "CD001") then some [Event.get_buffer 32768 2048]
  else
    match iso_sector_loop lib w get_buffer level cfuel fuel 17 with
    | some evs => some (Event.get_buffer 32768 2048 :: iso_volume_events lib level buf ++ evs)
    | none => none

/-- A table of contents with one track at frame 0 and the lead-out at frame
4915200, that is 65536 seconds later. -/
def toc_long_track : Toc :=
  ⟨some (1, 1), fun i => if i = 0 then some (0, 0) else some (0, 4915200)⟩

/-- The index that `get_dostype` returns for the type code of entry `i` of the
table itself; `none` where the table has no entry or the entry no type code. -/
def own_code_index (i : Nat) : Option Int :=
  (amiga_dostypes[i]?).bind fun e => e.typecode.map get_dostype

/-- The log of a file of 987654321 bytes in which an object of level 1 was
recorded before the first object of level 0. -/
def late_root_log : State :=
  (run (reset_json State.initial)
    [Op.file_characteristics (ascii "Regular file") 987654321, Op.file_path (ascii "/p"),
     Op.object 1 (ascii "A") (ascii "Q1"), Op.object 0 (ascii "B") (ascii "Q2")]).getD
    State.initial

/-- The log of an empty regular file: no content object, size 0. -/
def empty_file_log : State :=
  (run (reset_json State.initial)
    [Op.file_characteristics (ascii "Regular file") 0, Op.file_path (ascii "/p")]).getD
    State.initial

/-- The signature loop of `detect_amiga_fs`: the first named entry whose type
code equals the first four bytes of `buf`. -/
def find_dostype (buf : List Nat) : List dostype → Option dostype
  | [] => none
  | e :: rest =>
    match e.name, e.typecode with
    | some _, some typecode =>
      if buf.take 4 = typecode.take 4 then some e else find_dostype buf rest
    | some _, none => find_dostype buf rest
    | none, _ => none

/-- Source `detect_amiga_fs`; `section_size` is `section->size`. `none` stands
for a table entry without name or wikidata identifier. -/
def detect_amiga_fs (get_buffer : Nat → Nat → List Nat) (section_size : Nat) (level : Int) :
    Option (List Event) :=
  let buf := get_buffer 0 512
  if buf.length < 512 then some [Event.get_buffer 0 512]
  else
    match find_dostype buf amiga_dostypes with
    | none => some [Event.get_buffer 0 512]
    | some e =>
      match e.name, e.wikidata with
      | some name, some wikidata =>
        if e.isfs ≠ 0 then
          some ([Event.get_buffer 0 512,
            Event.add_content_object level name wikidata,
            Event.print_line level (ascii "%s") [Arg.str name],
            Event.print_line (level + 1) (ascii "Type \"%s\"") [Arg.str (format_dostype buf)]]
            ++ (if section_size = 512 * 11 * 2 * 80 then
                  [Event.add_property (ascii "floppy_size") (ascii "DD"),
                   Event.print_line (level + 1) (ascii "Size matches DD floppy") []]
                else if section_size = 512 * 22 * 2 * 80 then
                  [Event.add_property (ascii "floppy_size") (ascii "HD"),
                   Event.print_line (level + 1) (ascii "Size matches HD floppy") []]
                else []))
        else
          some [Event.get_buffer 0 512,
            Event.add_content_object level name wikidata,
            Event.print_line level (ascii "Amiga type code \"%s\" (%s)")
              [Arg.str (format_dostype buf), Arg.str name]]
      | _, _ => none

/-- A detector run that is silent: it made no call but reads of the buffer, so
it created no object, added no property, printed no line and started no
recursion. -/
def silent (trace : List Event) : Prop :=
  ∀ e ∈ trace, ∃ pos len, e = Event.get_buffer pos len

/-! ## The decimal representation, as the specification words it -/

/-- The decimal ASCII representation of a natural number: `0` for zero,
otherwise its decimal digits, most significant first, as ASCII digits. -/
def decimal_ascii (n : Nat) : List Nat :=
  if n = 0 then [48] else (Nat.digits 10 n).reverse.map fun d => 48 + d

/-- The decimal ASCII representation of an integer: a minus sign before the
representation of the absolute value when it is negative. -/
def decimal_ascii_int (v : Int) : List Nat :=
  if v < 0 then 45 :: decimal_ascii v.natAbs else decimal_ascii v.natAbs

/-- The state after one call `add_content_object(0, "A", "Q1")` at program
start. -/
def one_object_state : State :=
  (add_content_object State.initial 0 (ascii "A") (ascii "Q1")).getD State.initial

/-- The state at program start when the option latin1 has the value
`latin1`. -/
def State.start (latin1 : Int) : State := { State.initial with latin1 := latin1 }

/-! ## Call sequences on a `String` -/

/-- One insertion into a String. -/
inductive StringOp where
  | single_char (element : Nat)
  | chars (append : List Nat)
  | string (append : CString)

/-- The call a `StringOp` stands for. -/
def StringOp.apply (str : CString) : StringOp → CString
  | StringOp.single_char element => insert_single_char str element
  | StringOp.chars append => insert_chars str append
  | StringOp.string append => insert_string str append

/-- A sequence of insertions, in order. -/
def string_run (str : CString) (ops : List StringOp) : CString :=
  ops.foldl StringOp.apply str

/-- The char array of `str` ends with NUL at index `used_size - 1` and holds
no NUL at an earlier index. -/
def terminated (str : CString) : Prop :=
  0 < str.used_size ∧ str.string.getD (str.used_size - 1) 1 = 0 ∧
  ∀ i, i < str.used_size - 1 → str.string.getD i 0 ≠ 0

/-- What one insertion appends to the text of a String: the char unless it is
NUL, the C string of the char array, the non-NUL chars among the first
`used_size` cells of the appended String. -/
def StringOp.content : StringOp → List Nat
  | StringOp.single_char element => if element = 0 then [] else [element]
  | StringOp.chars append => c_str append
  | StringOp.string append =>
    (append.string.take append.used_size).filter fun c => decide (c ≠ 0)

/-! ## main.c: the command line -/

/-- Source `latin1_arg` (compiled with `JSON`): the return value. `argv` lists
the arguments, `argc` is its length; the caller has checked `argc >= 2`. -/
def latin1_arg (argv : List (List Nat)) : Int :=
  if strcmp_eq (argv.getD 1 []) (ascii "--latin1") then
    if argv.length < 3 then -1 else 1
  else 0

/-- Source `test_arg`: the return value. -/
def test_arg (argv : List (List Nat)) : Int :=
  if strcmp_eq (argv.getD 1 []) (ascii "--test") then
    if argv.length < 3 then -1 else 1
  else if argv.length < 3 then 0
  else if strcmp_eq (argv.getD 2 []) (ascii "--test") then
    if argv.length < 4 then -1 else 1
  else 0

/-- Source `optional_args`. -/
def optional_args (argv : List (List Nat)) : Int :=
  if argv.length < 2 then -1
  else
    let use_latin := latin1_arg argv
    let run_tests := test_arg argv
    if use_latin = -1 ∨ run_tests = -1 then -1
    else 1 + use_latin + run_tests

/-- The command line `disktype file --test x`. -/
def argv_path_before_test : List (List Nat) :=
  [ascii "disktype", ascii "file", ascii "--test", ascii "x"]

/-- The calls of `detect_amiga_partmap` up to the block-size test, for a map
found in block `off` with the block-size field `blocksize` after the reads
`reads`. -/
def partmap_head (level : Int) (reads : List Event) (off blocksize : Nat) : List Event :=
  reads ++
  [Event.add_content_object level (ascii "Amiga rigid disk partition map")
    (ascii "Q55357472")] ++
  (if off = 0 then [Event.print_line level (ascii "Amiga Rigid Disk partition map") []]
   else
    [ev_property_int (ascii "sector") off,
     Event.print_line level (ascii "Amiga Rigid Disk partition map at sector %d")
       [Arg.int off]]) ++
  [ev_property_u4 (ascii "sector_size") blocksize]

/-- The diagnostic `Illegal block size %lu`. -/
def is_illegal_block_size : Event → Bool
  | Event.print_line _ fmt _ => decide (fmt = ascii "Illegal block size %lu")
  | _ => false

/-- A call that starts a nested analysis. -/
def is_recursion : Event → Bool
  | Event.analyze_recursive _ _ _ _ => true
  | Event.analyze_source_special _ _ _ => true
  | _ => false

/-- An example partition-map block with the block-size field 768, which is no
power of two. -/
def amiga_example_rdsk_768 : List Nat :=
  ascii "RDSK" ++ List.replicate 12 0 ++ [0, 0, 3, 0] ++ List.replicate 8 0 ++ [0, 0, 0, 1] ++
    List.replicate 480 0

/-- A disk whose block 0 is `amiga_example_rdsk_768`; nothing else can be
read. -/
def amiga_example_768_get_buffer (pos len : Nat) : List Nat :=
  if pos = 0 ∧ len = 512 then amiga_example_rdsk_768 else []

/-- A table of contents with one data track (control 4) at frame 0 and the
lead-out at frame 100: a track of 100 sectors. -/
def toc_short_track : Toc :=
  ⟨some (1, 1), fun i => if i = 0 then some (4, 0) else some (0, 100)⟩

/-- The calls of a trace that reach the log, as calls of its interface:
`add_content_object` and `add_property`, in order. -/
def log_ops : List Event → List Op
  | [] => []
  | Event.add_content_object level object_type wikidata :: rest =>
    Op.object level object_type wikidata :: log_ops rest
  | Event.add_property key value :: rest => Op.prop key value :: log_ops rest
  | _ :: rest => log_ops rest

/-- The type and the property keys of each of the first `n` objects of the
log. -/
def object_keys (s : State) (n : Nat) : List (List Nat × List (List Nat)) :=
  (List.range n).map fun i =>
    (c_str (s.given_file.content i).object_type.string,
      (property_list s i).map fun p => p.1)

/-- An example disk image: the volume descriptor at offset 32768, an El Torito
boot record at sector 17 with its catalog at sector 20, a supplementary
descriptor at sector 18 and the terminator at sector 19. The catalog holds the
validation entry and one bootable entry with start sector 0. -/
def iso_boot_get_buffer (pos len : Nat) : List Nat :=
  if len ≠ 2048 then []
  else if pos = 32768 then 1 :: ascii "CD001" ++ List.replicate 2042 0
  else if pos = 17 * 2048 then
    0 :: ascii "CD001" ++ [1] ++ ascii "EL TORITO SPECIFICATION" ++ List.replicate 41 0 ++
      [20, 0, 0, 0] ++ List.replicate 1973 0
  else if pos = 18 * 2048 then 2 :: ascii "CD001" ++ List.replicate 2042 0
  else if pos = 19 * 2048 then 255 :: ascii "CD001" ++ List.replicate 2042 0
  else if pos = 20 * 2048 then
    [1, 0] ++ List.replicate 28 0 ++ [0x55, 0xAA] ++ [0x88] ++ List.replicate 2015 0
  else []

/-- The buffer of `total_size` chars holds the `used_size` chars in use, and a
full buffer of this size grows by `total_size *= 1.5`. -/
def CString.fits (str : CString) : Prop :=
  str.used_size ≤ str.total_size ∧ 2 ≤ str.total_size

/-- The number of chars that `clean_char` allocates for its output,
`MAX(1, ((int) strlen(value) * 7))`; `none` when the product leaves the `int`
range. -/
def clean_buffer_size (value : List Nat) : Option Nat :=
  if strlen value * 7 < 2 ^ 31 then some (max 1 (strlen value * 7)) else none

/-! ## The parent ids, as the specification words them: a stack of open ancestors -/

/-- Following the specification: the stack of open ancestors holds pairs of id
and level, the top first. For each new level the entries whose level is at
least the new level are popped, the parent is the remaining top (none is
written -1, as in the log), and the new object is pushed. `i` is the id of the
next object. -/
def stack_parents_aux : List (Nat × Int) → Nat → List Int → List Int
  | _, _, [] => []
  | stack, i, level :: rest =>
    let remaining := stack.dropWhile fun p => decide (level ≤ p.2)
    (match remaining with
      | [] => (-1 : Int)
      | p :: _ => (p.1 : Int)) :: stack_parents_aux ((i, level) :: remaining) (i + 1) rest

/-- The parent ids that the stack of open ancestors assigns to a sequence of
levels, starting with the empty stack. -/
def stack_parents (levels : List Int) : List Int := stack_parents_aux [] 0 levels

/-- The id `p` is the answer of the backward scan for the threshold `L` over
the cells below `x`: -1 when no cell has a level below `L`, the last such cell
otherwise. -/
def nearest_lower (lev : Nat → Int) (L : Int) (x : Nat) (p : Int) : Prop :=
  (p = -1 ∧ ∀ j, j < x → ¬ lev j < L) ∨
  ∃ q : Nat, p = (q : Int) ∧ q < x ∧ lev q < L ∧ ∀ j, q < j → j < x → ¬ lev j < L

/-- The stack answers, for every threshold `L`, the backward scan over the
cells below `i`: its first entry with a level below `L` is that answer. -/
def stack_answers (lev : Nat → Int) (stack : List (Nat × Int)) (i : Nat) : Prop :=
  ∀ L : Int,
    nearest_lower lev L i
      (match stack.dropWhile fun p => decide (L ≤ p.2) with
        | [] => (-1 : Int)
        | p :: _ => (p.1 : Int))

/-- An example boot catalog at offset 0: a valid validation entry followed by
an entry with the tag 0x44; nothing else can be read. -/
def catalog_example_get_buffer (pos len : Nat) : List Nat :=
  if pos = 0 ∧ len = 2048 then
    [1, 0] ++ List.replicate 28 0 ++ [0x55, 0xAA] ++ [0x44] ++ List.replicate 2015 0
  else []

/-- An example boot catalog at offset 0 whose first entry lacks the key bytes
0x55, 0xAA, followed by a bootable entry; nothing else can be read. -/
def catalog_invalid_get_buffer (pos len : Nat) : List Nat :=
  if pos = 0 ∧ len = 2048 then
    [1, 0] ++ List.replicate 30 0 ++ [0x88] ++ List.replicate 7 0 ++ [1] ++
      List.replicate 2007 0
  else []

/-- The property lists of the objects of type `name` that a list of calls
records, in order: for each such `add_content_object` the first writes among
the `add_property` calls that follow it. -/
def object_records (latin1 : Int) (name : List Nat) :
    List Event → List (List (List Nat × List Nat))
  | [] => []
  | Event.add_content_object _ object_type _ :: rest =>
    if c_str object_type = name then
      first_writes (offered latin1 (property_calls rest)) :: object_records latin1 name rest
    else object_records latin1 name rest
  | Event.add_property _ _ :: rest => object_records latin1 name rest
  | Event.print_line _ _ _ :: rest => object_records latin1 name rest
  | Event.get_buffer _ _ :: rest => object_records latin1 name rest
  | Event.analyze_recursive _ _ _ _ :: rest => object_records latin1 name rest
  | Event.analyze_source_special _ _ _ :: rest => object_records latin1 name rest

/-! ## blank.c -/

/-- Source `add_blank`. The product `blank_blocks * BLOCK_SIZE` is an `int`
product; `blank_blocks` never exceeds 4096. -/
def add_blank (level : Int) (blank_blocks : Nat) (all_empty_guess : Int) : List Event :=
  [Event.add_content_object level (ascii "Blank") (ascii "Q543287"),
   Event.add_property (ascii "all_empty_guess")
     (if all_empty_guess ≠ 0 then ascii "true" else ascii "false"),
   ev_property_u8 (ascii "empty_section_size") (blank_blocks * 512)]

/-- The inner loop of `detect_blank`, `for (j = 0; j < block_size; j++) if
(buffer[j] != code) break;`, followed by the test `j < block_size`: the result
is true when the loop ran through all 512 bytes. -/
def block_is_blank (buffer : List Nat) (code : Nat) : Bool :=
  (buffer.take 512).all fun b => decide (b = code)

/-- The loop `for (i = 0; i < max_blocks; i++)` of `detect_blank` with `n`
rounds left, at block `i`: the reads made and the final `blank_blocks`. -/
def blank_loop (get_buffer : Nat → Nat → List Nat) (code : Nat) :
    Nat → Nat → Nat → List Event × Nat
  | 0, _, blank_blocks => ([], blank_blocks)
  | n + 1, i, blank_blocks =>
    let buffer := get_buffer (i * 512) 512
    if buffer.length < 512 then ([Event.get_buffer (i * 512) 512], blank_blocks)
    else if ¬ block_is_blank buffer code then ([Event.get_buffer (i * 512) 512], blank_blocks)
    else
      let r := blank_loop get_buffer code n (i + 1) (i + 1)
      (Event.get_buffer (i * 512) 512 :: r.1, r.2)

/-- The value of `max_blocks` after the limit to the size of the section;
`section_size` is `section->size`, 0 when it is not known. -/
def blank_max_blocks (section_size : Nat) : Nat :=
  if section_size ≠ 0 ∧ section_size < 4096 * 512 then section_size / 512 else 4096

/-- Source `detect_blank`; `section_size` is `section->size`. -/
def detect_blank (lib : Lib) (get_buffer : Nat → Nat → List Nat) (section_size : Nat)
    (level : Int) : List Event :=
  let buffer := get_buffer 0 1
  if buffer.length < 1 then [Event.get_buffer 0 1]
  else
    let code := buffer.getD 0 0
    let max_blocks := blank_max_blocks section_size
    let r := blank_loop get_buffer code max_blocks 0 0
    Event.get_buffer 0 1 :: r.1 ++
      (if r.2 ≥ max_blocks then
        add_blank level r.2 1 ++ [Event.print_line level (ascii "Blank disk/medium") []]
      else if r.2 > 128 then
        add_blank level r.2 0 ++
          [Event.print_line level (ascii "First %s are blank")
            [Arg.str (lib.format_size (r.2 * 512))]]
      else [])

/-- Following the specification: the number of leading 512-byte blocks, among
the first `max_blocks`, that can be read in full and consist only of the byte
`code`. -/
def leading_blank_blocks (get_buffer : Nat → Nat → List Nat) (code max_blocks : Nat) : Nat :=
  ((List.range max_blocks).takeWhile fun i =>
    decide (512 ≤ (get_buffer (i * 512) 512).length) &&
      ((get_buffer (i * 512) 512).take 512).all fun b => decide (b = code)).length

/-- A section of 1024 bytes that reads as zeros. -/
def zero_section_get_buffer (pos len : Nat) : List Nat :=
  if pos + len ≤ 1024 then List.replicate len 0 else List.replicate (1024 - pos) 0

/-- Following the specification: the upper-case hexadecimal representation of
`n`, padded with zeros to eight digits. -/
def hex_padded8 (n : Nat) : List Nat :=
  List.replicate (8 - (Nat.digits 16 n).length) 48 ++ (Nat.digits 16 n).reverse.map hex_upper

/-- Every object of the log has at most 100 properties. -/
def props_bounded (s : State) : Prop :=
  ∀ x, x < s.id → (s.given_file.content x).number_of_properties ≤ MAX_PROPERTIES

/-- Following the specification: the object at which the `parent_id` links
from object `i` end, that is the first object on the way that has no parent
(`parent_id` -1). `fuel` bounds the number of links followed; `i` links are
enough, since every link leads to a smaller id. -/
def chain_root (s : State) : Nat → Nat → Nat
  | 0, i => i
  | fuel + 1, i =>
    if (s.given_file.content i).parent_id < 0 then i
    else chain_root s fuel (s.given_file.content i).parent_id.toNat

/-- The id of the first object of level 0, or the number of objects when there
is none (for non-negative levels). -/
def first_root (s : State) : Nat :=
  scan_end (fun j => (s.given_file.content j).level) 0 0 s.given_file.number_of_objects
/-- Calls that build a log of the levels 1, 2, 0, 1: object 0 has no parent
and is not of level 0, object 1 is its child, object 2 is of level 0 and has
the child 3. -/
def orphan_example_ops : List Op :=
  [Op.object 1 (ascii "A") (ascii "Q1"), Op.object 2 (ascii "B") (ascii "Q2"),
   Op.object 0 (ascii "C") (ascii "Q3"), Op.object 1 (ascii "D") (ascii "Q4")]

/-- The log built by `orphan_example_ops`. -/
def orphan_example_log : State :=
  (run (reset_json State.initial) orphan_example_ops).getD State.initial

/-! # Theorems -/

/-- Outcome of the backward scan over the cells below `n`: either no cell has a
level below `level` and the scan yields -1, or it yields the last such cell. -/
theorem identify_parent_loop_cases (content : Nat → content_object) (level : Int) (n : Nat) :
    (identify_parent_loop content level n = -1 ∧ ∀ i, i < n → ¬ (content i).level < level) ∨
    (∃ i, i < n ∧ identify_parent_loop content level n = (i : Int) ∧
      (content i).level < level ∧ ∀ j, i < j → j < n → ¬ (content j).level < level) := by
  induction n with
  | zero => left; exact ⟨rfl, fun i hi => absurd hi (Nat.not_lt_zero i)⟩
  | succ n ih =>
    by_cases h : (content n).level < level
    · right
      refine ⟨n, Nat.lt_succ_self n, by simp [identify_parent_loop, h], h, ?_⟩
      intro j h1 h2; omega
    · rcases ih with ⟨h0, hall⟩ | ⟨i, hi, hres, hlev, hmax⟩
      · left
        refine ⟨by simp [identify_parent_loop, h, h0], ?_⟩
        intro i hi
        rcases Nat.lt_succ_iff_lt_or_eq.mp hi with h' | h'
        · exact hall i h'
        · subst h'; exact h
      · right
        refine ⟨i, Nat.lt_succ_of_lt hi, by simp [identify_parent_loop, h, hres], hlev, ?_⟩
        intro j h1 h2
        rcases Nat.lt_succ_iff_lt_or_eq.mp h2 with h' | h'
        · exact hmax j h1 h'
        · subst h'; exact h

/-- C1. `identify_parent_id` returns -1 for an empty log, for level 0 and when
no existing object has a level strictly below `level`; in every other case it
returns the largest id of an existing object whose level is strictly below
`level`. -/
theorem identify_parent_id_nearest_lower (s : State) (level : Int) :
    (s.id = 0 → identify_parent_id s level = -1) ∧
    (level = 0 → identify_parent_id s level = -1) ∧
    ((∀ i, i < s.id → ¬ (s.given_file.content i).level < level) →
      identify_parent_id s level = -1) ∧
    (s.id ≠ 0 → level ≠ 0 →
      (∃ i, i < s.id ∧ (s.given_file.content i).level < level) →
      ∃ p : Nat, identify_parent_id s level = (p : Int) ∧ p < s.id ∧
        (s.given_file.content p).level < level ∧
        ∀ j, j < s.id → (s.given_file.content j).level < level → j ≤ p) := by
  refine ⟨?_, ?_, ?_, ?_⟩
  · intro h; simp [identify_parent_id, h]
  · intro h; simp [identify_parent_id, h]
  · intro hall
    unfold identify_parent_id
    split
    · rfl
    · rcases identify_parent_loop_cases s.given_file.content level s.id with
        ⟨h0, _⟩ | ⟨i, hi, _, hlev, _⟩
      · exact h0
      · exact absurd hlev (hall i hi)
  · intro hid hl ⟨i, hi, hlev⟩
    have hne : ¬ (s.id = 0 ∨ level = 0) := by
      intro h; rcases h with h | h
      · exact hid h
      · exact hl h
    rcases identify_parent_loop_cases s.given_file.content level s.id with
      ⟨_, hall⟩ | ⟨p, hp, hres, hplev, hmax⟩
    · exact absurd hlev (hall i hi)
    · refine ⟨p, by simp [identify_parent_id, hne, hres], hp, hplev, ?_⟩
      intro j hj hjl
      by_contra hcon
      exact hmax j (Nat.lt_of_not_le hcon) hj hjl

/-! ## Frame of the two log-writing calls -/

/-- Shape of a successful `add_content_object`: only cell `id` of the array,
the two counters and `number_of_objects` are written. -/
theorem add_content_object_some {s s1 : State} {level : Int} {object_type wikidata : List Nat}
    (h : add_content_object s level object_type wikidata = some s1) :
    s.id < MAX_OBJECTS ∧ s1.id = s.id + 1 ∧ s1.property_counter = 0 ∧
    s1.latin1 = s.latin1 ∧ s1.json = s.json ∧ s1.json_output = s.json_output ∧
    s1.given_file.number_of_objects = s.given_file.number_of_objects + 1 ∧
    s1.given_file.file_kind = s.given_file.file_kind ∧
    s1.given_file.path = s.given_file.path ∧
    s1.given_file.size = s.given_file.size ∧
    s1.given_file.content = Function.update s.given_file.content s.id
      { s.given_file.content s.id with
        id := s.id
        level := level
        parent_id := identify_parent_id s level
        object_type := insert_chars ⟨1, 25, [0]⟩ object_type
        wikidata := insert_chars ⟨1, 25, [0]⟩ wikidata
        number_of_properties := 0 } := by
  unfold add_content_object at h
  by_cases hid : s.id < MAX_OBJECTS
  · simp only [hid, if_true, initialize_String, Nat.lt_add_one, Nat.zero_lt_succ,
      show (0 : Nat) < 25 by decide] at h
    cases h
    exact ⟨hid, rfl, rfl, rfl, rfl, rfl, rfl, rfl, rfl, rfl, rfl⟩
  · simp [hid] at h

/-- Shape of a successful `add_property`: either the key was present and the
state is returned as it is, or cell `property_counter` of the latest object is
written and both property counts grow by one. -/
theorem add_property_some {s s1 : State} {key value : List Nat}
    (h : add_property s key value = some s1) :
    0 < s.id ∧ s.property_counter < MAX_PROPERTIES ∧
    ((key_present s key = true ∧ s1 = s) ∨
     (key_present s key = false ∧
      s1.id = s.id ∧ s1.property_counter = s.property_counter + 1 ∧
      s1.latin1 = s.latin1 ∧ s1.json = s.json ∧ s1.json_output = s.json_output ∧
      s1.given_file.number_of_objects = s.given_file.number_of_objects ∧
      s1.given_file.file_kind = s.given_file.file_kind ∧
      s1.given_file.path = s.given_file.path ∧
      s1.given_file.size = s.given_file.size ∧
      s1.given_file.content = Function.update s.given_file.content (s.id - 1)
        { s.given_file.content (s.id - 1) with
          properties := Function.update (s.given_file.content (s.id - 1)).properties
            s.property_counter
            ⟨insert_chars ⟨1, 4, [0]⟩ key,
             insert_chars ⟨1, 4, [0]⟩ (clean_char s.latin1 value)⟩
          number_of_properties :=
            (s.given_file.content (s.id - 1)).number_of_properties + 1 })) := by
  unfold add_property at h
  by_cases hg : 0 < s.id ∧ s.property_counter < MAX_PROPERTIES
  · rw [if_pos hg] at h
    refine ⟨hg.1, hg.2, ?_⟩
    by_cases hk : key_present s key = true
    · rw [if_pos hk] at h
      cases h
      exact Or.inl ⟨hk, rfl⟩
    · rw [if_neg hk] at h
      simp only [initialize_String, show (0 : Nat) < 4 by decide, if_true] at h
      cases h
      exact Or.inr ⟨by simpa using hk, rfl, rfl, rfl, rfl, rfl, rfl, rfl, rfl, rfl, rfl⟩
  · rw [if_neg hg] at h
    cases h

/-- C6. Objects are immutable once superseded. A successful
`add_content_object` leaves every previously created object (every cell below
`id`) as it was, so its id, level, parent_id, type, wikidata id and properties
are unchanged. A successful `add_property` leaves every object other than the
most recently created one as it was, and leaves id, level, parent_id, type and
wikidata id of the most recently created one unchanged. -/
theorem superseded_objects_immutable (s s1 : State) :
    (∀ level object_type wikidata,
      add_content_object s level object_type wikidata = some s1 →
      ∀ j, j < s.id → s1.given_file.content j = s.given_file.content j) ∧
    (∀ key value,
      add_property s key value = some s1 →
      (∀ j, j ≠ s.id - 1 → s1.given_file.content j = s.given_file.content j) ∧
      (s1.given_file.content (s.id - 1)).id = (s.given_file.content (s.id - 1)).id ∧
      (s1.given_file.content (s.id - 1)).level = (s.given_file.content (s.id - 1)).level ∧
      (s1.given_file.content (s.id - 1)).parent_id =
        (s.given_file.content (s.id - 1)).parent_id ∧
      (s1.given_file.content (s.id - 1)).object_type =
        (s.given_file.content (s.id - 1)).object_type ∧
      (s1.given_file.content (s.id - 1)).wikidata =
        (s.given_file.content (s.id - 1)).wikidata) := by
  constructor
  · intro level object_type wikidata h j hj
    obtain ⟨_, _, _, _, _, _, _, _, _, _, hc⟩ := add_content_object_some h
    rw [hc, Function.update_noteq (Nat.ne_of_lt hj)]
  · intro key value h
    obtain ⟨_, _, hcase⟩ := add_property_some h
    rcases hcase with ⟨_, rfl⟩ | ⟨_, _, _, _, _, _, _, _, _, _, hc⟩
    · exact ⟨fun _ _ => rfl, rfl, rfl, rfl, rfl, rfl⟩
    · refine ⟨?_, ?_, ?_, ?_, ?_, ?_⟩
      · intro j hj
        rw [hc, Function.update_noteq hj]
      all_goals rw [hc, Function.update_same]


/-- C6 at the log of `test_add_content_object`: a third object and a property
on the second object both leave object 0 (level 5, no parent) as it was. -/
theorem superseded_objects_immutable_witness :
    (∀ s1, add_content_object frame_example_state 9 (ascii "x") (ascii "Q1") = some s1 →
      (s1.given_file.content 0).level = 5 ∧ (s1.given_file.content 1).parent_id = 0) ∧
    (∀ s1, add_property frame_example_state (ascii "k") (ascii "v") = some s1 →
      (s1.given_file.content 0).level = 5 ∧ (s1.given_file.content 0).parent_id = -1 ∧
      (s1.given_file.content 1).level = 7) ∧
    (add_content_object frame_example_state 9 (ascii "x") (ascii "Q1")).isSome = true ∧
    (add_property frame_example_state (ascii "k") (ascii "v")).isSome = true := by
  refine ⟨?_, ?_, by decide, by decide⟩
  · intro s1 h
    have h0 := (superseded_objects_immutable frame_example_state s1).1 _ _ _ h 0 (by decide)
    have h1 := (superseded_objects_immutable frame_example_state s1).1 _ _ _ h 1 (by decide)
    rw [h0, h1]
    exact ⟨by decide, by decide⟩
  · intro s1 h
    obtain ⟨hother, _, hlev, _, _, _⟩ :=
      (superseded_objects_immutable frame_example_state s1).2 _ _ h
    have h0 := hother 0 (by decide)
    rw [h0]
    refine ⟨by decide, by decide, ?_⟩
    have : frame_example_state.id - 1 = 1 := by decide
    rw [this] at hlev
    rw [hlev]
    decide

/-! ## The dynamic `String` holds what was inserted -/

theorem c_str_cons_ne (a : Nat) (l : List Nat) (ha : a ≠ 0) : c_str (a :: l) = a :: c_str l := by
  unfold c_str
  rw [List.takeWhile_cons]
  simp [ha]

theorem c_str_cons_nul (l : List Nat) : c_str (0 :: l) = [] := by
  unfold c_str
  rw [List.takeWhile_cons]
  simp

theorem c_str_nil : c_str [] = [] := rfl

theorem c_str_append_nul (cs rest : List Nat) (h : ∀ c ∈ cs, c ≠ 0) :
    c_str (cs ++ 0 :: rest) = cs := by
  induction cs with
  | nil => exact c_str_cons_nul rest
  | cons a cs ih =>
    have ha : a ≠ 0 := h a (List.mem_cons_self a cs)
    have ih1 := ih (fun c hc => h c (List.mem_cons_of_mem a hc))
    rw [List.cons_append, c_str_cons_ne _ _ ha, ih1]

theorem c_str_no_nul (cs : List Nat) (h : ∀ c ∈ cs, c ≠ 0) : c_str cs = cs := by
  induction cs with
  | nil => rfl
  | cons a cs ih =>
    have ha : a ≠ 0 := h a (List.mem_cons_self a cs)
    have ih1 := ih (fun c hc => h c (List.mem_cons_of_mem a hc))
    rw [c_str_cons_ne _ _ ha, ih1]

theorem c_str_ne_zero (a : List Nat) : ∀ c ∈ c_str a, c ≠ 0 := by
  intro c hc
  have := List.mem_takeWhile_imp hc
  simpa using this

theorem c_str_idem (a : List Nat) : c_str (c_str a) = c_str a :=
  c_str_no_nul _ (c_str_ne_zero a)

theorem CString.holds_c_str {str : CString} {cs : List Nat} (h : str.holds cs) :
    c_str str.string = cs := by
  rw [h.1]; exact c_str_append_nul cs [] h.2.2

theorem initialize_String_holds {n : Nat} {str : CString}
    (h : initialize_String n = some str) : str.holds [] ∧ str.total_size = n ∧ 0 < n := by
  unfold initialize_String at h
  by_cases hn : 0 < n
  · rw [if_pos hn] at h; cases h
    exact ⟨⟨rfl, rfl, by simp⟩, rfl, hn⟩
  · rw [if_neg hn] at h; cases h

theorem fresh_holds (n : Nat) : (⟨1, n, [0]⟩ : CString).holds [] :=
  ⟨rfl, rfl, by simp⟩

theorem insert_single_char_holds {str : CString} {cs : List Nat} (h : str.holds cs)
    {c : Nat} (hc : c ≠ 0) : (insert_single_char str c).holds (cs ++ [c]) := by
  obtain ⟨hs, hu, hn⟩ := h
  refine ⟨?_, ?_, ?_⟩
  · have h1 : array_set (cs ++ [0]) cs.length c = cs ++ [c] := by
      simp [array_set, List.take_append_eq_append_take]
    have h2 : array_set (cs ++ [c]) (cs.length + 1) 0 = cs ++ [c, 0] := by
      have hl : (cs ++ [c]).length = cs.length + 1 := by simp
      unfold array_set
      rw [← hl, List.take_length, List.drop_eq_nil_of_le (Nat.le_succ _)]
      simp
    simp only [insert_single_char, if_neg hc, hs, hu, Nat.add_sub_cancel, h1, h2]
    simp
  · simp [insert_single_char, hc, hu]
  · intro x hx
    rcases List.mem_append.mp hx with h1 | h1
    · exact hn x h1
    · simp at h1; subst h1; exact hc

theorem insert_single_char_nul (str : CString) : insert_single_char str 0 = str := by
  simp [insert_single_char]

theorem foldl_insert_holds (l : List Nat) (hl : ∀ c ∈ l, c ≠ 0) :
    ∀ {str : CString} {cs : List Nat}, str.holds cs →
      (l.foldl insert_single_char str).holds (cs ++ l) := by
  induction l with
  | nil => intro str cs h; simpa using h
  | cons a l ih =>
    intro str cs h
    have ha : a ≠ 0 := hl a (List.mem_cons_self a l)
    have := ih (fun c hc => hl c (List.mem_cons_of_mem a hc)) (insert_single_char_holds h ha)
    simpa using this

theorem insert_chars_holds {str : CString} {cs : List Nat} (h : str.holds cs)
    (append : List Nat) : (insert_chars str append).holds (cs ++ c_str append) :=
  foldl_insert_holds (c_str append) (c_str_ne_zero append) h

theorem insert_string_holds {str : CString} {cs : List Nat} (h : str.holds cs)
    {append : CString} {ca : List Nat} (ha : append.holds ca) :
    (insert_string str append).holds (cs ++ ca) := by
  unfold insert_string
  have htake : append.string.take append.used_size = ca ++ [0] := by
    rw [ha.1, ha.2.1]
    have : (ca ++ [0]).length = ca.length + 1 := by simp
    rw [← this, List.take_length]
  rw [htake, List.foldl_append]
  have h1 := foldl_insert_holds ca ha.2.2 h
  simpa [insert_single_char_nul] using h1

theorem insert_string_zero (str : CString) : insert_string str CString.zero = str := by
  simp [insert_string, CString.zero]

/-! ## Dense ids -/

theorem run_append (s : State) (a b : List Op) :
    run s (a ++ b) = (run s a).bind fun s1 => run s1 b := by
  induction a generalizing s with
  | nil => rfl
  | cons op a ih =>
    simp only [List.cons_append, run]
    cases h : op.apply s with
    | none => rfl
    | some s1 => simpa using ih s1

theorem add_content_object_isSome (s : State) (level : Int) (object_type wikidata : List Nat)
    (h : s.id < MAX_OBJECTS) : ∃ s1, add_content_object s level object_type wikidata = some s1 := by
  unfold add_content_object
  simp only [if_pos h, initialize_String, show (0 : Nat) < 25 by decide, if_true]
  exact ⟨_, rfl⟩

/-- Objects created by a run of `add_content_object` calls from a state whose
two object counters agree. -/
theorem run_object_ops (calls : List (Int × List Nat × List Nat)) :
    ∀ s : State, s.id = s.given_file.number_of_objects →
      s.id + calls.length ≤ MAX_OBJECTS →
      ∃ s1, run s (object_ops calls) = some s1 ∧
        s1.id = s.id + calls.length ∧
        s1.given_file.number_of_objects = s.id + calls.length ∧
        (∀ j, j < s.id → s1.given_file.content j = s.given_file.content j) ∧
        ∀ i c, calls[i]? = some c →
          (s1.given_file.content (s.id + i)).id = s.id + i ∧
          (s1.given_file.content (s.id + i)).level = c.1 ∧
          c_str (s1.given_file.content (s.id + i)).object_type.string = c_str c.2.1 ∧
          c_str (s1.given_file.content (s.id + i)).wikidata.string = c_str c.2.2 ∧
          (s1.given_file.content (s.id + i)).number_of_properties = 0 ∧
          ∃ si, run s (object_ops (calls.take i)) = some si ∧
            (s1.given_file.content (s.id + i)).parent_id = identify_parent_id si c.1 := by
  induction calls with
  | nil =>
    intro s _ _
    exact ⟨s, rfl, rfl, by simpa using (by assumption : s.id = s.given_file.number_of_objects).symm,
      fun _ _ => rfl, fun i c h => by simp at h⟩
  | cons c0 calls ih =>
    intro s hs hcap
    have hlen : (c0 :: calls).length = calls.length + 1 := rfl
    have hid : s.id < MAX_OBJECTS := by omega
    obtain ⟨s1, h1⟩ := add_content_object_isSome s c0.1 c0.2.1 c0.2.2 hid
    obtain ⟨_, hid1, _, _, _, _, hno1, _, _, _, hc1⟩ := add_content_object_some h1
    have hs1 : s1.id = s1.given_file.number_of_objects := by rw [hid1, hno1, hs]
    obtain ⟨s2, h2, hid2, hno2, hframe, hobj⟩ := ih s1 hs1 (by omega)
    have hrun : ∀ l, run s (object_ops (c0 :: l)) = run s1 (object_ops l) := by
      intro l
      simp only [object_ops, List.map_cons, run, Op.apply, h1]
    refine ⟨s2, by rw [hrun, h2], by omega, by omega, ?_, ?_⟩
    · intro j hj
      rw [hframe j (by omega), hc1, Function.update_noteq (Nat.ne_of_lt hj)]
    · intro i c hc
      cases i with
      | zero =>
        simp only [List.getElem?_cons_zero, Option.some.injEq] at hc
        subst hc
        have h0 : s2.given_file.content s.id = s1.given_file.content s.id :=
          hframe s.id (by omega)
        simp only [Nat.add_zero, h0, hc1, Function.update_same]
        refine ⟨trivial, trivial, ?_, ?_, trivial, s, rfl, rfl⟩
        · exact CString.holds_c_str (insert_chars_holds (fresh_holds 25) _)
        · exact CString.holds_c_str (insert_chars_holds (fresh_holds 25) _)
      | succ i =>
        simp only [List.getElem?_cons_succ] at hc
        have := hobj i c hc
        have he : s.id + (i + 1) = s1.id + i := by omega
        rw [he]
        obtain ⟨a1, a2, a3, a4, a5, si, hsi, a6⟩ := this
        refine ⟨a1, a2, a3, a4, a5, si, ?_, a6⟩
        rw [List.take_succ_cons, hrun, hsi]

/-- C3 (amended). Starting from a reset log, `N <= 500` calls of
`add_content_object` all succeed; afterwards `id` and `number_of_objects` are
`N`, and the object created by call `i` sits in cell `i` with id `i`, the
level, type name and wikidata id of its call, no property, and the parent that
`identify_parent_id` yields on the log as it was just before that call. -/
theorem add_content_object_dense_ids (s0 : State)
    (calls : List (Int × List Nat × List Nat)) (hcap : calls.length ≤ MAX_OBJECTS) :
    ∃ s, run (reset_json s0) (object_ops calls) = some s ∧
      s.id = calls.length ∧
      s.given_file.number_of_objects = calls.length ∧
      ∀ i c, calls[i]? = some c →
        (s.given_file.content i).id = i ∧
        (s.given_file.content i).level = c.1 ∧
        c_str (s.given_file.content i).object_type.string = c_str c.2.1 ∧
        c_str (s.given_file.content i).wikidata.string = c_str c.2.2 ∧
        (s.given_file.content i).number_of_properties = 0 ∧
        ∃ si, run (reset_json s0) (object_ops (calls.take i)) = some si ∧
          (s.given_file.content i).parent_id = identify_parent_id si c.1 := by
  have hr : (reset_json s0).id = 0 := rfl
  obtain ⟨s, h1, h2, h3, _, h5⟩ :=
    run_object_ops calls (reset_json s0) rfl (by rw [hr]; omega)
  refine ⟨s, h1, by omega, by omega, ?_⟩
  intro i c hc
  have := h5 i c hc
  rw [hr, Nat.zero_add] at this
  exact this

/-- C3 at the two calls of `test_add_content_object`. -/
theorem add_content_object_dense_ids_witness :
    ∃ s, run (reset_json State.initial) (object_ops dense_example_calls) = some s ∧
      s.id = dense_example_calls.length ∧
      s.given_file.number_of_objects = dense_example_calls.length ∧
      ∀ i c, dense_example_calls[i]? = some c →
        (s.given_file.content i).id = i ∧
        (s.given_file.content i).level = c.1 ∧
        c_str (s.given_file.content i).object_type.string = c_str c.2.1 ∧
        c_str (s.given_file.content i).wikidata.string = c_str c.2.2 ∧
        (s.given_file.content i).number_of_properties = 0 ∧
        ∃ si, run (reset_json State.initial) (object_ops (dense_example_calls.take i)) = some si ∧
          (s.given_file.content i).parent_id = identify_parent_id si c.1 :=
  add_content_object_dense_ids State.initial dense_example_calls (by decide)

/-- C3 as stated fails for `N = 501`: the array `given_file.content` has 500
cells, so the 501st `add_content_object` after a reset has no cell to write
and the run yields no log. -/
theorem add_content_object_capacity_counterexample :
    run (reset_json State.initial)
      (object_ops (List.replicate 501 ((0 : Int), ([] : List Nat), ([] : List Nat)))) = none ∧
    (run (reset_json State.initial)
      (object_ops (List.replicate 500 ((0 : Int), ([] : List Nat), ([] : List Nat))))).isSome
      = true := by
  constructor
  · rfl
  · decide

/-! ## First write wins -/

theorem key_present_of_current {t : State} {i0 : Nat} {l : List (List Nat × List Nat)}
    (h : current_holds t i0 l) (key : List Nat) :
    key_present t key = true ↔ c_str key ∈ l.map Prod.fst := by
  obtain ⟨hid, hpc, hnp, hl⟩ := h
  have hi : t.id - 1 = i0 := by omega
  rw [← hl]
  unfold key_present property_list strcmp_eq
  rw [hi, hpc, hnp]
  simp only [List.any_eq_true, List.mem_range, decide_eq_true_eq, List.map_map, List.mem_map,
    Function.comp]

theorem add_property_present {t : State} {i0 : Nat} {l : List (List Nat × List Nat)}
    (h : current_holds t i0 l) (hcap : l.length < MAX_PROPERTIES) (key value : List Nat)
    (hk : c_str key ∈ l.map Prod.fst) : add_property t key value = some t := by
  have hp := (key_present_of_current h key).mpr hk
  unfold add_property
  rw [if_pos ⟨by rw [h.1]; omega, by rw [h.2.1]; exact hcap⟩, if_pos hp]

theorem add_property_new {t : State} {i0 : Nat} {l : List (List Nat × List Nat)}
    (h : current_holds t i0 l) (hcap : l.length < MAX_PROPERTIES) (key value : List Nat)
    (hk : c_str key ∉ l.map Prod.fst) :
    ∃ t1, add_property t key value = some t1 ∧ t1.latin1 = t.latin1 ∧
      current_holds t1 i0 (l ++ [(c_str key, c_str (clean_char t.latin1 value))]) := by
  have hp : ¬ key_present t key = true := fun hp => hk ((key_present_of_current h key).mp hp)
  obtain ⟨hid, hpc, hnp, hl⟩ := h
  have hi : t.id - 1 = i0 := by omega
  have hex : ∃ t1, add_property t key value = some t1 := by
    unfold add_property
    rw [if_pos ⟨by omega, by rw [hpc]; exact hcap⟩, if_neg hp]
    simp only [initialize_String, show (0 : Nat) < 4 by decide, if_true]
    exact ⟨_, rfl⟩
  obtain ⟨t1, h1⟩ := hex
  obtain ⟨_, _, hcase⟩ := add_property_some h1
  rcases hcase with ⟨hp1, _⟩ | ⟨_, hid1, hpc1, hlat, _, _, _, _, _, _, hc⟩
  · exact absurd hp1 hp
  · rw [hi] at hc
    have hl1 : (List.range l.length).map (fun k =>
        (c_str ((t.given_file.content i0).properties k).key.string,
         c_str ((t.given_file.content i0).properties k).value.string)) = l := by
      have := hl
      simp only [property_list, hnp] at this
      exact this
    refine ⟨t1, h1, hlat, by omega, by simp [hpc1, hpc], ?_, ?_⟩
    · rw [hc, Function.update_same]; simp [hnp]
    · simp only [property_list, hc, Function.update_same, hnp, hpc]
      rw [List.range_succ, List.map_append, List.map_singleton, Function.update_same]
      rw [CString.holds_c_str (insert_chars_holds (fresh_holds 4) key),
        CString.holds_c_str (insert_chars_holds (fresh_holds 4) (clean_char t.latin1 value))]
      simp only [List.nil_append]
      congr 1
      refine Eq.trans ?_ hl1
      apply List.map_congr_left
      intro k hk
      have hne : k ≠ l.length := Nat.ne_of_lt (List.mem_range.mp hk)
      rw [Function.update_noteq hne]

theorem first_writes_aux_mem (seen : List (List Nat)) (rest : List (List Nat × List Nat))
    (k : List Nat) (v : List Nat) (h : k ∈ seen) :
    first_writes_aux seen ((k, v) :: rest) = first_writes_aux seen rest := by
  simp [first_writes_aux, h]

theorem first_writes_aux_not_mem (seen : List (List Nat)) (rest : List (List Nat × List Nat))
    (k : List Nat) (v : List Nat) (h : k ∉ seen) :
    first_writes_aux seen ((k, v) :: rest) = (k, v) :: first_writes_aux (seen ++ [k]) rest := by
  simp [first_writes_aux, h]

/-- A run of `add_property` calls on the latest object, as long as every call
finds fewer than 100 stored properties. -/
theorem run_prop_ops (i0 : Nat) (calls : List (List Nat × List Nat)) :
    ∀ (t : State) (l : List (List Nat × List Nat)), current_holds t i0 l →
      (∀ j, j < calls.length →
        (l ++ first_writes_aux (l.map Prod.fst) (offered t.latin1 (calls.take j))).length
          < MAX_PROPERTIES) →
      ∃ t1, run t (prop_ops calls) = some t1 ∧ t1.latin1 = t.latin1 ∧
        current_holds t1 i0 (l ++ first_writes_aux (l.map Prod.fst) (offered t.latin1 calls)) := by
  induction calls with
  | nil =>
    intro t l h _
    exact ⟨t, rfl, rfl, by simpa [offered, first_writes_aux] using h⟩
  | cons c calls ih =>
    intro t l h hcap
    have h0 : l.length < MAX_PROPERTIES := by
      have := hcap 0 (Nat.zero_lt_succ _)
      simpa [offered, first_writes_aux] using this
    have hrun : ∀ t1, add_property t c.1 c.2 = some t1 →
        run t (prop_ops (c :: calls)) = run t1 (prop_ops calls) := by
      intro t1 h1
      simp only [prop_ops, List.map_cons, run, Op.apply, h1]
    by_cases hk : c_str c.1 ∈ l.map Prod.fst
    · have h1 := add_property_present h h0 c.1 c.2 hk
      have hcap1 : ∀ j, j < calls.length →
          (l ++ first_writes_aux (l.map Prod.fst) (offered t.latin1 (calls.take j))).length
            < MAX_PROPERTIES := by
        intro j hj
        have := hcap (j + 1) (Nat.succ_lt_succ hj)
        simpa [offered, first_writes_aux, hk] using this
      obtain ⟨t1, hr, hl1, hc⟩ := ih t l h hcap1
      refine ⟨t1, by rw [hrun t h1, hr], hl1, ?_⟩
      simpa [offered, first_writes_aux, hk] using hc
    · obtain ⟨t1, h1, hlat, hcur⟩ := add_property_new h h0 c.1 c.2 hk
      have hmap : (l ++ [(c_str c.1, c_str (clean_char t.latin1 c.2))]).map Prod.fst
          = l.map Prod.fst ++ [c_str c.1] := by simp
      have hcap1 : ∀ j, j < calls.length →
          ((l ++ [(c_str c.1, c_str (clean_char t.latin1 c.2))]) ++
            first_writes_aux ((l ++ [(c_str c.1, c_str (clean_char t.latin1 c.2))]).map Prod.fst)
              (offered t1.latin1 (calls.take j))).length < MAX_PROPERTIES := by
        intro j hj
        have := hcap (j + 1) (Nat.succ_lt_succ hj)
        rw [hmap, hlat]
        simpa [offered, first_writes_aux, hk, Nat.add_assoc, Nat.add_comm] using this
      obtain ⟨t2, hr, hl2, hc⟩ := ih t1 _ hcur hcap1
      refine ⟨t2, by rw [hrun t1 h1, hr], by rw [hl2, hlat], ?_⟩
      rw [hmap, hlat] at hc
      simpa [offered, first_writes_aux, hk] using hc

theorem add_content_object_current {s s1 : State} {level : Int} {object_type wikidata : List Nat}
    (h : add_content_object s level object_type wikidata = some s1) :
    current_holds s1 s.id [] := by
  obtain ⟨_, hid, hpc, _, _, _, _, _, _, _, hc⟩ := add_content_object_some h
  refine ⟨hid, hpc, ?_, ?_⟩
  · rw [hc, Function.update_same]; rfl
  · simp only [property_list, hc, Function.update_same]; rfl

/-- C2 (amended). For every object created by `add_content_object` and every
sequence of `add_property` calls made while it is the latest object, provided
each call finds fewer than 100 properties stored on it (the assertion of
`add_property`): all calls succeed and the object's property list is exactly
the sequence of first occurrences of each distinct key, in call order, each
with the value its first write stored, which is `clean_char(value)` (the value
itself without latin1). A further call whose key is already present returns
the state unchanged. -/
theorem add_property_first_write_wins (s : State) (level : Int)
    (object_type wikidata : List Nat) (calls : List (List Nat × List Nat))
    (hid : s.id < MAX_OBJECTS)
    (hcap : ∀ j, j < calls.length →
      (first_writes (offered s.latin1 (calls.take j))).length < MAX_PROPERTIES) :
    ∃ s1 s2, add_content_object s level object_type wikidata = some s1 ∧
      run s1 (prop_ops calls) = some s2 ∧
      s2.id = s.id + 1 ∧
      property_list s2 s.id = first_writes (offered s.latin1 calls) ∧
      (s2.given_file.content s.id).number_of_properties =
        (first_writes (offered s.latin1 calls)).length ∧
      ∀ key value, c_str key ∈ (first_writes (offered s.latin1 calls)).map Prod.fst →
        (first_writes (offered s.latin1 calls)).length < MAX_PROPERTIES →
        add_property s2 key value = some s2 := by
  obtain ⟨s1, h1⟩ := add_content_object_isSome s level object_type wikidata hid
  have hcur := add_content_object_current h1
  have hlat : s1.latin1 = s.latin1 := (add_content_object_some h1).2.2.2.1
  obtain ⟨s2, h2, _, hc2⟩ := run_prop_ops s.id calls s1 [] hcur (by
    intro j hj
    rw [hlat]
    simpa [first_writes] using hcap j hj)
  rw [hlat] at hc2
  simp only [List.nil_append, List.map_nil] at hc2
  refine ⟨s1, s2, h1, h2, hc2.1, hc2.2.2.2, hc2.2.2.1, ?_⟩
  intro key value hk hlen
  exact add_property_present hc2 hlen key value hk

/-- C2 at the calls of `test_add_property`: two properties are stored, the
volume name with the value of its first write. -/
theorem add_property_first_write_wins_witness :
    ∃ s1 s2, add_content_object State.initial 0 (ascii "FAT12") (ascii "Q3063042") = some s1 ∧
      run s1 (prop_ops first_write_example_calls) = some s2 ∧
      property_list s2 0 =
        [(ascii "volume name", ascii "my beautiful FAT12 volume"),
         (ascii "volume size", ascii "4000")] ∧
      (s2.given_file.content 0).number_of_properties = 2 := by
  obtain ⟨s1, s2, h1, h2, _, h4, h5, _⟩ :=
    add_property_first_write_wins State.initial 0 (ascii "FAT12") (ascii "Q3063042")
      first_write_example_calls (by decide)
      (by intro j hj
          have hj4 : j < 4 := hj
          interval_cases j <;> decide)
  refine ⟨s1, s2, h1, h2, ?_, ?_⟩
  · exact h4.trans (by decide)
  · exact h5.trans (by decide)

/-- C2 as stated fails in two ways. With 101 distinct keys the assertion
`property_counter < 100` of the 101st call fails, and so does the one of a
call that repeats a key once 100 properties are stored: no property list
results. With `--latin1` the value stored by the first write is the escaped
one, here `%%` for the written `%`. -/
theorem add_property_first_write_counterexample :
    ((add_content_object State.initial 0 [] []).bind fun s1 =>
      run s1 (prop_ops (distinct_keys 101))) = none ∧
    ((add_content_object State.initial 0 [] []).bind fun s1 =>
      run s1 (prop_ops (distinct_keys 100 ++ [([1], [])]))) = none ∧
    (((add_content_object State.initial 0 [] []).bind fun s1 =>
      run s1 (prop_ops (distinct_keys 100))).map fun s2 =>
        (s2.given_file.content 0).number_of_properties) = some 100 ∧
    (((add_content_object State.initial_latin1 0 [] []).bind fun s1 =>
      run s1 (prop_ops [(ascii "k", ascii "%")])).map fun s2 => property_list s2 0)
      = some [(ascii "k", ascii "%%")] := by
  refine ⟨?_, ?_, ?_, ?_⟩
  · rfl
  · rfl
  · decide
  · decide

/-! ## Escaping -/

theorem sprintf_04X_byte : ∀ b, b < 256 →
    sprintf_04X b = [48, 48, hex_upper (b / 16), hex_upper (b % 16)] := by
  decide

theorem escape_byte_ne_zero : ∀ b, b < 256 → b ≠ 0 → ∀ c ∈ escape_byte b, c ≠ 0 := by
  decide

theorem clean_char_loop_eq (value : List Nat) (hb : ∀ b ∈ value, b < 256) :
    ∀ clean, clean_char_loop value clean = clean ++ (c_str value).flatMap escape_byte := by
  induction value with
  | nil => intro clean; simp [clean_char_loop, c_str_nil]
  | cons c value ih =>
    intro clean
    have hc : c < 256 := hb c (List.mem_cons_self c value)
    have ih1 := ih (fun b h => hb b (List.mem_cons_of_mem c h))
    by_cases h0 : c = 0
    · subst h0
      simp [clean_char_loop, c_str_cons_nul]
    · rw [c_str_cons_ne c value h0, List.flatMap_cons]
      unfold clean_char_loop
      rw [if_neg h0]
      by_cases h37 : c = 37
      · rw [if_pos h37, ih1]
        simp [escape_byte, h37]
      · rw [if_neg h37]
        by_cases hesc : c = 0x5C ∨ c = 0x22 ∨ c ≤ 0x1F ∨ c ≥ 0x80
        · rw [if_pos hesc, ih1, sprintf_04X_byte c hc]
          have hesc1 : c = 0x5C ∨ c = 0x22 ∨ c ≤ 0x1F ∨ 0x80 ≤ c := hesc
          simp [escape_byte, h37, hesc1]
        · rw [if_neg hesc, ih1]
          have hesc1 : ¬ (c = 0x5C ∨ c = 0x22 ∨ c ≤ 0x1F ∨ 0x80 ≤ c) := hesc
          simp [escape_byte, h37, hesc1]

theorem flatMap_escape_ne_zero (l : List Nat) (hb : ∀ b ∈ l, b < 256) (h0 : ∀ b ∈ l, b ≠ 0) :
    ∀ c ∈ l.flatMap escape_byte, c ≠ 0 := by
  intro c hc
  obtain ⟨b, hbl, hcb⟩ := List.mem_flatMap.mp hc
  exact escape_byte_ne_zero b (hb b hbl) (h0 b hbl) c hcb

/-- C7. On every array of bytes, `clean_char` agrees with the reference
function: without latin1 the array is returned as it is; with latin1 the
result is the concatenation of the escapes of the bytes of the input string,
closed by the terminator, so that the string it holds is the reference
string. -/
theorem clean_char_eq_reference (latin1 : Int) (value : List Nat)
    (hb : ∀ b ∈ value, b < 256) :
    (latin1 = 0 → clean_char latin1 value = clean_char_reference latin1 value) ∧
    (latin1 ≠ 0 → clean_char latin1 value = clean_char_reference latin1 value ++ [0]) ∧
    c_str (clean_char latin1 value) = c_str (clean_char_reference latin1 value) := by
  have hsub : ∀ b ∈ c_str value, b < 256 := fun b h =>
    hb b (List.takeWhile_subset _ h)
  have hnz := flatMap_escape_ne_zero (c_str value) hsub (c_str_ne_zero value)
  refine ⟨?_, ?_, ?_⟩
  · intro h; simp [clean_char, clean_char_reference, h]
  · intro h
    simp only [clean_char, clean_char_reference, if_neg h]
    rw [clean_char_loop_eq value hb]; rfl
  · by_cases h : latin1 = 0
    · simp [clean_char, clean_char_reference, h]
    · simp only [clean_char, clean_char_reference, if_neg h]
      rw [clean_char_loop_eq value hb, List.nil_append, c_str_append_nul _ [] hnz,
        c_str_no_nul _ hnz]

/-- C7 at inputs of `test_clean_char`: a backslash, a quote, byte 255, a
percent sign and a line feed. -/
theorem clean_char_eq_reference_witness :
    c_str (clean_char 1 (ascii "a\\b\"" ++ [255] ++ ascii "%\n")) =
      ascii "a\\u005Cb\\u0022\\u00FF%%\\u000A" ∧
    clean_char 0 (ascii "a\\b\"" ++ [255] ++ ascii "%\n") =
      ascii "a\\b\"" ++ [255] ++ ascii "%\n" := by
  have h := clean_char_eq_reference 1 (ascii "a\\b\"" ++ [255] ++ ascii "%\n") (by decide)
  have h0 := clean_char_eq_reference 0 (ascii "a\\b\"" ++ [255] ++ ascii "%\n") (by decide)
  exact ⟨h.2.2.trans (by decide), (h0.1 rfl).trans (by decide)⟩

/-! ## The CDDB identifier -/

theorem or_mod_two_pow (a b w : Nat) : (a ||| b) % 2 ^ w = a % 2 ^ w ||| b % 2 ^ w := by
  apply Nat.eq_of_testBit_eq
  intro i
  simp only [Nat.testBit_mod_two_pow, Nat.testBit_or]
  by_cases h : i < w <;> simp [h]

theorem to_unsigned_natCast (w n : Nat) : to_unsigned w (n : Int) = n % 2 ^ w := by
  unfold to_unsigned
  have : ((2 : Int) ^ w) = ((2 ^ w : Nat) : Int) := by norm_cast
  rw [this, ← Int.ofNat_emod, Int.toNat_ofNat]

theorem to_int_small (x : Nat) (h : x < 2 ^ 31) : to_int x = (x : Int) := by
  unfold to_int
  have h1 : x % 2 ^ 32 = x := Nat.mod_eq_of_lt (by omega)
  rw [h1, if_pos h]

theorem cddb_sum_loop_digits : ∀ (fuel m : Nat) (ret : Int), m < 10 ^ fuel →
    cddb_sum_loop fuel (m : Int) ret = ret + ((Nat.digits 10 m).sum : Nat) := by
  intro fuel
  induction fuel with
  | zero =>
    intro m ret hm
    have : m = 0 := by simpa using hm
    subst this
    simp [cddb_sum_loop]
  | succ fuel ih =>
    intro m ret hm
    unfold cddb_sum_loop
    by_cases h0 : m = 0
    · subst h0; simp
    · have hpos : (m : Int) > 0 := by omega
      rw [if_pos hpos]
      have hd : Int.tdiv (m : Int) 10 = ((m / 10 : Nat) : Int) := (Int.ofNat_tdiv m 10).symm
      have hr : Int.tmod (m : Int) 10 = ((m % 10 : Nat) : Int) := (Int.ofNat_tmod m 10).symm
      have hlt : m / 10 < 10 ^ fuel := by
        rw [Nat.div_lt_iff_lt_mul (by decide)]
        rw [Nat.pow_succ] at hm
        exact hm
      rw [hd, hr, ih (m / 10) _ hlt]
      rw [Nat.digits_def' (by decide) (Nat.pos_of_ne_zero h0)]
      simp only [List.sum_cons]
      push_cast
      ring

/-- `cddb_sum` is the decimal digit sum of every non-negative `int`. -/
theorem cddb_sum_digits (m : Nat) (hm : m < 2 ^ 31) :
    cddb_sum (m : Int) = ((Nat.digits 10 m).sum : Nat) := by
  unfold cddb_sum
  rw [cddb_sum_loop_digits 10 m 0 (by omega)]
  simp

theorem LBA_TO_SECS_small (w f : Nat) (hw : 32 ≤ w) (hf : f < 2 ^ 31) :
    LBA_TO_SECS w f = secs f := by
  unfold LBA_TO_SECS secs
  have h32 : 2 ^ 32 ≤ 2 ^ w := Nat.pow_le_pow_right (by decide) hw
  rw [Nat.mod_eq_of_lt (by omega)]

theorem secs_lt (f : Nat) (hf : f < 2 ^ 31) : secs f < 2 ^ 25 := by
  unfold secs; omega

theorem secs_mono {a b : Nat} (h : a ≤ b) : secs a ≤ secs b := by
  unfold secs; exact Nat.div_le_div_right (by omega)

theorem cddb_cksum_reference (w : Nat) (hw : 32 ≤ w) (lba : Nat → Nat) :
    ∀ n, (∀ i, i < n → lba i < 2 ^ 31) →
      cddb_cksum w lba n = (cddb_checksum_reference lba n : Nat) := by
  intro n
  induction n with
  | zero => intro _; simp [cddb_cksum, cddb_checksum_reference]
  | succ n ih =>
    intro h
    have hn : lba n < 2 ^ 31 := h n (Nat.lt_succ_self n)
    have hs := secs_lt (lba n) hn
    unfold cddb_cksum
    rw [ih (fun i hi => h i (Nat.lt_succ_of_lt hi)), LBA_TO_SECS_small w _ hw hn,
      to_int_small _ (by omega), cddb_sum_digits _ (by omega)]
    simp only [cddb_checksum_reference, List.range_succ, List.map_append, List.sum_append,
      List.map_singleton, List.sum_singleton]
    push_cast
    rfl

/-- The identifier computed by the source, on frames below 2^31 with the
lead-out not before the first track. -/
theorem cddb_diskid_eq (w : Nat) (hw : 32 ≤ w) (lba : Nat → Nat) (n : Nat)
    (hf : ∀ i, i ≤ n → lba i < 2 ^ 31) (hord : lba 0 ≤ lba n) :
    cddb_diskid w lba n = cddb_diskid_reference lba n % 2 ^ w := by
  have h0 : lba 0 < 2 ^ 31 := hf 0 (Nat.zero_le n)
  have hn : lba n < 2 ^ 31 := hf n (Nat.le_refl n)
  have h32 : 2 ^ 32 ≤ 2 ^ w := Nat.pow_le_pow_right (by decide) hw
  have hck := cddb_cksum_reference w hw lba n (fun i hi => hf i (Nat.le_of_lt hi))
  have hmono := secs_mono hord
  have hsn := secs_lt _ hn
  have htot : cddb_totaltime w lba n = ((secs (lba n) - secs (lba 0) : Nat) : Int) := by
    unfold cddb_totaltime
    rw [LBA_TO_SECS_small w _ hw hn, LBA_TO_SECS_small w _ hw h0]
    have : (secs (lba n) + 2 ^ w - secs (lba 0)) % 2 ^ w = secs (lba n) - secs (lba 0) := by
      have e : secs (lba n) + 2 ^ w - secs (lba 0) = (secs (lba n) - secs (lba 0)) + 2 ^ w := by
        omega
      rw [e, Nat.add_mod_right, Nat.mod_eq_of_lt (by omega)]
    rw [this, to_int_small _ (by omega)]
  unfold cddb_diskid cddb_diskid_reference
  have ht : Int.tmod ((cddb_checksum_reference lba n : Nat) : Int) 255
      = ((cddb_checksum_reference lba n % 255 : Nat) : Int) := (Int.ofNat_tmod _ 255).symm
  rw [hck, htot, ht, to_unsigned_natCast, to_unsigned_natCast,
    to_unsigned_natCast, or_mod_two_pow, or_mod_two_pow]
  have e1 : cddb_checksum_reference lba n % 255 % 2 ^ w = cddb_checksum_reference lba n % 255 :=
    Nat.mod_eq_of_lt (by omega)
  have e2 : (secs (lba n) - secs (lba 0)) % 2 ^ w = secs (lba n) - secs (lba 0) :=
    Nat.mod_eq_of_lt (by omega)
  rw [e1, e2]

theorem track_events_isSome (lib : Lib) (w : Nat) (level first : Int) (ctrl lba : Nat → Nat)
    (i : Nat) : ∃ evs, track_events lib w level first ctrl lba i = some evs := by
  unfold track_events
  by_cases h : ctrl i &&& 4 = 0
  · simp only [h, if_true, add_track_json]; exact ⟨_, rfl⟩
  · simp only [h, if_false, add_track_json, show ((1 : Int) = 0) = False by simp, if_true]
    exact ⟨_, rfl⟩

theorem track_loop_isSome (lib : Lib) (w : Nat) (level first : Int) (ctrl lba : Nat → Nat) :
    ∀ n, ∃ evs, track_loop lib w level first ctrl lba n = some evs := by
  intro n
  induction n with
  | zero => exact ⟨[], rfl⟩
  | succ n ih =>
    obtain ⟨a, ha⟩ := ih
    obtain ⟨b, hb⟩ := track_events_isSome lib w level first ctrl lba n
    exact ⟨a ++ b, by simp only [track_loop, ha, hb]⟩

theorem cddb_diskid_congr (w : Nat) (f g : Nat → Nat) (n : Nat) (h : ∀ i, i ≤ n → f i = g i) :
    cddb_diskid w f n = cddb_diskid w g n := by
  have hck : ∀ m, m ≤ n → cddb_cksum w f m = cddb_cksum w g m := by
    intro m
    induction m with
    | zero => intro _; rfl
    | succ m ih =>
      intro hm
      simp only [cddb_cksum, ih (by omega), h m (by omega)]
  simp only [cddb_diskid, cddb_totaltime, hck n (Nat.le_refl n), h n (Nat.le_refl n),
    h 0 (Nat.zero_le n)]

theorem digit_char_hex : ∀ d, d < 16 → digit_char d = hex_upper d ∧
    48 ≤ digit_char d ∧ digit_char d ≤ 90 := by
  decide

theorem digits_fuel_hex : ∀ (fuel n : Nat), n < fuel →
    digits_fuel 16 fuel n =
      if n = 0 then [48] else (Nat.digits 16 n).reverse.map hex_upper := by
  intro fuel
  induction fuel with
  | zero => intro n h; omega
  | succ fuel ih =>
    intro n h
    unfold digits_fuel
    by_cases h16 : n < 16
    · rw [if_pos h16]
      by_cases h0 : n = 0
      · subst h0; rfl
      · rw [if_neg h0, Nat.digits_of_lt 16 n h0 h16, (digit_char_hex n h16).1]
        rfl
    · rw [if_neg h16, ih (n / 16) (by omega)]
      have hn0 : n ≠ 0 := by omega
      have hd0 : n / 16 ≠ 0 := by omega
      have hm : n % 16 < 16 := Nat.mod_lt _ (by decide)
      have e : Nat.digits 16 n = n % 16 :: Nat.digits 16 (n / 16) :=
        Nat.digits_def' (by decide) (by omega)
      rw [if_neg hn0, if_neg hd0, e, (digit_char_hex _ hm).1]
      simp

theorem digits_fuel_hex_range : ∀ (fuel n : Nat), ∀ c ∈ digits_fuel 16 fuel n,
    48 ≤ c ∧ c ≤ 90 := by
  intro fuel
  induction fuel with
  | zero => intro n c hc; simp [digits_fuel] at hc
  | succ fuel ih =>
    intro n c hc
    unfold digits_fuel at hc
    split at hc
    · rename_i h16
      simp only [List.mem_singleton] at hc
      rw [hc]; exact (digit_char_hex n h16).2
    · rcases List.mem_append.mp hc with h1 | h1
      · exact ih _ c h1
      · simp only [List.mem_singleton] at h1
        rw [h1]; exact (digit_char_hex _ (Nat.mod_lt _ (by decide))).2

/-- The conversion `%08lX` gives the zero-padded upper-case hexadecimal
representation, of exactly eight digits for a value below 2^32. -/
theorem sprintf_08lX_eq (n : Nat) :
    sprintf_08lX n = hex_padded8 n ∧ (n < 2 ^ 32 → (sprintf_08lX n).length = 8) := by
  have hd := digits_fuel_hex (n + 1) n (Nat.lt_succ_self n)
  have heq : sprintf_08lX n = hex_padded8 n := by
    unfold sprintf_08lX hex_padded8
    simp only [hd]
    by_cases h0 : n = 0
    · subst h0
      simp only [if_true, Nat.digits_zero, List.length_nil, List.reverse_nil, List.map_nil,
        List.length_singleton]
      decide
    · rw [if_neg h0, List.length_map, List.length_reverse]
  refine ⟨heq, ?_⟩
  intro hlt
  rw [heq]
  unfold hex_padded8
  rw [List.length_append, List.length_replicate, List.length_map, List.length_reverse]
  have hlen : (Nat.digits 16 n).length ≤ 8 := by
    by_cases h0 : n = 0
    · subst h0; simp
    · have h1 := Nat.base_pow_length_digits_le 16 n (by decide) h0
      have h2 : 16 ^ (Nat.digits 16 n).length < 16 ^ 9 := by
        have : 16 * n < 16 ^ 9 := by
          have e : (16 : Nat) ^ 9 = 16 * 2 ^ 32 := by decide
          omega
        omega
      have := (Nat.pow_lt_pow_iff_right (by decide : 1 < 16)).mp h2
      omega
  omega

theorem cddb_diskid_reference_lt (frames : Nat → Nat) (n : Nat) (hn : n ≤ 99)
    (hf : frames n < 2 ^ 31) : cddb_diskid_reference frames n < 2 ^ 33 := by
  unfold cddb_diskid_reference
  have hs := secs_lt _ hf
  apply Nat.or_lt_two_pow
  · apply Nat.or_lt_two_pow
    · rw [Nat.shiftLeft_eq]
      have : cddb_checksum_reference frames n % 255 < 255 := Nat.mod_lt _ (by decide)
      omega
    · rw [Nat.shiftLeft_eq]; omega
  · omega

/-- C10 (amended). For every table of contents that `analyze_cdaccess`
accepts (`n <= 99` tracks, all entries readable) whose start frames
`lba[0..n]` are non-negative (below 2^31, as the ioctl delivers an `int`) with
the lead-out `lba[n]` not before `lba[0]`, and whose identifier is below 2^32,
so that its eight hexadecimal digits and their terminator fill the nine chars
of `disk_id`, the function returns 1 and prints and records the disk
identifier `((c mod 255) << 24) | (t << 8) | n` as an `unsigned long` of
`w >= 32` bits, where `secs(f) = (f + 150) / 75`, `c` is the sum over `i < n`
of the decimal digit sum of `secs(lba[i])` and
`t = secs(lba[n]) - secs(lba[0])`; `cddb_sum` is the decimal digit sum of
every non-negative `int`; from 33 bits on the identifier is the formula's
value itself, which is below 2^32 when `t` is below 2^24. -/
theorem analyze_cdaccess_diskid (lib : Lib) (w : Nat) (toc : Toc) (level : Int)
    (first last : Nat) (frames : Nat → Nat)
    (hw : 32 ≤ w) (hh : toc.header = some (first, last))
    (hlo : first ≤ last + 1) (hhi : last + 1 - first ≤ 99)
    (he : ∀ i, i ≤ last + 1 - first → ∃ c, toc.entry i = some (c, (frames i : Int)))
    (hf : ∀ i, i ≤ last + 1 - first → frames i < 2 ^ 31)
    (hord : frames 0 ≤ frames (last + 1 - first))
    (hfit : cddb_diskid_reference frames (last + 1 - first) % 2 ^ w < 2 ^ 32) :
    (∃ rest, analyze_cdaccess lib w toc level = some (1,
      Event.print_line level (ascii "CD-ROM, %d track%s, CDDB disk ID %08lX")
        [Arg.int ((last + 1 - first : Nat) : Int),
         Arg.str (if ((last + 1 - first : Nat) : Int) ≠ 1 then ascii "s" else []),
         Arg.ulong (cddb_diskid_reference frames (last + 1 - first) % 2 ^ w)]
      :: add_cd_rom_json level ((last + 1 - first : Nat) : Int)
          (cddb_diskid_reference frames (last + 1 - first) % 2 ^ w) ++ rest)) ∧
    (∀ m : Nat, m < 2 ^ 31 → cddb_sum (m : Int) = ((Nat.digits 10 m).sum : Nat)) ∧
    (33 ≤ w → cddb_diskid_reference frames (last + 1 - first) % 2 ^ w
      = cddb_diskid_reference frames (last + 1 - first)) ∧
    (sprintf_08lX (cddb_diskid_reference frames (last + 1 - first) % 2 ^ w) ++ [0]).length
      = 9 ∧
    (secs (frames (last + 1 - first)) - secs (frames 0) < 2 ^ 24 →
      cddb_diskid_reference frames (last + 1 - first) < 2 ^ 32) := by
  have hnt : ((last : Int) + 1 - (first : Int)) = ((last + 1 - first : Nat) : Int) := by omega
  have hlba : ∀ i, i ≤ last + 1 - first → toc.lba w i = frames i := by
    intro i hi
    obtain ⟨c, hc⟩ := he i hi
    have h32 : 2 ^ 32 ≤ 2 ^ w := Nat.pow_le_pow_right (by decide) hw
    have := hf i hi
    simp only [Toc.lba, hc, to_unsigned_natCast]
    exact Nat.mod_eq_of_lt (by omega)
  have hid : cddb_diskid w (toc.lba w) (last + 1 - first)
      = cddb_diskid_reference frames (last + 1 - first) % 2 ^ w := by
    rw [cddb_diskid_congr w (toc.lba w) frames _ hlba]
    exact cddb_diskid_eq w hw frames _ hf hord
  refine ⟨?_, cddb_sum_digits, ?_, ?_, ?_⟩
  · obtain ⟨evs, hevs⟩ := track_loop_isSome lib w level (first : Int) toc.ctrl (toc.lba w)
      (last + 1 - first)
    refine ⟨evs, ?_⟩
    have hany : (List.range ((last + 1 - first : Nat) + 1)).any
        (fun i => (toc.entry i).isNone) = false := by
      rw [List.any_eq_false]
      intro i hi
      obtain ⟨c, hc⟩ := he i (Nat.lt_succ_iff.mp (List.mem_range.mp hi))
      simp [hc]
    unfold analyze_cdaccess
    simp only [hh, hnt, Int.toNat_ofNat, hany]
    rw [if_neg (by omega), if_neg (by omega)]
    simp only [Bool.false_eq_true, if_false, hevs, hid]
    rfl
  · intro h33
    have hlt := cddb_diskid_reference_lt frames (last + 1 - first) hhi (hf _ (Nat.le_refl _))
    have : 2 ^ 33 ≤ 2 ^ w := Nat.pow_le_pow_right (by decide) h33
    exact Nat.mod_eq_of_lt (by omega)
  · rw [List.length_append, List.length_singleton, (sprintf_08lX_eq _).2 hfit]
  · intro ht
    unfold cddb_diskid_reference
    apply Nat.or_lt_two_pow
    · apply Nat.or_lt_two_pow
      · rw [Nat.shiftLeft_eq]
        have : cddb_checksum_reference frames (last + 1 - first) % 255 < 255 :=
          Nat.mod_lt _ (by decide)
        omega
      · rw [Nat.shiftLeft_eq]; omega
    · omega

/-- C10 at one track from frame 0 to the lead-out at frame 7500: start 2 s,
end 102 s, checksum 2, total time 100, identifier 0x02006401. -/
theorem analyze_cdaccess_diskid_witness :
    (∃ rest, analyze_cdaccess Lib.blank 64 toc_one_track 0 = some (1,
      Event.print_line 0 (ascii "CD-ROM, %d track%s, CDDB disk ID %08lX")
        [Arg.int 1, Arg.str [], Arg.ulong 0x02006401]
      :: add_cd_rom_json 0 1 0x02006401 ++ rest)) ∧
    cddb_diskid_reference (fun i => if i = 0 then 0 else 7500) 1 % 2 ^ 64 = 0x02006401 := by
  have h := analyze_cdaccess_diskid Lib.blank 64 toc_one_track 0 1 1
    (fun i => if i = 0 then 0 else 7500) (by decide) rfl (by decide) (by decide)
    (by intro i hi
        have hi1 : i ≤ 1 := hi
        interval_cases i
        · exact ⟨0, rfl⟩
        · exact ⟨0, rfl⟩)
    (by intro i hi
        have hi1 : i ≤ 1 := hi
        interval_cases i <;> decide)
    (by decide)
    (by
      have e := cddb_diskid_eq 64 (by decide) (fun i => if i = 0 then 0 else 7500) 1
        (by intro i hi; interval_cases i <;> decide) (by decide)
      rw [show (1 + 1 - 1 : Nat) = 1 by decide, ← e]; decide)
  have hv : cddb_diskid_reference (fun i => if i = 0 then 0 else 7500) 1 % 2 ^ 64
      = 0x02006401 := by
    have e := cddb_diskid_eq 64 (by decide) (fun i => if i = 0 then 0 else 7500) 1
      (by intro i hi; interval_cases i <;> decide) (by decide)
    rw [← e]; decide
  refine ⟨?_, hv⟩
  obtain ⟨rest, hr⟩ := h.1
  refine ⟨rest, ?_⟩
  rw [hr]
  simp only [show (1 + 1 - 1 : Nat) = 1 by decide, hv]
  rfl

theorem cddb_diskid_reference_one (f : Nat → Nat) : cddb_diskid_reference f 1 =
    ((Nat.digits 10 (secs (f 0))).sum % 255) <<< 24 |||
      (secs (f 1) - secs (f 0)) <<< 8 ||| 1 := by
  simp only [cddb_diskid_reference, cddb_checksum_reference, List.range_succ, List.range_zero,
      List.nil_append, List.map_singleton, List.sum_singleton]

/-- The formula on a start frame that the ioctl delivers as -151, that is the
`unsigned long` 2^64 - 151. -/
theorem cddb_diskid_reference_negative_frame :
    cddb_diskid_reference (toc_negative_frame.lba 64) 1 % 2 ^ 64 = 1711276033 := by
  have hd : (Nat.digits 10 245956587649460688).sum
      = (cddb_sum_loop 20 ((245956587649460688 : Nat) : Int) 0).toNat := by
    rw [cddb_sum_loop_digits 20 245956587649460688 0 (by decide), Int.zero_add,
      Int.toNat_ofNat]
  have hs0 : secs (toc_negative_frame.lba 64 0) = 245956587649460688 := by decide
  have hs1 : secs (toc_negative_frame.lba 64 1) = 102 := by decide
  rw [cddb_diskid_reference_one, hs0, hs1, hd]
  decide

/-- C10 as stated fails in two ways. For a table of contents with 100 tracks
the guard `ntracks > 99` makes `analyze_cdaccess` return 0 before any
identifier is computed. For a start frame delivered as -151 the start in
seconds does not fit the `int` that `cddb_sum` takes, and the identifier
computed differs from the formula on the frames. -/
theorem analyze_cdaccess_diskid_counterexample :
    analyze_cdaccess Lib.blank 64 toc_hundred_tracks 0 = some (0, []) ∧
    cddb_diskid 64 (toc_negative_frame.lba 64) 1 = 425144522241 ∧
    cddb_diskid_reference (toc_negative_frame.lba 64) 1 % 2 ^ 64 = 1711276033 := by
  refine ⟨by decide, by decide, cddb_diskid_reference_negative_frame⟩

/-! ## Every log built through the interface is well formed -/

theorem CString.holds_text_ok {c : CString} {cs : List Nat} (h : c.holds cs) : c.text_ok := by
  right
  have : c.text = cs := CString.holds_c_str h
  rw [this]; exact h

theorem CString.zero_text_ok : CString.zero.text_ok := Or.inl rfl

theorem insert_string_text {j : CString} {t : List Nat} (h : j.holds t) {c : CString}
    (hc : c.text_ok) : (insert_string j c).holds (t ++ c.text) := by
  rcases hc with h0 | h1
  · subst h0
    rw [insert_string_zero]
    simpa [CString.text, CString.zero, c_str_nil] using h
  · exact insert_string_holds h h1

theorem identify_parent_id_lt (s : State) (level : Int) :
    identify_parent_id s level < (s.id : Int) := by
  unfold identify_parent_id
  split
  · omega
  · rcases identify_parent_loop_cases s.given_file.content level s.id with
      ⟨h0, _⟩ | ⟨i, hi, hres, _, _⟩
    · rw [h0]; omega
    · rw [hres]; omega

theorem log_ok_reset (s0 : State) : log_ok (reset_json s0) := by
  refine ⟨rfl, Nat.zero_le _, ?_, CString.zero_text_ok, CString.zero_text_ok, ?_⟩
  · intro h; exact absurd h (Nat.lt_irrefl 0)
  · intro x hx; exact absurd hx (Nat.not_lt_zero x)

theorem log_ok_add_content_object {s s1 : State} {level : Int} {object_type wikidata : List Nat}
    (hs : log_ok s) (h : add_content_object s level object_type wikidata = some s1) :
    log_ok s1 := by
  obtain ⟨hid, hle, hpc, hfk, hpa, hobj⟩ := hs
  obtain ⟨hlt, hid1, hpc1, _, _, _, hno1, hfk1, hpa1, _, hc1⟩ := add_content_object_some h
  refine ⟨by omega, by omega, ?_, by rw [hfk1]; exact hfk, by rw [hpa1]; exact hpa, ?_⟩
  · intro _
    rw [hpc1, hid1, Nat.add_sub_cancel, hc1, Function.update_same]
  · intro x hx
    rw [hc1]
    by_cases hxs : x = s.id
    · subst hxs
      rw [Function.update_same]
      refine ⟨identify_parent_id_lt s level, ?_, ?_, ?_⟩
      · exact CString.holds_text_ok (insert_chars_holds (fresh_holds 25) _)
      · exact CString.holds_text_ok (insert_chars_holds (fresh_holds 25) _)
      · intro k hk; exact absurd hk (Nat.not_lt_zero k)
    · rw [Function.update_noteq hxs]
      exact hobj x (by omega)

theorem log_ok_add_property {s s1 : State} {key value : List Nat}
    (hs : log_ok s) (h : add_property s key value = some s1) : log_ok s1 := by
  obtain ⟨hpos, _, hcase⟩ := add_property_some h
  rcases hcase with ⟨_, rfl⟩ | ⟨_, hid1, hpc1, _, _, _, hno1, hfk1, hpa1, _, hc1⟩
  · exact hs
  · obtain ⟨hid, hle, hpc, hfk, hpa, hobj⟩ := hs
    have hpc0 := hpc hpos
    refine ⟨by omega, by omega, ?_, by rw [hfk1]; exact hfk, by rw [hpa1]; exact hpa, ?_⟩
    · intro _
      rw [hpc1, hid1, hc1, Function.update_same, hpc0]
    · intro x hx
      rw [hc1]
      by_cases hxs : x = s.id - 1
      · subst hxs
        rw [Function.update_same]
        obtain ⟨h1, h2, h3, h4⟩ := hobj (s.id - 1) (by omega)
        refine ⟨h1, h2, h3, ?_⟩
        intro k hk
        by_cases hkp : k = s.property_counter
        · subst hkp
          simp only [Function.update_same]
          exact ⟨CString.holds_text_ok (insert_chars_holds (fresh_holds 4) _),
            CString.holds_text_ok (insert_chars_holds (fresh_holds 4) _)⟩
        · simp only [Function.update_noteq hkp]
          apply h4 k
          have : k < (s.given_file.content (s.id - 1)).number_of_properties + 1 := hk
          omega
      · rw [Function.update_noteq hxs]
        exact hobj x (by omega)

theorem log_ok_add_file_path {s s1 : State} {path : List Nat}
    (hs : log_ok s) (h : add_file_path s path = some s1) : log_ok s1 := by
  unfold add_file_path at h
  simp only [initialize_String, Nat.zero_lt_succ, if_true] at h
  cases h
  obtain ⟨hid, hle, hpc, hfk, _, hobj⟩ := hs
  refine ⟨hid, hle, hpc, hfk, ?_, hobj⟩
  have hp : CString.holds
      { used_size := strlen (clean_char s.latin1 path) + 1
        total_size := strlen (clean_char s.latin1 path) + 1
        string := c_str (clean_char s.latin1 path) ++ [0] }
      (c_str (clean_char s.latin1 path)) := ⟨rfl, rfl, c_str_ne_zero _⟩
  exact CString.holds_text_ok hp

theorem log_ok_add_file_characteristics {s s1 : State} {file_kind : List Nat} {size : Nat}
    (hs : log_ok s) (h : add_file_characteristics s file_kind size = some s1) : log_ok s1 := by
  unfold add_file_characteristics at h
  simp only [initialize_String, show (0 : Nat) < 3 by decide, if_true] at h
  cases h
  obtain ⟨hid, hle, hpc, _, hpa, hobj⟩ := hs
  exact ⟨hid, hle, hpc, CString.holds_text_ok (insert_chars_holds (fresh_holds 3) _), hpa, hobj⟩

theorem log_ok_apply {s s1 : State} (op : Op) (hs : log_ok s) (h : op.apply s = some s1) :
    log_ok s1 := by
  cases op with
  | object level object_type wikidata => exact log_ok_add_content_object hs h
  | prop key value => exact log_ok_add_property hs h
  | file_path path => exact log_ok_add_file_path hs h
  | file_characteristics file_kind size => exact log_ok_add_file_characteristics hs h

theorem log_ok_run (ops : List Op) : ∀ {s s1 : State}, log_ok s → run s ops = some s1 →
    log_ok s1 := by
  induction ops with
  | nil => intro s s1 hs h; cases h; exact hs
  | cons op ops ih =>
    intro s s1 hs h
    simp only [run] at h
    cases hop : op.apply s with
    | none => rw [hop] at h; cases h
    | some s2 =>
      rw [hop] at h
      exact ih (log_ok_apply op hs hop) h

/-! ## The serializer writes the document -/

theorem sep_join_zero (items : List (List Nat)) :
    sep_join 0 items = (items.map fun a => ascii ", " ++ a).flatten := by
  induction items with
  | nil => rfl
  | cons a rest ih => simp [sep_join, ih]

theorem intercalate_cons_cons (sep a b : List Nat) (rest : List (List Nat)) :
    sep.intercalate (a :: b :: rest) = a ++ sep ++ sep.intercalate (b :: rest) := by
  simp [List.intercalate, List.intersperse]

theorem sep_join_one (items : List (List Nat)) :
    sep_join 1 items = (ascii ", ").intercalate items := by
  cases items with
  | nil => rfl
  | cons a rest =>
    simp only [sep_join, show ((1 : Int) = 0) = False by simp, if_false, List.nil_append]
    induction rest generalizing a with
    | nil => simp [List.intercalate, sep_join]
    | cons b rest ih =>
      rw [intercalate_cons_cons, ← ih b]
      simp [sep_join]

theorem intercalate_snoc (sep : List Nat) (l : List (List Nat)) (x : List Nat) :
    sep.intercalate (l ++ [x]) = sep.intercalate l ++ (if l = [] then [] else sep) ++ x := by
  induction l with
  | nil => simp [List.intercalate]
  | cons a l ih =>
    cases l with
    | nil => simp [List.intercalate, List.intersperse]
    | cons b l =>
      have h1 : (a :: b :: l) ++ [x] = a :: b :: (l ++ [x]) := rfl
      rw [h1, intercalate_cons_cons, intercalate_cons_cons]
      have h2 : b :: (l ++ [x]) = (b :: l) ++ [x] := rfl
      rw [h2, ih]
      simp

theorem properties_loop_holds (s : State) (i : Nat)
    (hok : ∀ k, k < (s.given_file.content i).number_of_properties →
      ((s.given_file.content i).properties k).key.text_ok ∧
      ((s.given_file.content i).properties k).value.text_ok) :
    ∀ m, m ≤ (s.given_file.content i).number_of_properties →
      ∀ {j : CString} {t : List Nat}, j.holds t →
      ((List.range m).foldl (fun j k => add_property_json s j i k) j).holds
        (t ++ (ascii ", ").intercalate ((List.range m).map (render_property s i))) := by
  intro m
  induction m with
  | zero => intro _ j t h; simpa [List.intercalate] using h
  | succ m ih =>
    intro hm j t h
    have h1 := ih (Nat.le_of_succ_le hm) h
    obtain ⟨hk, hv⟩ := hok m hm
    rw [List.range_succ, List.foldl_append, List.map_append, List.map_singleton,
      intercalate_snoc]
    simp only [List.foldl_cons, List.foldl_nil]
    unfold add_property_json
    by_cases h0 : m = 0
    · subst h0
      simp only [ne_eq, not_true_eq_false, if_false, List.range_zero, List.map_nil, if_true,
        List.foldl_nil, List.intercalate, List.intersperse, List.flatten, List.append_nil,
        List.nil_append] at h1 ⊢
      have a1 := insert_chars_holds h (ascii "\"")
      have a2 := insert_string_text a1 hk
      have a3 := insert_chars_holds a2 (ascii "\": \"")
      have a4 := insert_string_text a3 hv
      have a5 := insert_chars_holds a4 (ascii "\"")
      have e1 : c_str (ascii "\"") = ascii "\"" := by decide
      have e2 : c_str (ascii "\": \"") = ascii "\": \"" := by decide
      rw [e1, e2] at a5
      simp only [render_property, List.append_assoc, List.nil_append] at a5 ⊢
      exact a5
    · have hne : (List.map (render_property s i) (List.range m) = []) = False := by
        simp [h0]
      simp only [ne_eq, h0, not_false_eq_true, if_true, hne, if_false]
      have a0 := insert_chars_holds h1 (ascii ", ")
      have a1 := insert_chars_holds a0 (ascii "\"")
      have a2 := insert_string_text a1 hk
      have a3 := insert_chars_holds a2 (ascii "\": \"")
      have a4 := insert_string_text a3 hv
      have a5 := insert_chars_holds a4 (ascii "\"")
      have e0 : c_str (ascii ", ") = ascii ", " := by decide
      have e1 : c_str (ascii "\"") = ascii "\"" := by decide
      have e2 : c_str (ascii "\": \"") = ascii "\": \"" := by decide
      rw [e0, e1, e2] at a5
      simp only [render_property, List.append_assoc, List.nil_append] at a5 ⊢
      exact a5

theorem render_properties_eq (s : State) (i : Nat) :
    render_properties s i = (ascii ", ").intercalate
      ((List.range (s.given_file.content i).number_of_properties).map (render_property s i)) := by
  unfold render_properties property_list
  rw [List.map_map]
  rfl

theorem add_children_holds (s : State) (obj_id : Nat)
    (recurse : Nat → Int → CString × List Nat → Option (CString × List Nat))
    (R E : Nat → List Nat) (l : List Nat)
    (hrec : ∀ x, x ∈ l → (s.given_file.content x).parent_id = (obj_id : Int) →
      ∀ (flag : Int) (json : CString) (em t : List Nat), json.holds t →
        ∃ json1, recurse x flag (json, em) = some (json1, em ++ E x) ∧
          json1.holds (t ++ (if flag = 0 then ascii ", " else []) ++ R x)) :
    ∀ (flag : Int) (json : CString) (em t : List Nat), json.holds t →
      ∃ json1, add_children recurse s obj_id l flag (json, em) =
          some (json1, em ++ ((l.filter fun x =>
            decide ((s.given_file.content x).parent_id = (obj_id : Int))).map E).flatten) ∧
        json1.holds (t ++ sep_join flag ((l.filter fun x =>
            decide ((s.given_file.content x).parent_id = (obj_id : Int))).map R)) := by
  induction l with
  | nil =>
    intro flag json em t h
    exact ⟨json, by simp [add_children], by simpa [sep_join] using h⟩
  | cons x l ih =>
    intro flag json em t h
    have ih1 := ih (fun y hy => hrec y (List.mem_cons_of_mem x hy))
    by_cases hp : (s.given_file.content x).parent_id = (obj_id : Int)
    · obtain ⟨j1, hr, hj1⟩ := hrec x (List.mem_cons_self x l) hp flag json em t h
      obtain ⟨j2, hr2, hj2⟩ := ih1 0 j1 (em ++ E x) _ hj1
      refine ⟨j2, ?_, ?_⟩
      · simp only [add_children, if_pos hp, hr, hr2, List.filter_cons, hp, decide_True,
          if_true, List.map_cons, List.flatten_cons, List.append_assoc]
      · simp only [List.filter_cons, hp, decide_True, if_true, List.map_cons, sep_join]
        simp only [List.append_assoc] at hj2 ⊢
        exact hj2
    · obtain ⟨j2, hr2, hj2⟩ := ih1 flag json em t h
      refine ⟨j2, ?_, ?_⟩
      · simp only [add_children, if_neg hp, hr2, List.filter_cons, hp, decide_False]
        rfl
      · simp only [List.filter_cons, hp, decide_False]
        exact hj2

theorem children_of_gt {s : State} (hs : log_ok s) {i x : Nat} (hx : x ∈ children_of s i) :
    i < x ∧ x < s.given_file.number_of_objects := by
  unfold children_of at hx
  rw [List.mem_filter, List.mem_range] at hx
  obtain ⟨hlt, hp⟩ := hx
  have hp1 : (s.given_file.content x).parent_id = (i : Int) := by simpa using hp
  have := (hs.2.2.2.2.2 x (by rw [hs.1]; exact hlt)).1
  rw [hp1] at this
  exact ⟨by omega, hlt⟩

/-- One call of `add_obj_json` on a well-formed log, with fuel for the objects
from `i` on: the text of object `i` is appended, after `, ` unless it is the
first of its list, and the ids of `i` and its descendants are emitted. -/
theorem add_obj_json_holds (s : State) (hs : log_ok s) :
    ∀ (fuel i : Nat), i < s.given_file.number_of_objects →
      s.given_file.number_of_objects - i ≤ fuel →
      ∀ (flag : Int) (json : CString) (em t : List Nat), json.holds t →
        ∃ json1, add_obj_json fuel s i flag (json, em) =
            some (json1, em ++ emission_order fuel s i) ∧
          json1.holds (t ++ (if flag = 0 then ascii ", " else []) ++ render_object fuel s i) := by
  intro fuel
  induction fuel with
  | zero => intro i hi hf; omega
  | succ fuel ih =>
    intro i hi hf flag json em t h
    obtain ⟨_, hot, hwd, hprops⟩ := hs.2.2.2.2.2 i (by rw [hs.1]; exact hi)
    have e1 : c_str (ascii ", ") = ascii ", " := by decide
    have e2 : c_str (ascii "\x7b\"type\": \"") = ascii "\x7b\"type\": \"" := by decide
    have e3 : c_str (ascii "\",") = ascii "\"," := by decide
    have e4 : c_str (ascii " \"wikidata\": \"") = ascii " \"wikidata\": \"" := by decide
    have e5 : c_str (ascii " \"properties\": \x7b") = ascii " \"properties\": \x7b" := by decide
    have e6 : c_str (ascii "\x7d, \"content\": [") = ascii "\x7d, \"content\": [" := by decide
    have e7 : c_str (ascii "]\x7d") = ascii "]\x7d" := by decide
    have c1 : ascii "\"," ++ ascii " \"wikidata\": \"" = ascii "\", \"wikidata\": \"" := by decide
    have c2 : ascii "\"," ++ ascii " \"properties\": \x7b" = ascii "\", \"properties\": \x7b" := by
      decide
    have a0 : (if flag = 0 then insert_chars json (ascii ", ") else json).holds
        (t ++ (if flag = 0 then ascii ", " else [])) := by
      by_cases hfl : flag = 0
      · simp only [hfl, if_true]
        have := insert_chars_holds h (ascii ", ")
        rw [e1] at this; exact this
      · simp only [hfl, if_false, List.append_nil]; exact h
    have a1 := insert_chars_holds a0 (ascii "\x7b\"type\": \"")
    have a2 := insert_string_text a1 hot
    have a3 := insert_chars_holds a2 (ascii "\",")
    have a4 := insert_chars_holds a3 (ascii " \"wikidata\": \"")
    have a5 := insert_string_text a4 hwd
    have a6 := insert_chars_holds a5 (ascii "\",")
    have a7 := insert_chars_holds a6 (ascii " \"properties\": \x7b")
    have a8 := properties_loop_holds s i hprops _ (Nat.le_refl _) a7
    have a9 := insert_chars_holds a8 (ascii "\x7d, \"content\": [")
    have hrec : ∀ x, x ∈ List.range s.given_file.number_of_objects →
        (s.given_file.content x).parent_id = (i : Int) →
        ∀ (flag : Int) (json : CString) (em t : List Nat), json.holds t →
          ∃ json1, add_obj_json fuel s x flag (json, em) =
              some (json1, em ++ emission_order fuel s x) ∧
            json1.holds (t ++ (if flag = 0 then ascii ", " else []) ++
              render_object fuel s x) := by
      intro x hx hp
      have hxc : x ∈ children_of s i := by
        unfold children_of
        rw [List.mem_filter]
        exact ⟨hx, by simpa using hp⟩
      obtain ⟨hgt, hlt⟩ := children_of_gt hs hxc
      exact ih x hlt (by omega)
    obtain ⟨j10, hr, hj10⟩ := add_children_holds s i (add_obj_json fuel s)
      (render_object fuel s) (emission_order fuel s) _ hrec 1 _ (em ++ [i]) _ a9
    have a11 := insert_chars_holds hj10 (ascii "]\x7d")
    refine ⟨insert_chars j10 (ascii "]\x7d"), ?_, ?_⟩
    · simp only [add_obj_json, hr, emission_order, children_of, List.append_assoc,
        List.singleton_append]
    · rw [e2, e3, e4, e5, e6, e7, sep_join_one] at a11
      simp only [render_object, children_of, ← render_properties_eq, List.append_assoc,
        List.nil_append] at a11 ⊢
      rw [← List.append_assoc (ascii "\",") (ascii " \"wikidata\": \""), c1,
        ← List.append_assoc (ascii "\",") (ascii " \"properties\": \x7b"), c2] at a11
      exact a11

theorem render_object_depth (s : State) (hs : log_ok s) :
    ∀ (d1 d2 i : Nat), i < s.given_file.number_of_objects →
      s.given_file.number_of_objects - i ≤ d1 → s.given_file.number_of_objects - i ≤ d2 →
      render_object d1 s i = render_object d2 s i := by
  intro d1
  induction d1 with
  | zero => intro d2 i hi h1; omega
  | succ d1 ih =>
    intro d2 i hi h1 h2
    cases d2 with
    | zero => omega
    | succ d2 =>
      have hm : (children_of s i).map (render_object d1 s)
          = (children_of s i).map (render_object d2 s) := by
        apply List.map_congr_left
        intro x hx
        obtain ⟨hgt, hlt⟩ := children_of_gt hs hx
        exact ih d2 x hlt (by omega) (by omega)
      simp only [render_object, hm]

theorem emission_order_depth (s : State) (hs : log_ok s) :
    ∀ (d1 d2 i : Nat), i < s.given_file.number_of_objects →
      s.given_file.number_of_objects - i ≤ d1 → s.given_file.number_of_objects - i ≤ d2 →
      emission_order d1 s i = emission_order d2 s i := by
  intro d1
  induction d1 with
  | zero => intro d2 i hi h1; omega
  | succ d1 ih =>
    intro d2 i hi h1 h2
    cases d2 with
    | zero => omega
    | succ d2 =>
      have hm : (children_of s i).map (emission_order d1 s)
          = (children_of s i).map (emission_order d2 s) := by
        apply List.map_congr_left
        intro x hx
        obtain ⟨hgt, hlt⟩ := children_of_gt hs hx
        exact ih d2 x hlt (by omega) (by omega)
      simp only [emission_order, hm]

theorem add_roots_holds (s : State) (hs : log_ok s) (fuel : Nat)
    (hfuel : s.given_file.number_of_objects ≤ fuel) (l : List Nat)
    (hl : ∀ i, i ∈ l → i < s.given_file.number_of_objects) :
    ∀ (json : CString) (em t : List Nat), json.holds t →
      ∃ json1, add_roots fuel s l (json, em) =
          some (json1, em ++ ((l.filter fun i =>
            decide ((s.given_file.content i).level = 0)).map (emission_order fuel s)).flatten) ∧
        json1.holds (t ++ ((l.filter fun i =>
            decide ((s.given_file.content i).level = 0)).map fun r =>
              (if r = 0 then [] else ascii ", ") ++ render_object fuel s r).flatten) := by
  induction l with
  | nil =>
    intro json em t h
    exact ⟨json, by simp [add_roots], by simpa using h⟩
  | cons i l ih =>
    intro json em t h
    have ih1 := ih (fun y hy => hl y (List.mem_cons_of_mem i hy))
    have hi := hl i (List.mem_cons_self i l)
    by_cases hp : (s.given_file.content i).level = 0
    · obtain ⟨j1, hr, hj1⟩ := add_obj_json_holds s hs fuel i hi (by omega)
        (if i = 0 then 1 else 0) json em t h
      obtain ⟨j2, hr2, hj2⟩ := ih1 j1 (em ++ emission_order fuel s i) _ hj1
      refine ⟨j2, ?_, ?_⟩
      · simp only [add_roots, if_pos hp, hr, hr2, List.filter_cons, hp, decide_True,
          if_true, List.map_cons, List.flatten_cons, List.append_assoc]
      · have hsep : (if (if i = 0 then (1 : Int) else 0) = 0 then ascii ", " else [])
            = (if i = 0 then [] else ascii ", ") := by
          by_cases h0 : i = 0 <;> simp [h0]
        rw [hsep] at hj2
        simp only [List.filter_cons, hp, decide_True, if_true, List.map_cons,
          List.flatten_cons]
        simp only [List.append_assoc] at hj2 ⊢
        exact hj2
    · obtain ⟨j2, hr2, hj2⟩ := ih1 json em t h
      refine ⟨j2, ?_, ?_⟩
      · simp only [add_roots, if_neg hp, hr2, List.filter_cons, hp, decide_False]
        rfl
      · simp only [List.filter_cons, hp, decide_False]
        exact hj2

theorem digit_char_ne_zero (d : Nat) : digit_char d ≠ 0 := by
  unfold digit_char
  split <;> omega

theorem digits_fuel_ne_zero (base : Nat) : ∀ (fuel n : Nat), ∀ c ∈ digits_fuel base fuel n,
    c ≠ 0 := by
  intro fuel
  induction fuel with
  | zero => intro n c hc; simp [digits_fuel] at hc
  | succ fuel ih =>
    intro n c hc
    unfold digits_fuel at hc
    split at hc
    · simp only [List.mem_singleton] at hc
      rw [hc]; exact digit_char_ne_zero n
    · rcases List.mem_append.mp hc with h1 | h1
      · exact ih _ c h1
      · simp only [List.mem_singleton] at h1
        rw [h1]; exact digit_char_ne_zero _

theorem decimal_ne_zero (n : Nat) : ∀ c ∈ decimal n, c ≠ 0 :=
  digits_fuel_ne_zero 10 (n + 1) n

theorem foldl_insert_filter (l : List Nat) :
    ∀ {str : CString} {cs : List Nat}, str.holds cs →
      (l.foldl insert_single_char str).holds (cs ++ l.filter fun c => decide (c ≠ 0)) := by
  induction l with
  | nil => intro str cs h; simpa using h
  | cons a l ih =>
    intro str cs h
    by_cases ha : a = 0
    · subst ha
      simp only [List.foldl_cons, insert_single_char_nul]
      simpa using ih h
    · have := ih (insert_single_char_holds h ha)
      simpa [ha] using this

theorem filter_take_written (d : List Nat) (hd : ∀ c ∈ d, c ≠ 0) (digits : Nat) :
    ((d ++ [100, 0]).take digits).filter (fun c => decide (c ≠ 0))
      = c_str ((d ++ [100, 0]).take digits) := by
  have hd1 : ∀ c ∈ d ++ [100], c ≠ 0 := by
    intro c hc
    rcases List.mem_append.mp hc with h | h
    · exact hd c h
    · simp at h; omega
  have hw : d ++ [100, 0] = (d ++ [100]) ++ [0] := by simp
  rw [hw]
  by_cases hle : digits ≤ (d ++ [100]).length
  · rw [List.take_append_of_le_length hle]
    have hnz : ∀ c ∈ (d ++ [100]).take digits, c ≠ 0 :=
      fun c hc => hd1 c (List.mem_of_mem_take hc)
    rw [c_str_no_nul _ hnz]
    apply List.filter_eq_self.mpr
    intro c hc
    simpa using hnz c hc
  · have hlen : ((d ++ [100]) ++ [0]).length ≤ digits := by
      simp only [List.length_append, List.length_singleton] at hle ⊢
      omega
    rw [List.take_of_length_le hlen, c_str_append_nul _ [] hd1, List.filter_append]
    have : (d ++ [100]).filter (fun c => decide (c ≠ 0)) = d ++ [100] := by
      apply List.filter_eq_self.mpr
      intro c hc
      simpa using hd1 c hc
    rw [this]
    simp

theorem add_file_characteristics_json_holds (digits : Nat) (s : State) (hs : log_ok s)
    (hd : digits ≤ (decimal s.given_file.size).length + 2)
    {json : CString} {t : List Nat} (h : json.holds t) :
    ∃ json1, add_file_characteristics_json digits s json = some json1 ∧
      json1.holds (t ++ render_header digits s) := by
  have e1 : c_str (ascii "\x7b\"file kind\": \"") = ascii "\x7b\"file kind\": \"" := by decide
  have e2 : c_str (ascii "\", \"path\": \"") = ascii "\", \"path\": \"" := by decide
  have e3 : c_str (ascii "\", \"size\": \"") = ascii "\", \"size\": \"" := by decide
  have e4 : c_str (ascii "\", \"content\": [") = ascii "\", \"content\": [" := by decide
  have a1 := insert_chars_holds h (ascii "\x7b\"file kind\": \"")
  have a2 := insert_string_text a1 hs.2.2.2.1
  have a3 := insert_chars_holds a2 (ascii "\", \"path\": \"")
  have a4 := insert_string_text a3 hs.2.2.2.2.1
  have a5 := insert_chars_holds a4 (ascii "\", \"size\": \"")
  have a6 := foldl_insert_filter ((decimal s.given_file.size ++ [100, 0]).take digits) a5
  rw [filter_take_written _ (decimal_ne_zero _) digits] at a6
  have a7 := insert_chars_holds a6 (ascii "\", \"content\": [")
  have hlen : digits ≤ (decimal s.given_file.size ++ [100, 0]).length := by
    simpa using hd
  unfold add_file_characteristics_json
  simp only [initialize_String, show (0 : Nat) < 100 by decide, if_true, hlen]
  refine ⟨_, rfl, ?_⟩
  rw [e1, e2, e3, e4] at a7
  simp only [insert_string, render_header, List.append_assoc] at a7 ⊢
  exact a7

theorem extract_chars_holds {json : CString} {t : List Nat} (h : json.holds t)
    (c : Nat) (t1 : List Nat) (ht : t = c :: t1) (out : List Nat) :
    c_str (extract_chars json out) = t := by
  obtain ⟨hstr, hused, hnz⟩ := h
  have hc : c ≠ 0 := hnz c (by rw [ht]; exact List.mem_cons_self c t1)
  have hhead : json.string.headD 0 = c := by rw [hstr, ht]; rfl
  have hsrc : c_str json.string = t := by rw [hstr]; exact c_str_append_nul t [] hnz
  unfold extract_chars
  rw [hhead, if_neg hc]
  simp only [hsrc, hused, Nat.add_sub_cancel_left, List.replicate_one]
  have hl : (t ++ [0]).length = t.length + 1 := by simp
  rw [← hl, List.take_length, List.append_assoc]
  exact c_str_append_nul t _ hnz

theorem render_object_congr {s s1 : State} (h : s1.given_file = s.given_file) :
    ∀ (d i : Nat), render_object d s1 i = render_object d s i := by
  intro d
  induction d with
  | zero => intro i; rfl
  | succ d ih =>
    intro i
    have hm : (children_of s1 i).map (render_object d s1)
        = (children_of s i).map (render_object d s) := by
      have : children_of s1 i = children_of s i := by simp only [children_of, h]
      rw [this]
      exact List.map_congr_left (fun x _ => ih x)
    simp only [render_object, hm, render_properties, property_list, h]

theorem render_document_congr {s s1 : State} (h : s1.given_file = s.given_file) (digits : Nat) :
    render_document digits s1 = render_document digits s := by
  have hr : roots_of s1 = roots_of s := by simp only [roots_of, h]
  have ho : ∀ r, render_object s1.given_file.number_of_objects s1 r
      = render_object s.given_file.number_of_objects s r := by
    intro r
    rw [render_object_congr h, h]
  unfold render_document render_header
  rw [hr]
  simp only [ho]
  rw [h]

/-- The String `json` after `convert_to_json` on a well-formed log holds the
document, and the ghost list is the emission order of the roots. -/
theorem convert_to_json_trace_holds (s : State) (hs : log_ok s) (fuel digits : Nat)
    (hfuel : s.given_file.number_of_objects ≤ fuel)
    (hd : digits ≤ (decimal s.given_file.size).length + 2) :
    ∃ json, convert_to_json_trace fuel digits s =
        some (json, ((roots_of s).map (emission_order s.given_file.number_of_objects s)).flatten) ∧
      json.holds (render_document digits s) := by
  obtain ⟨j1, h1, hj1⟩ := add_file_characteristics_json_holds digits s hs hd (fresh_holds 1000)
  obtain ⟨j2, h2, hj2⟩ := add_roots_holds s hs fuel hfuel
    (List.range s.given_file.number_of_objects) (fun i hi => List.mem_range.mp hi) j1 [] _ hj1
  have a3 := insert_chars_holds hj2 (ascii "]\x7d")
  have e7 : c_str (ascii "]\x7d") = ascii "]\x7d" := by decide
  have hroots : ∀ r, r ∈ roots_of s → r < s.given_file.number_of_objects := by
    intro r hr
    unfold roots_of at hr
    rw [List.mem_filter, List.mem_range] at hr
    exact hr.1
  have hem : (roots_of s).map (emission_order fuel s)
      = (roots_of s).map (emission_order s.given_file.number_of_objects s) := by
    apply List.map_congr_left
    intro r hr
    have := hroots r hr
    exact emission_order_depth s hs fuel s.given_file.number_of_objects r this (by omega)
      (by omega)
  have hre : (roots_of s).map (fun r => (if r = 0 then [] else ascii ", ") ++
        render_object fuel s r)
      = (roots_of s).map (fun r => (if r = 0 then [] else ascii ", ") ++
        render_object s.given_file.number_of_objects s r) := by
    apply List.map_congr_left
    intro r hr
    have := hroots r hr
    rw [render_object_depth s hs fuel s.given_file.number_of_objects r this (by omega)
      (by omega)]
  refine ⟨insert_chars j2 (ascii "]\x7d"), ?_, ?_⟩
  · unfold convert_to_json_trace
    simp only [initialize_String, show (0 : Nat) < 1000 by decide, if_true, h1, h2]
    simp only [List.nil_append]
    rw [← hem]
    rfl
  · rw [e7] at a3
    simp only [List.nil_append, List.append_assoc] at a3
    unfold render_document
    rw [← hre]
    simp only [roots_of, List.append_assoc]
    exact a3

theorem add_property_json_congr {s s1 : State} (h : s1.given_file = s.given_file)
    (json : CString) (obj_id prop_id : Nat) :
    add_property_json s1 json obj_id prop_id = add_property_json s json obj_id prop_id := by
  simp only [add_property_json, h]

theorem add_children_congr {s s1 : State} (h : s1.given_file = s.given_file)
    (r1 r : Nat → Int → CString × List Nat → Option (CString × List Nat))
    (hr : ∀ x f acc, r1 x f acc = r x f acc) (obj_id : Nat) :
    ∀ (l : List Nat) (f : Int) (acc : CString × List Nat),
      add_children r1 s1 obj_id l f acc = add_children r s obj_id l f acc := by
  intro l
  induction l with
  | nil => intro f acc; rfl
  | cons x xs ih =>
    intro f acc
    simp only [add_children, h, hr]
    split
    · cases r x f acc with
      | none => rfl
      | some acc1 => exact ih 0 acc1
    · exact ih f acc

theorem add_obj_json_congr {s s1 : State} (h : s1.given_file = s.given_file) :
    ∀ (fuel obj_id : Nat) (f : Int) (acc : CString × List Nat),
      add_obj_json fuel s1 obj_id f acc = add_obj_json fuel s obj_id f acc := by
  intro fuel
  induction fuel with
  | zero => intro obj_id f acc; rfl
  | succ fuel ih =>
    intro obj_id f acc
    obtain ⟨json, emitted⟩ := acc
    have hp : (fun j i => add_property_json s1 j obj_id i)
        = fun j i => add_property_json s j obj_id i := by
      funext j i
      exact add_property_json_congr h j obj_id i
    simp only [add_obj_json, h, hp]
    rw [add_children_congr h (add_obj_json fuel s1) (add_obj_json fuel s) ih obj_id]

theorem add_roots_congr {s s1 : State} (h : s1.given_file = s.given_file) (fuel : Nat) :
    ∀ (l : List Nat) (acc : CString × List Nat),
      add_roots fuel s1 l acc = add_roots fuel s l acc := by
  intro l
  induction l with
  | nil => intro acc; rfl
  | cons i rest ih =>
    intro acc
    simp only [add_roots, h, add_obj_json_congr h]
    split
    · cases add_obj_json fuel s i (if i = 0 then 1 else 0) acc with
      | none => rfl
      | some acc1 => exact ih acc1
    · exact ih acc

/-- The document built by `convert_to_json` depends on the log alone. -/
theorem convert_to_json_trace_congr {s s1 : State} (h : s1.given_file = s.given_file)
    (fuel digits : Nat) :
    convert_to_json_trace fuel digits s1 = convert_to_json_trace fuel digits s := by
  have hf : ∀ j, add_file_characteristics_json digits s1 j
      = add_file_characteristics_json digits s j := by
    intro j
    simp only [add_file_characteristics_json, h]
  simp only [convert_to_json_trace, hf, add_roots_congr h, h]


/-- C4. For every finished log (built from a reset log through the
interface), with fuel for its objects and `digits` within what `sprintf`
wrote, `convert_to_json` builds in its String `json` the document of the
specification: after the head, the level-0 objects in ascending id order, each
rendered with its type name, wikidata identifier, properties in insertion
order and the nested content list of exactly the objects whose `parent_id` is
its id, in ascending id order and rendered the same way. Building the document
again, from the state that holds the first one or from any other state with
the same log, yields the same String and the same ids. -/
theorem convert_to_json_renders_log (s0 : State) (ops : List Op) (s : State)
    (fuel digits : Nat)
    (hlog : run (reset_json s0) ops = some s)
    (hfuel : s.given_file.number_of_objects ≤ fuel)
    (hd : digits ≤ (decimal s.given_file.size).length + 2) :
    ∃ json emitted, convert_to_json_trace fuel digits s = some (json, emitted) ∧
      json.holds (render_document digits s) ∧
      json.text = render_document digits s ∧
      convert_to_json_trace fuel digits { s with json := json } = some (json, emitted) ∧
      ∀ u : State, u.given_file = s.given_file →
        convert_to_json_trace fuel digits u = some (json, emitted) := by
  have hs : log_ok s := log_ok_run ops (log_ok_reset s0) hlog
  obtain ⟨json, h1, hj⟩ := convert_to_json_trace_holds s hs fuel digits hfuel hd
  have hsame : ∀ u : State, u.given_file = s.given_file →
      convert_to_json_trace fuel digits u = some (json, ((roots_of s).map
        (emission_order s.given_file.number_of_objects s)).flatten) := by
    intro u hu
    rw [convert_to_json_trace_congr hu]
    exact h1
  exact ⟨json, _, h1, hj, CString.holds_c_str hj, hsame { s with json := json } rfl, hsame⟩

/-- C4 at a log with nested objects: the document shows object 0 with the
children 1 (holding 2) and 3, then object 4, and a second construction gives
the same String. -/
theorem convert_to_json_renders_log_witness :
    ∃ json emitted, convert_to_json_trace 5 9 json_example_log = some (json, emitted) ∧
      json.text = ascii ("\x7b\"file kind\": \"Regular file\", \"path\": \"/p\", " ++
        "\"size\": \"987654321\", \"content\": [" ++
        "\x7b\"type\": \"A\", \"wikidata\": \"Q1\", \"properties\": " ++
        "\x7b\"k\": \"v\", \"k2\": \"v2\"\x7d, \"content\": [" ++
        "\x7b\"type\": \"B\", \"wikidata\": \"Q2\", \"properties\": \x7b\x7d, \"content\": [" ++
        "\x7b\"type\": \"C\", \"wikidata\": \"Q3\", \"properties\": \x7b\x7d, \"content\": []\x7d]\x7d, " ++
        "\x7b\"type\": \"D\", \"wikidata\": \"Q4\", \"properties\": \x7b\x7d, \"content\": []\x7d]\x7d, " ++
        "\x7b\"type\": \"E\", \"wikidata\": \"Q5\", \"properties\": \x7b\"z\": \"1\"\x7d, " ++
        "\"content\": []\x7d]\x7d") ∧
      convert_to_json_trace 5 9 { json_example_log with json := json } =
        some (json, emitted) := by
  obtain ⟨json, emitted, h1, _, h3, h4, _⟩ :=
    convert_to_json_renders_log State.initial json_example_ops json_example_log 5 9
      (by rfl) (by decide) (by decide)
  exact ⟨json, emitted, h1, h3.trans (by decide), h4⟩

/-! ## Parent links of a built log -/

theorem identify_parent_id_shape (s : State) (level : Int) :
    (level = 0 → identify_parent_id s level = -1) ∧
    (level ≠ 0 →
      (identify_parent_id s level = -1 ∧
        ∀ j, j < s.id → ¬ (s.given_file.content j).level < level) ∨
      ∃ p : Nat, identify_parent_id s level = (p : Int) ∧ p < s.id ∧
        (s.given_file.content p).level < level ∧
        ∀ j, p < j → j < s.id → ¬ (s.given_file.content j).level < level) := by
  constructor
  · intro h; simp [identify_parent_id, h]
  · intro hne
    by_cases hid : s.id = 0
    · left
      refine ⟨by simp [identify_parent_id, hid], ?_⟩
      intro j hj; omega
    · have hc : ¬ (s.id = 0 ∨ level = 0) := by
        intro h; rcases h with h | h
        · exact hid h
        · exact hne h
      rcases identify_parent_loop_cases s.given_file.content level s.id with
        ⟨h0, hall⟩ | ⟨p, hp, hres, hplev, hmax⟩
      · left
        exact ⟨by simp [identify_parent_id, hc, h0], hall⟩
      · right
        exact ⟨p, by simp [identify_parent_id, hc, hres], hp, hplev, hmax⟩

theorem parents_ok_reset (s0 : State) : parents_ok (reset_json s0) := by
  intro x hx; exact absurd hx (Nat.not_lt_zero x)

theorem parents_ok_add_content_object {s s1 : State} {level : Int}
    {object_type wikidata : List Nat}
    (hs : parents_ok s) (h : add_content_object s level object_type wikidata = some s1) :
    parents_ok s1 := by
  obtain ⟨hlt, hid1, _, _, _, _, _, _, _, _, hc1⟩ := add_content_object_some h
  intro x hx
  by_cases hxs : x = s.id
  · subst hxs
    have hlev : (s1.given_file.content s.id).level = level := by
      rw [hc1, Function.update_same]
    have hpar : (s1.given_file.content s.id).parent_id = identify_parent_id s level := by
      rw [hc1, Function.update_same]
    have hold : ∀ j, j < s.id → s1.given_file.content j = s.given_file.content j := by
      intro j hj
      rw [hc1, Function.update_noteq (Nat.ne_of_lt hj)]
    rw [hlev, hpar]
    obtain ⟨h0, hshape⟩ := identify_parent_id_shape s level
    refine ⟨h0, ?_⟩
    intro hne
    rcases hshape hne with ⟨b1, b2⟩ | ⟨p, b1, b2, b3, b4⟩
    · left
      refine ⟨b1, ?_⟩
      intro j hj
      rw [hold j hj]
      exact b2 j hj
    · right
      refine ⟨p, b1, b2, by rw [hold p b2]; exact b3, ?_⟩
      intro j hj1 hj2
      rw [hold j hj2]
      exact b4 j hj1 hj2
  · have hxlt : x < s.id := by omega
    have hold : ∀ j, j < s.id → s1.given_file.content j = s.given_file.content j := by
      intro j hj
      rw [hc1, Function.update_noteq (Nat.ne_of_lt hj)]
    obtain ⟨a, b⟩ := hs x hxlt
    rw [hold x hxlt]
    refine ⟨a, ?_⟩
    intro hne
    rcases b hne with ⟨b1, b2⟩ | ⟨p, b1, b2, b3, b4⟩
    · left
      refine ⟨b1, ?_⟩
      intro j hj
      rw [hold j (by omega)]
      exact b2 j hj
    · right
      refine ⟨p, b1, b2, by rw [hold p (by omega)]; exact b3, ?_⟩
      intro j hj1 hj2
      rw [hold j (by omega)]
      exact b4 j hj1 hj2

theorem parents_ok_add_property {s s1 : State} {key value : List Nat}
    (hs : parents_ok s) (h : add_property s key value = some s1) : parents_ok s1 := by
  obtain ⟨hpos, _, hcase⟩ := add_property_some h
  rcases hcase with ⟨_, rfl⟩ | ⟨_, hid1, _, _, _, _, _, _, _, _, hc1⟩
  · exact hs
  · have hlev : ∀ j, (s1.given_file.content j).level = (s.given_file.content j).level := by
      intro j
      rw [hc1]
      by_cases hj : j = s.id - 1
      · subst hj; rw [Function.update_same]
      · rw [Function.update_noteq hj]
    have hpar : ∀ j, (s1.given_file.content j).parent_id = (s.given_file.content j).parent_id := by
      intro j
      rw [hc1]
      by_cases hj : j = s.id - 1
      · subst hj; rw [Function.update_same]
      · rw [Function.update_noteq hj]
    intro x hx
    have := hs x (by omega)
    simp only [hlev, hpar]
    exact this

theorem parents_ok_apply {s s1 : State} (op : Op) (hs : parents_ok s)
    (h : op.apply s = some s1) : parents_ok s1 := by
  cases op with
  | object level object_type wikidata => exact parents_ok_add_content_object hs h
  | prop key value => exact parents_ok_add_property hs h
  | file_path path =>
    simp only [Op.apply, add_file_path, initialize_String, Nat.zero_lt_succ, if_true] at h
    cases h
    exact hs
  | file_characteristics file_kind size =>
    simp only [Op.apply, add_file_characteristics, initialize_String,
      show (0 : Nat) < 3 by decide, if_true] at h
    cases h
    exact hs

theorem parents_ok_run (ops : List Op) : ∀ {s s1 : State}, parents_ok s →
    run s ops = some s1 → parents_ok s1 := by
  induction ops with
  | nil => intro s s1 hs h; cases h; exact hs
  | cons op ops ih =>
    intro s s1 hs h
    simp only [run] at h
    cases hop : op.apply s with
    | none => rw [hop] at h; cases h
    | some s2 =>
      rw [hop] at h
      exact ih (parents_ok_apply op hs hop) h

/-! ## The emission order of a built log -/

theorem scan_end_spec (lev : Nat → Int) (L : Int) : ∀ (c a : Nat),
    a ≤ scan_end lev L a c ∧ scan_end lev L a c ≤ a + c ∧
    (∀ j, a ≤ j → j < scan_end lev L a c → L < lev j) ∧
    (scan_end lev L a c < a + c → lev (scan_end lev L a c) ≤ L) := by
  intro c
  induction c with
  | zero =>
    intro a
    simp only [scan_end]
    exact ⟨Nat.le_refl a, Nat.le_refl a, fun j h1 h2 => by omega, fun h => by omega⟩
  | succ c ih =>
    intro a
    by_cases h : lev a ≤ L
    · simp only [scan_end, if_pos h]
      exact ⟨Nat.le_refl a, by omega, fun j h1 h2 => by omega, fun _ => h⟩
    · simp only [scan_end, if_neg h]
      obtain ⟨h1, h2, h3, h4⟩ := ih (a + 1)
      refine ⟨by omega, by omega, ?_, ?_⟩
      · intro j hj1 hj2
        by_cases hja : j = a
        · subst hja; omega
        · exact h3 j (by omega) hj2
      · intro hlt
        exact h4 (by omega)

theorem subtree_end_spec (s : State) (i : Nat) (hi : i < s.given_file.number_of_objects) :
    i < subtree_end s i ∧ subtree_end s i ≤ s.given_file.number_of_objects ∧
    (∀ j, i < j → j < subtree_end s i →
      (s.given_file.content i).level < (s.given_file.content j).level) ∧
    (subtree_end s i < s.given_file.number_of_objects →
      (s.given_file.content (subtree_end s i)).level ≤ (s.given_file.content i).level) := by
  obtain ⟨h1, h2, h3, h4⟩ := scan_end_spec (fun j => (s.given_file.content j).level)
    (s.given_file.content i).level (s.given_file.number_of_objects - (i + 1)) (i + 1)
  unfold subtree_end
  refine ⟨by omega, by omega, ?_, ?_⟩
  · intro j hj1 hj2
    exact h3 j (by omega) hj2
  · intro hlt
    exact h4 (by omega)

/-- In a built log, `x` is a child of the earlier object `i` exactly when `i`
has a lower level and every object between them has at least the level of
`x`. -/
theorem child_iff (s : State) (hp : parents_ok s) {i x : Nat} (hx : x < s.id) :
    (s.given_file.content x).parent_id = (i : Int) ↔
      i < x ∧ (s.given_file.content i).level < (s.given_file.content x).level ∧
      (s.given_file.content x).level ≠ 0 ∧
      ∀ j, i < j → j < x →
        (s.given_file.content x).level ≤ (s.given_file.content j).level := by
  obtain ⟨h0, hne⟩ := hp x hx
  constructor
  · intro hpar
    by_cases hl : (s.given_file.content x).level = 0
    · have := h0 hl
      rw [hpar] at this
      omega
    · rcases hne hl with ⟨b1, _⟩ | ⟨p, b1, b2, b3, b4⟩
      · rw [hpar] at b1; omega
      · have hpi : p = i := by rw [hpar] at b1; omega
        subst hpi
        refine ⟨b2, b3, hl, ?_⟩
        intro j hj1 hj2
        have := b4 j hj1 hj2
        omega
  · rintro ⟨hix, hlev, hl, hbetween⟩
    rcases hne hl with ⟨_, b2⟩ | ⟨p, b1, b2, b3, b4⟩
    · exact absurd hlev (b2 i hix)
    · have hpi : p = i := by
        by_contra hcon
        rcases Nat.lt_or_gt_of_ne hcon with h | h
        · exact b4 i h hix hlev
        · have := hbetween p h b2
          omega
      rw [b1, hpi]

/-- Consecutive blocks: when every selected index `x` emits the block from `x`
to `next x`, no index inside a block is selected and every block ends at `M`
or at a selected index, the selected indices from `a` on emit the range from
`a` to `M`. -/
theorem span_flatten (P : Nat → Bool) (em : Nat → List Nat) (next : Nat → Nat) (M N : Nat)
    (hMN : M ≤ N)
    (hem : ∀ x, P x = true → x < M →
      em x = List.range' x (next x - x) ∧ x < next x ∧ next x ≤ M ∧
      (∀ y, x < y → y < next x → P y = false) ∧ (next x = M ∨ P (next x) = true))
    (hafter : ∀ y, M ≤ y → y < N → P y = false) :
    ∀ (k a : Nat), N - a ≤ k → a ≤ M → (a = M ∨ P a = true) →
      (((List.range' a (N - a)).filter P).map em).flatten = List.range' a (M - a) := by
  intro k
  induction k with
  | zero =>
    intro a hk ha _
    have hN : N - a = 0 := by omega
    have hM : M - a = 0 := by omega
    simp [hN, hM]
  | succ k ih =>
    intro a hk ha hb
    by_cases haM : a = M
    · subst haM
      have hnil : (List.range' a (N - a)).filter P = [] := by
        rw [List.filter_eq_nil_iff]
        intro y hy
        rw [List.mem_range'_1] at hy
        have := hafter y hy.1 (by omega)
        simp [this]
      simp [hnil]
    · have hPa : P a = true := by
        rcases hb with h | h
        · exact absurd h haM
        · exact h
      have haltM : a < M := by omega
      obtain ⟨e1, e2, e3, e4, e5⟩ := hem a hPa haltM
      have hsplit : List.range' a (N - a)
          = a :: (List.range' (a + 1) (next a - (a + 1)) ++
              List.range' (next a) (N - next a)) := by
        have h1 : N - a = (N - a - 1) + 1 := by omega
        rw [h1, List.range'_succ]
        congr 1
        have h2 : next a = (a + 1) + (next a - (a + 1)) := by omega
        have h3 : List.range' (next a) (N - next a)
            = List.range' ((a + 1) + (next a - (a + 1))) (N - next a) := by rw [← h2]
        rw [h3, List.range'_append_1]
        congr 1
        omega
      have hmid : (List.range' (a + 1) (next a - (a + 1))).filter P = [] := by
        rw [List.filter_eq_nil_iff]
        intro y hy
        rw [List.mem_range'_1] at hy
        have := e4 y (by omega) (by omega)
        simp [this]
      have hrest := ih (next a) (by omega) e3 e5
      rw [hsplit, List.filter_cons, hPa]
      simp only [if_true, List.filter_append, hmid, List.nil_append, List.map_cons,
        List.flatten_cons, hrest, e1]
      have h4 : next a = a + (next a - a) := by omega
      have h5 : List.range' (next a) (M - next a)
          = List.range' (a + (next a - a)) (M - next a) := by rw [← h4]
      rw [h5, List.range'_append_1]
      congr 1
      omega

theorem children_of_eq_range' (s : State) (hs : log_ok s) (i : Nat)
    (hi : i < s.given_file.number_of_objects) :
    children_of s i = (List.range' (i + 1) (s.given_file.number_of_objects - (i + 1))).filter
      fun x => decide ((s.given_file.content x).parent_id = (i : Int)) := by
  unfold children_of
  have hsplit : List.range s.given_file.number_of_objects
      = List.range' 0 (i + 1) ++
        List.range' (i + 1) (s.given_file.number_of_objects - (i + 1)) := by
    rw [List.range_eq_range']
    have h1 : List.range' (i + 1) (s.given_file.number_of_objects - (i + 1))
        = List.range' (0 + (i + 1)) (s.given_file.number_of_objects - (i + 1)) := by
      rw [Nat.zero_add]
    rw [h1, List.range'_append_1]
    congr 1
    omega
  have hnil : (List.range' 0 (i + 1)).filter
      (fun x => decide ((s.given_file.content x).parent_id = (i : Int))) = [] := by
    rw [List.filter_eq_nil_iff]
    intro y hy
    rw [List.mem_range'_1] at hy
    have hlt := (hs.2.2.2.2.2 y (by rw [hs.1]; omega)).1
    simp only [decide_eq_true_eq]
    intro hc
    rw [hc] at hlt
    omega
  rw [hsplit, List.filter_append, hnil, List.nil_append]

/-- In a built log with non-negative levels the objects emitted for `i` are
`i, i + 1, ...` up to the end of its subtree. -/
theorem emission_order_range (s : State) (hs : log_ok s) (hp : parents_ok s)
    (hnn : ∀ j, j < s.given_file.number_of_objects → 0 ≤ (s.given_file.content j).level) :
    ∀ (d i : Nat), i < s.given_file.number_of_objects →
      s.given_file.number_of_objects - i ≤ d →
      emission_order d s i = List.range' i (subtree_end s i - i) := by
  intro d
  induction d with
  | zero => intro i hi hd; omega
  | succ d ih =>
    intro i hi hd
    have hid : s.id = s.given_file.number_of_objects := hs.1
    obtain ⟨ei1, ei2, ei3, ei4⟩ := subtree_end_spec s i hi
    have hspan := span_flatten
      (fun x => decide ((s.given_file.content x).parent_id = (i : Int)))
      (emission_order d s) (subtree_end s) (subtree_end s i) s.given_file.number_of_objects ei2
      (by
        intro x hPx hxM
        have hPx1 : (s.given_file.content x).parent_id = (i : Int) := by simpa using hPx
        have hxN : x < s.given_file.number_of_objects := by omega
        obtain ⟨c1, c2, c3, c4⟩ := (child_iff s hp (by omega)).mp hPx1
        obtain ⟨ex1, ex2, ex3, ex4⟩ := subtree_end_spec s x hxN
        have hlevs : ∀ j, i < j → j < subtree_end s x →
            (s.given_file.content i).level < (s.given_file.content j).level := by
          intro j hj1 hj2
          rcases Nat.lt_trichotomy j x with h | h | h
          · have := c4 j hj1 h; omega
          · subst h; exact c2
          · have := ex3 j h hj2; omega
        have hle : subtree_end s x ≤ subtree_end s i := by
          by_contra hcon
          have h1 : subtree_end s i < subtree_end s x := by omega
          have h2 := ei4 (by omega)
          have h3 := hlevs (subtree_end s i) ei1 h1
          omega
        refine ⟨ih x hxN (by omega), ex1, hle, ?_, ?_⟩
        · intro y hy1 hy2
          simp only [decide_eq_false_iff_not]
          intro hc
          obtain ⟨_, _, _, d4⟩ := (child_iff s hp (by omega)).mp hc
          have := d4 x c1 hy1
          have := ex3 y hy1 hy2
          omega
        · by_cases heq : subtree_end s x = subtree_end s i
          · exact Or.inl heq
          · right
            have hlt : subtree_end s x < subtree_end s i := by omega
            have hltN : subtree_end s x < s.given_file.number_of_objects := by omega
            have h1 := ex4 hltN
            have h2 := ei3 (subtree_end s x) (by omega) hlt
            have h3 := hnn i hi
            simp only [decide_eq_true_eq]
            apply (child_iff s hp (by omega)).mpr
            refine ⟨by omega, h2, by omega, ?_⟩
            intro j hj1 hj2
            rcases Nat.lt_trichotomy j x with h | h | h
            · have := c4 j hj1 h; omega
            · subst h; exact h1
            · have := ex3 j h hj2; omega)
      (by
        intro y hy1 hy2
        simp only [decide_eq_false_iff_not]
        intro hc
        obtain ⟨d1, d2, _, d4⟩ := (child_iff s hp (by omega)).mp hc
        have h2 := ei4 (by omega)
        rcases Nat.lt_or_eq_of_le hy1 with h | h
        · have := d4 (subtree_end s i) ei1 h
          omega
        · rw [← h] at d2; omega)
      (s.given_file.number_of_objects - (i + 1)) (i + 1) (by omega) (by omega)
      (by
        by_cases heq : i + 1 = subtree_end s i
        · exact Or.inl heq
        · right
          have h2 := ei3 (i + 1) (by omega) (by omega)
          have h3 := hnn i hi
          simp only [decide_eq_true_eq]
          apply (child_iff s hp (by omega)).mpr
          refine ⟨by omega, h2, by omega, ?_⟩
          intro j hj1 hj2
          omega)
    simp only [emission_order]
    rw [children_of_eq_range' s hs i hi, hspan]
    have h1 : subtree_end s i - i = (subtree_end s i - (i + 1)) + 1 := by omega
    rw [h1, List.range'_succ]

/-- The roots of a built log with non-negative levels whose first object has
level 0 emit all objects in id order. -/
theorem roots_emission_range (s : State) (hs : log_ok s) (hp : parents_ok s)
    (hnn : ∀ j, j < s.given_file.number_of_objects → 0 ≤ (s.given_file.content j).level)
    (hfirst : 0 < s.given_file.number_of_objects → (s.given_file.content 0).level = 0) :
    ((roots_of s).map (emission_order s.given_file.number_of_objects s)).flatten
      = List.range s.given_file.number_of_objects := by
  have hspan := span_flatten
    (fun x => decide ((s.given_file.content x).level = 0))
    (emission_order s.given_file.number_of_objects s) (subtree_end s)
    s.given_file.number_of_objects s.given_file.number_of_objects (Nat.le_refl _)
    (by
      intro x hPx hxN
      have hPx1 : (s.given_file.content x).level = 0 := by simpa using hPx
      obtain ⟨ex1, ex2, ex3, ex4⟩ := subtree_end_spec s x hxN
      refine ⟨emission_order_range s hs hp hnn _ x hxN (by omega), ex1, ex2, ?_, ?_⟩
      · intro y hy1 hy2
        have := ex3 y hy1 hy2
        simp only [decide_eq_false_iff_not]
        omega
      · by_cases heq : subtree_end s x = s.given_file.number_of_objects
        · exact Or.inl heq
        · right
          have hlt : subtree_end s x < s.given_file.number_of_objects := by omega
          have h1 := ex4 hlt
          have h2 := hnn _ hlt
          simp only [decide_eq_true_eq]
          omega)
    (by intro y hy1 hy2; omega)
    s.given_file.number_of_objects 0 (by omega) (Nat.zero_le _)
    (by
      by_cases h0 : 0 = s.given_file.number_of_objects
      · exact Or.inl h0
      · right
        simp only [decide_eq_true_eq]
        exact hfirst (by omega))
  simp only [Nat.sub_zero] at hspan
  rw [List.range_eq_range']
  unfold roots_of
  rw [List.range_eq_range']
  exact hspan

/-- C5 (amended). For every log built from a reset log through the interface
whose levels are non-negative and whose first object has level 0 (so that
every object without a parent has level 0), the ids in the order in which
`convert_to_json` emits the objects are `0, 1, ..., N - 1`: the id order of
the log is the pre-order of the tree the serializer produces. -/
theorem emission_order_is_id_order (s0 : State) (ops : List Op) (s : State)
    (fuel digits : Nat)
    (hlog : run (reset_json s0) ops = some s)
    (hfuel : s.given_file.number_of_objects ≤ fuel)
    (hd : digits ≤ (decimal s.given_file.size).length + 2)
    (hnn : ∀ j, j < s.given_file.number_of_objects → 0 ≤ (s.given_file.content j).level)
    (hfirst : 0 < s.given_file.number_of_objects → (s.given_file.content 0).level = 0) :
    ∃ json, convert_to_json_trace fuel digits s =
      some (json, List.range s.given_file.number_of_objects) := by
  have hs : log_ok s := log_ok_run ops (log_ok_reset s0) hlog
  have hp : parents_ok s := parents_ok_run ops (parents_ok_reset s0) hlog
  obtain ⟨json, h1, _⟩ := convert_to_json_trace_holds s hs fuel digits hfuel hd
  rw [roots_emission_range s hs hp hnn hfirst] at h1
  exact ⟨json, h1⟩

/-- C5 at the log of levels 0, 1, 2, 1, 0: the objects are emitted in the
order 0, 1, 2, 3, 4. -/
theorem emission_order_is_id_order_witness :
    ∃ json, convert_to_json_trace 5 9 json_example_log = some (json, [0, 1, 2, 3, 4]) :=
  emission_order_is_id_order State.initial json_example_ops json_example_log 5 9
    (by rfl) (by decide) (by decide)
    (by intro j hj
        have hj5 : j < 5 := hj
        interval_cases j <;> decide)
    (by intro _; decide)

/-- C5 as stated fails for a log whose first object has a level above 0: the
objects of levels 1, 0, 1 are emitted as 1, 2, and object 0, which has no
parent and is not of level 0, is not emitted at all. -/
theorem emission_order_counterexample :
    ((run (reset_json State.initial)
        [Op.object 1 (ascii "A") (ascii "Q1"), Op.object 0 (ascii "B") (ascii "Q2"),
         Op.object 1 (ascii "C") (ascii "Q3")]).bind
      fun s => (convert_to_json_trace 3 1 s).map Prod.snd) = some [1, 2] := by
  decide

/-! ## The partition walk -/

theorem lookup_first_writes_aux (k : List Nat) (l : List (List Nat × List Nat)) :
    ∀ seen : List (List Nat),
      (first_writes_aux seen l).lookup k = if k ∈ seen then none else l.lookup k := by
  induction l with
  | nil => intro seen; simp [first_writes_aux]
  | cons a l ih =>
    intro seen
    obtain ⟨ka, va⟩ := a
    by_cases hka : ka ∈ seen
    · rw [first_writes_aux_mem _ _ _ _ hka, ih]
      by_cases hk : k ∈ seen
      · simp [hk]
      · have hne : (k == ka) = false := by
          simpa using fun h : k = ka => hk (h ▸ hka)
        simp only [hk, if_false, List.lookup_cons, hne]
    · rw [first_writes_aux_not_mem _ _ _ _ hka]
      by_cases hkk : k = ka
      · subst hkk
        simp [List.lookup_cons, hka]
      · have hb : (k == ka) = false := by simpa using hkk
        simp only [List.lookup_cons, hb, ih, List.mem_append, List.mem_singleton, hkk, or_false]

theorem lookup_first_writes (k : List Nat) (l : List (List Nat × List Nat)) :
    (first_writes l).lookup k = l.lookup k := by
  unfold first_writes
  rw [lookup_first_writes_aux]
  simp

theorem digits_fuel_decimal_range : ∀ (fuel n : Nat), ∀ c ∈ digits_fuel 10 fuel n,
    48 ≤ c ∧ c ≤ 57 := by
  intro fuel
  induction fuel with
  | zero => intro n c hc; simp [digits_fuel] at hc
  | succ fuel ih =>
    intro n c hc
    unfold digits_fuel at hc
    split at hc
    · simp only [List.mem_singleton] at hc
      rw [hc]; unfold digit_char; split <;> omega
    · rcases List.mem_append.mp hc with h1 | h1
      · exact ih _ c h1
      · simp only [List.mem_singleton] at h1
        have : n % 10 < 10 := Nat.mod_lt _ (by decide)
        rw [h1]; unfold digit_char; split <;> omega

theorem flatMap_escape_plain (l : List Nat) (h : ∀ c ∈ l, 48 ≤ c ∧ c ≤ 57) :
    l.flatMap escape_byte = l := by
  induction l with
  | nil => rfl
  | cons a l ih =>
    have ha := h a (List.mem_cons_self a l)
    have e : escape_byte a = [a] := by
      unfold escape_byte
      rw [if_neg (by omega), if_neg (by omega)]
    rw [List.flatMap_cons, e, ih (fun c hc => h c (List.mem_cons_of_mem a hc))]
    rfl

/-- A decimal number passes `clean_char` unchanged. -/
theorem clean_char_decimal (latin1 : Int) (n : Nat) :
    c_str (clean_char latin1 (decimal n ++ [0])) = decimal n := by
  have hr : ∀ c ∈ decimal n, 48 ≤ c ∧ c ≤ 57 := digits_fuel_decimal_range (n + 1) n
  have hnz : ∀ c ∈ decimal n, c ≠ 0 := decimal_ne_zero n
  have hcs : c_str (decimal n ++ [0]) = decimal n := c_str_append_nul _ [] hnz
  have hb : ∀ b ∈ decimal n ++ [0], b < 256 := by
    intro b hb
    rcases List.mem_append.mp hb with h | h
    · have := hr b h; omega
    · simp at h; omega
  unfold clean_char
  by_cases hl : latin1 = 0
  · rw [if_pos hl, hcs]
  · rw [if_neg hl, clean_char_loop_eq _ hb, hcs, flatMap_escape_plain _ hr, List.nil_append]
    exact c_str_append_nul _ [] hnz

theorem partition_records_skip (latin1 : Int) (rest : List Event) :
    ∀ evs, no_partition_object evs →
      partition_records latin1 (evs ++ rest) = partition_records latin1 rest := by
  intro evs
  induction evs with
  | nil => intro _; rfl
  | cons e evs ih =>
    intro h
    have ht : no_partition_object evs := fun l t wd hm => h l t wd (List.mem_cons_of_mem e hm)
    cases e with
    | add_content_object l t wd =>
      have hne := h l t wd (List.mem_cons_self _ _)
      simp only [List.cons_append, partition_records, if_neg hne]; exact ih ht
    | add_property k v => simp only [List.cons_append, partition_records]; exact ih ht
    | print_line l f a => simp only [List.cons_append, partition_records]; exact ih ht
    | get_buffer p n => simp only [List.cons_append, partition_records]; exact ih ht
    | analyze_recursive l p s f => simp only [List.cons_append, partition_records]; exact ih ht
    | analyze_source_special l p s => simp only [List.cons_append, partition_records]; exact ih ht

theorem find_rdsk_reads (get_buffer : Nat → Nat → List Nat) :
    ∀ (n off : Nat), ∀ e ∈ (find_rdsk get_buffer off n).1, ∃ p l, e = Event.get_buffer p l := by
  intro n
  induction n with
  | zero => intro off e he; simp [find_rdsk] at he
  | succ n ih =>
    intro off e he
    unfold find_rdsk at he
    simp only at he
    split at he
    · simp only [List.mem_singleton] at he; exact ⟨_, _, he⟩
    · split at he
      · simp only [List.mem_singleton] at he; exact ⟨_, _, he⟩
      · rcases List.mem_cons.mp he with h | h
        · exact ⟨_, _, h⟩
        · exact ih _ e h

theorem get_be_long_lt (buf : List Nat) (off : Nat) (h : ∀ x ∈ buf, x < 256) :
    get_be_long buf off < 2 ^ 32 := by
  have hb : ∀ i, buf.getD i 0 < 256 := by
    intro i
    rw [List.getD_eq_getElem?_getD]
    cases hi : buf[i]? with
    | none => simp
    | some x => simpa using h x (List.mem_iff_getElem?.mpr ⟨i, hi⟩)
  have h0 := hb off
  have h1 := hb (off + 1)
  have h2 := hb (off + 2)
  have h3 := hb (off + 3)
  unfold get_be_long
  omega

/-- A power of two of at least 256 that fits the `unsigned long` passes the
block-size test of `detect_amiga_partmap`. -/
theorem blocksize_test_pow_two (w blocksize k : Nat) (h256 : 256 ≤ blocksize)
    (hk : blocksize = 2 ^ k) (hlt : blocksize < 2 ^ w) :
    ¬ (blocksize < 256 ∨ blocksize &&& ((blocksize + 2 ^ w - 1) % 2 ^ w) ≠ 0) := by
  have h1 : (blocksize + 2 ^ w - 1) % 2 ^ w = blocksize - 1 := by
    have : blocksize + 2 ^ w - 1 = (blocksize - 1) + 2 ^ w := by omega
    rw [this, Nat.add_mod_right, Nat.mod_eq_of_lt (by omega)]
  rw [h1, hk, Nat.and_pow_two_sub_one_eq_mod, Nat.mod_self]
  rw [hk] at h256
  simp only [ne_eq, not_true_eq_false, or_false, not_lt]
  exact h256

/-- Three fields that fit their places are packed without overlap. -/
theorem diskid_fields (a t n : Nat) (ht : t < 2 ^ 16) (hn : n < 2 ^ 8) :
    a <<< 24 ||| t <<< 8 ||| n = a * 2 ^ 24 + t * 2 ^ 8 + n := by
  rw [Nat.shiftLeft_eq, Nat.shiftLeft_eq, Nat.mul_comm a, Nat.mul_comm t]
  rw [← Nat.mul_add_lt_is_or (by omega) a]
  have e : 2 ^ 24 * a + 2 ^ 8 * t = 2 ^ 8 * (2 ^ 16 * a + t) := by ring
  rw [e, ← Nat.mul_add_lt_is_or hn]

/-- What `analyze_cdaccess` does on a table of contents it accepts: it returns
1, and its first calls print and record the identifier `cddb_diskid`. -/
theorem analyze_cdaccess_accepts (lib : Lib) (w : Nat) (toc : Toc) (level : Int)
    (first last : Nat) (hh : toc.header = some (first, last))
    (hlo : first ≤ last + 1) (hhi : last + 1 - first ≤ 99)
    (he : ∀ i, i ≤ last + 1 - first → (toc.entry i).isSome = true) :
    ∃ rest, analyze_cdaccess lib w toc level = some (1,
      Event.print_line level (ascii "CD-ROM, %d track%s, CDDB disk ID %08lX")
        [Arg.int ((last + 1 - first : Nat) : Int),
         Arg.str (if ((last + 1 - first : Nat) : Int) ≠ 1 then ascii "s" else []),
         Arg.ulong (cddb_diskid w (toc.lba w) (last + 1 - first))]
      :: add_cd_rom_json level ((last + 1 - first : Nat) : Int)
          (cddb_diskid w (toc.lba w) (last + 1 - first)) ++ rest) := by
  have hnt : ((last : Int) + 1 - (first : Int)) = ((last + 1 - first : Nat) : Int) := by omega
  obtain ⟨evs, hevs⟩ := track_loop_isSome lib w level (first : Int) toc.ctrl (toc.lba w)
    (last + 1 - first)
  refine ⟨evs, ?_⟩
  have hany : (List.range ((last + 1 - first : Nat) + 1)).any
      (fun i => (toc.entry i).isNone) = false := by
    rw [List.any_eq_false]
    intro i hi
    have := he i (Nat.lt_succ_iff.mp (List.mem_range.mp hi))
    obtain ⟨x, hx⟩ := Option.isSome_iff_exists.mp this
    simp [hx]
  unfold analyze_cdaccess
  simp only [hh, hnt, Int.toNat_ofNat, hany]
  rw [if_neg (by omega), if_neg (by omega)]
  simp only [Bool.false_eq_true, if_false, hevs]
  rfl

/-- C11 (amended). For every table of contents that `analyze_cdaccess` accepts
(`n <= 99` tracks, all entries readable) whose start frames are non-negative
with the lead-out not before the first track and whose total playing time
`t = secs(lba[n]) - secs(lba[0])` is below 65536 seconds, the identifier `d`
that the function prints and records has `n` in its lowest byte, `t` in the
bits 8..23 and `checksum mod 255` in the bits 24..31. -/
theorem analyze_cdaccess_diskid_fields (lib : Lib) (w : Nat) (toc : Toc) (level : Int)
    (first last : Nat) (frames : Nat → Nat)
    (hw : 32 ≤ w) (hh : toc.header = some (first, last))
    (hlo : first ≤ last + 1) (hhi : last + 1 - first ≤ 99)
    (he : ∀ i, i ≤ last + 1 - first → ∃ c, toc.entry i = some (c, (frames i : Int)))
    (hf : ∀ i, i ≤ last + 1 - first → frames i < 2 ^ 31)
    (hord : frames 0 ≤ frames (last + 1 - first))
    (htime : secs (frames (last + 1 - first)) - secs (frames 0) < 2 ^ 16) :
    ∃ d rest, analyze_cdaccess lib w toc level = some (1,
      Event.print_line level (ascii "CD-ROM, %d track%s, CDDB disk ID %08lX")
        [Arg.int ((last + 1 - first : Nat) : Int),
         Arg.str (if ((last + 1 - first : Nat) : Int) ≠ 1 then ascii "s" else []),
         Arg.ulong d]
      :: add_cd_rom_json level ((last + 1 - first : Nat) : Int) d ++ rest) ∧
      d % 2 ^ 8 = last + 1 - first ∧
      d / 2 ^ 8 % 2 ^ 16 = secs (frames (last + 1 - first)) - secs (frames 0) ∧
      d / 2 ^ 24 % 2 ^ 8 = cddb_checksum_reference frames (last + 1 - first) % 255 := by
  obtain ⟨rest, hrest⟩ := analyze_cdaccess_accepts lib w toc level first last hh hlo hhi
    (fun i hi => by obtain ⟨c, hc⟩ := he i hi; simp [hc])
  have hlba : ∀ i, i ≤ last + 1 - first → toc.lba w i = frames i := by
    intro i hi
    obtain ⟨c, hc⟩ := he i hi
    have h32 : 2 ^ 32 ≤ 2 ^ w := Nat.pow_le_pow_right (by decide) hw
    have := hf i hi
    simp only [Toc.lba, hc, to_unsigned_natCast]
    exact Nat.mod_eq_of_lt (by omega)
  have hc : cddb_checksum_reference frames (last + 1 - first) % 255 < 255 :=
    Nat.mod_lt _ (by decide)
  have hpack := diskid_fields (cddb_checksum_reference frames (last + 1 - first) % 255)
    (secs (frames (last + 1 - first)) - secs (frames 0)) (last + 1 - first)
    htime (by omega)
  have hid : cddb_diskid w (toc.lba w) (last + 1 - first) =
      cddb_checksum_reference frames (last + 1 - first) % 255 * 2 ^ 24 +
        (secs (frames (last + 1 - first)) - secs (frames 0)) * 2 ^ 8 + (last + 1 - first) := by
    rw [cddb_diskid_congr w (toc.lba w) frames _ hlba, cddb_diskid_eq w hw frames _ hf hord]
    unfold cddb_diskid_reference
    rw [hpack]
    have h32 : 2 ^ 32 ≤ 2 ^ w := Nat.pow_le_pow_right (by decide) hw
    exact Nat.mod_eq_of_lt (by omega)
  refine ⟨_, rest, hrest, ?_, ?_, ?_⟩
  · rw [hid]; omega
  · rw [hid]; omega
  · rw [hid]; omega

/-- C11 at one track from frame 0 to the lead-out at frame 7500: the lowest
byte of the identifier is 1 and the bits 8..23 hold 100. -/
theorem analyze_cdaccess_diskid_fields_witness :
    ∃ d rest, analyze_cdaccess Lib.blank 64 toc_one_track 0 = some (1,
      Event.print_line 0 (ascii "CD-ROM, %d track%s, CDDB disk ID %08lX")
        [Arg.int 1, Arg.str [], Arg.ulong d] :: add_cd_rom_json 0 1 d ++ rest) ∧
      d % 2 ^ 8 = 1 ∧ d / 2 ^ 8 % 2 ^ 16 = 100 := by
  obtain ⟨d, rest, h1, h2, h3, _⟩ := analyze_cdaccess_diskid_fields Lib.blank 64 toc_one_track
    0 1 1 (fun i => if i = 0 then 0 else 7500) (by decide) rfl (by decide) (by decide)
    (by intro i hi
        have hi1 : i ≤ 1 := hi
        interval_cases i
        · exact ⟨0, rfl⟩
        · exact ⟨0, rfl⟩)
    (by intro i hi
        have hi1 : i ≤ 1 := hi
        interval_cases i <;> decide)
    (by decide) (by decide)
  exact ⟨d, rest, h1, h2, h3.trans (by decide)⟩

/-- C11 as stated fails for one track from frame 0 to the lead-out at frame
4915200: the table of contents is accepted, the total time is 65536 seconds
and the checksum is 2, but the identifier is 0x03000001, whose bits 8..23 hold
0 and whose highest byte holds 3. -/
theorem analyze_cdaccess_diskid_fields_counterexample :
    (analyze_cdaccess Lib.blank 64 toc_long_track 0).map (fun r => (r.1, r.2.take 1)) =
      some (1, [Event.print_line 0 (ascii "CD-ROM, %d track%s, CDDB disk ID %08lX")
        [Arg.int 1, Arg.str [], Arg.ulong 0x03000001]]) ∧
    cddb_totaltime 64 (toc_long_track.lba 64) 1 = 65536 ∧
    Int.tmod (cddb_cksum 64 (toc_long_track.lba 64) 1) 255 = 2 ∧
    0x03000001 / 2 ^ 8 % 2 ^ 16 = 0 ∧ 0x03000001 / 2 ^ 24 % 2 ^ 8 = 3 := by
  refine ⟨by decide, by decide, by decide, by decide, by decide⟩

/-! ## The table of type codes -/

/-- C12 (amended). After `init_amiga`, the type code `DOS\0` (the bytes `D`,
`O`, `S` and one zero byte) is found at index 0, the file-system entry named
`Amiga Old File System`, whose properties are exactly intl = "false" and
multiuser = "false"; these are what the partition walk records for it. -/
theorem get_dostype_dos0 (level : Int) :
    get_dostype (ascii "DOS" ++ [0]) = 0 ∧
    get_name_for_dostype (ascii "DOS" ++ [0]) = ascii "Amiga Old File System" ∧
    (amiga_dostypes[0]?).map (fun e => (e.isfs, e.name, e.property_count, e.properties)) =
      some (1, some (ascii "Amiga Old File System"), 2,
        [(ascii "intl", ascii "false"), (ascii "multiuser", ascii "false")]) ∧
    dostype_object_events level (ascii "DOS" ++ [0]) =
      some [Event.add_content_object (level + 1) (ascii "Amiga Old File System")
          (ascii "Q4746198"),
        Event.add_property (ascii "intl") (ascii "false"),
        Event.add_property (ascii "multiuser") (ascii "false")] := by
  refine ⟨by decide, by decide, rfl, ?_⟩
  have h : get_dostype (ascii "DOS" ++ [0]) = Int.ofNat 0 := by decide
  unfold dostype_object_events
  rw [h]
  rfl

/-- C12 as stated fails: the type code of four zero bytes equals the code of no
entry of the table; `get_dostype` returns -1 for it and the name is
`Unknown`. -/
theorem get_dostype_zero_code_counterexample :
    get_dostype [0, 0, 0, 0] = -1 ∧
    get_name_for_dostype [0, 0, 0, 0] = ascii "Unknown" ∧
    amiga_dostypes.all (fun e => decide (e.typecode ≠ some [0, 0, 0, 0])) = true := by
  decide

theorem get_dostype_loop_unknown (code : List Nat) :
    ∀ (l : List dostype) (i : Nat),
      (∀ e ∈ l, ∀ tc, e.typecode = some tc → code.take 4 ≠ tc.take 4) →
      get_dostype_loop code l i = -1 ∧ get_name_loop code l = ascii "Unknown" := by
  intro l
  induction l with
  | nil => intro i _; exact ⟨rfl, rfl⟩
  | cons a l ih =>
    intro i h
    have ht := ih (i + 1) (fun e he => h e (List.mem_cons_of_mem a he))
    have ha := h a (List.mem_cons_self a l)
    unfold get_dostype_loop get_name_loop
    split
    · rename_i nm tc hn htc
      rw [if_neg (ha tc htc), if_neg (ha tc htc)]
      exact ht
    · exact ht
    · exact ⟨rfl, rfl⟩

/-- C13 at the code. For a type code that equals the code of no entry of the
table, `get_name_for_dostype` yields the default `Unknown`, but `get_dostype`
returns -1 and the partition walk then reads `amiga_dostypes[-1]`: the calls
that record the type object are not defined, and with them the round of the
partition loop. -/
theorem get_dostype_unknown (lib : Lib) (w : Nat) (level i : Int) (buf : List Nat)
    (h : ∀ e ∈ amiga_dostypes, ∀ tc, e.typecode = some tc →
      (buf.drop 192).take 4 ≠ tc.take 4) :
    get_name_for_dostype (buf.drop 192) = ascii "Unknown" ∧
    get_dostype (buf.drop 192) = -1 ∧
    dostype_object_events level (buf.drop 192) = none ∧
    partition_entry_events lib w level i buf = none := by
  obtain ⟨h1, h2⟩ := get_dostype_loop_unknown (buf.drop 192) amiga_dostypes 0 h
  have h3 : dostype_object_events level (buf.drop 192) = none := by
    unfold dostype_object_events get_dostype
    rw [h1]
    rfl
  refine ⟨h2, h1, h3, ?_⟩
  unfold partition_entry_events
  simp only [h3]

/-- C13 at a partition block whose type code is `XXXX`. -/
theorem get_dostype_unknown_witness :
    get_name_for_dostype (ascii "XXXX") = ascii "Unknown" ∧
    get_dostype (ascii "XXXX") = -1 ∧
    dostype_object_events 0 (ascii "XXXX") = none ∧
    partition_entry_events Lib.blank 64 0 1 (List.replicate 192 0 ++ ascii "XXXX") = none := by
  have h := get_dostype_unknown Lib.blank 64 0 1 (List.replicate 192 0 ++ ascii "XXXX")
    (by decide)
  have e : (List.replicate 192 0 ++ ascii "XXXX").drop 192 = ascii "XXXX" := by decide
  rw [e] at h
  exact h

/-- C14 at the code. Entry 36 of the table was entered with the type code
`NBR\x07` of entry 34 (the comment above it names `NBU\x07`), so `get_dostype`
on the code of entry 36 returns 34. Every other named entry, 0 to 45, is found
at its own index. -/
theorem get_dostype_own_code :
    (amiga_dostypes[36]?).bind (fun e => e.typecode) = some (ascii "NBR" ++ [7]) ∧
    (amiga_dostypes[34]?).bind (fun e => e.typecode) = some (ascii "NBR" ++ [7]) ∧
    own_code_index 36 = some 34 ∧
    (List.range 46).map own_code_index =
      (List.range 46).map (fun i => some (if i = 36 then (34 : Int) else (i : Int))) := by
  refine ⟨by decide, by decide, by decide, by decide⟩

/-! ## The document at the edges -/

/-- C15 at the code. In `late_root_log` the only object of level 0 is object
1; `convert_to_json` passes `first_in_a_list = (i == 0)`, so the top-level
list of the document starts with the separator: `"content": [, ...`. -/
theorem convert_to_json_late_root :
    (convert_to_json 2 9 late_root_log).map (fun s => c_str s.json_output) =
      some (ascii ("\x7b\"file kind\": \"Regular file\", \"path\": \"/p\", " ++
        "\"size\": \"987654321\", \"content\": [, " ++
        "\x7b\"type\": \"B\", \"wikidata\": \"Q2\", \"properties\": \x7b\x7d, " ++
        "\"content\": []\x7d]\x7d")) := by
  decide

/-- C16 at the code. For the log of an empty file the document is the one of
the claim, with `"size": "0"`, exactly when the digit count is 1; the source
computes the count as `floor(log10(0)) + 1`, which is no digit count, and a
count above the three chars that `sprintf` wrote makes `insert_string` read
past them. -/
theorem convert_to_json_size_zero (digits : Nat) :
    ((convert_to_json 0 digits empty_file_log).map (fun s => c_str s.json_output) =
      some (ascii ("\x7b\"file kind\": \"Regular file\", \"path\": \"/p\", " ++
        "\"size\": \"0\", \"content\": []\x7d")) ↔ digits = 1) ∧
    (convert_to_json 0 0 empty_file_log).map (fun s => c_str s.json_output) =
      some (ascii ("\x7b\"file kind\": \"Regular file\", \"path\": \"/p\", " ++
        "\"size\": \"\", \"content\": []\x7d")) ∧
    (3 < digits → convert_to_json 0 digits empty_file_log = none) := by
  have hbig : 3 < digits → convert_to_json 0 digits empty_file_log = none := by
    intro h
    have hs : empty_file_log.given_file.size = 0 := by decide
    have hw : (decimal 0 ++ [100, 0]).length = 3 := by decide
    unfold convert_to_json convert_to_json_trace add_file_characteristics_json
    simp only [initialize_String, show (0 : Nat) < 1000 by decide,
      show (0 : Nat) < 100 by decide, if_true, hs, hw, if_neg (not_le.mpr h)]
  refine ⟨?_, by decide, hbig⟩
  by_cases h3 : 3 < digits
  · rw [hbig h3]
    constructor
    · intro h; exact absurd h (by simp)
    · intro h; omega
  · have h4 : digits < 4 := by omega
    interval_cases digits <;> decide

/-! ## Silent non-match -/

theorem find_rdsk_none (get_buffer : Nat → Nat → List Nat) :
    ∀ (n off : Nat),
      (∀ k, off ≤ k → k < off + n →
        (∀ j, off ≤ j → j ≤ k → 512 ≤ (get_buffer (j * 512) 512).length) →
        memcmp_eq (get_buffer (k * 512) 512) 0 (ascii "RDSK") = false) →
      (find_rdsk get_buffer off n).2 = none := by
  intro n
  induction n with
  | zero => intro off _; rfl
  | succ n ih =>
    intro off h
    unfold find_rdsk
    by_cases h1 : (get_buffer (off * 512) 512).length < 512
    · simp only [h1, if_true]
    · have h2 := h off (le_refl _) (by omega) (fun j hj1 hj2 => by
        have : j = off := by omega
        rw [this]; omega)
      simp only [h1, if_false, h2, Bool.false_eq_true]
      refine ih (off + 1) ?_
      intro k hk1 hk2 hread
      refine h k (by omega) (by omega) ?_
      intro j hj1 hj2
      by_cases hj : j = off
      · rw [hj]; omega
      · exact hread j (by omega) hj2

theorem find_dostype_none (buf : List Nat) :
    ∀ l : List dostype, (∀ e ∈ l, ∀ tc, e.typecode = some tc → buf.take 4 ≠ tc.take 4) →
      find_dostype buf l = none := by
  intro l
  induction l with
  | nil => intro _; rfl
  | cons a l ih =>
    intro h
    have ht := ih (fun e he => h e (List.mem_cons_of_mem a he))
    have ha := h a (List.mem_cons_self a l)
    unfold find_dostype
    split
    · rename_i nm tc hn htc
      rw [if_neg (ha tc htc)]
      exact ht
    · exact ht
    · rfl

/-- C17. A detector whose signature is absent or cannot be read in full is a
silent non-match. `detect_iso`: fewer than 2048 bytes at offset 32768, or
bytes that do not start with 0x01 and `CD001`. `detect_amiga_partmap`: no block
`k < 16` starts with `RDSK` after the blocks `0..k` were all read in full.
`detect_amiga_fs`: fewer than 512 bytes at offset 0, or first four bytes that
equal no type code of the table. Each then returns having made no call but
its reads. -/
theorem detectors_silent_non_match (lib : Lib) (w : Nat) (get_buffer : Nat → Nat → List Nat)
    (level : Int) (fuel cfuel section_size : Nat) :
    ((get_buffer 32768 2048).length < 2048 ∨
        memcmp_eq (get_buffer 32768 2048) 0 (1 :: ascii "CD001") = false →
      detect_iso lib w get_buffer level fuel cfuel = some [Event.get_buffer 32768 2048]) ∧
    ((∀ k, k < 16 → (∀ j, j ≤ k → 512 ≤ (get_buffer (j * 512) 512).length) →
        memcmp_eq (get_buffer (k * 512) 512) 0 (ascii "RDSK") = false) →
      ∃ trace, detect_amiga_partmap lib w get_buffer level fuel = some trace ∧ silent trace) ∧
    ((get_buffer 0 512).length < 512 ∨
        (∀ e ∈ amiga_dostypes, ∀ tc, e.typecode = some tc →
          (get_buffer 0 512).take 4 ≠ tc.take 4) →
      detect_amiga_fs get_buffer section_size level = some [Event.get_buffer 0 512]) := by
  refine ⟨?_, ?_, ?_⟩
  · intro h
    unfold detect_iso
    by_cases h1 : (get_buffer 32768 2048).length < 2048
    · simp only [h1, if_true]
    · rcases h with h | h
      · exact absurd h h1
      · simp only [h1, if_false, h, Bool.false_eq_true, not_false_eq_true, if_true]
  · intro h
    have hn := find_rdsk_none get_buffer 16 0
      (fun k _ hk hread => h k (by omega) (fun j hj => hread j (Nat.zero_le j) hj))
    have hr := find_rdsk_reads get_buffer 16 0
    unfold detect_amiga_partmap
    cases hf : find_rdsk get_buffer 0 16 with
    | mk reads found =>
      rw [hf] at hn hr
      simp only at hn
      subst hn
      exact ⟨reads, rfl, hr⟩
  · intro h
    unfold detect_amiga_fs
    by_cases h1 : (get_buffer 0 512).length < 512
    · simp only [h1, if_true]
    · rcases h with h | h
      · exact absurd h h1
      · simp only [h1, if_false, find_dostype_none _ _ h]

/-- C17 on a source from which nothing can be read: the three detectors make
their first read and nothing else. -/
theorem detectors_silent_non_match_witness :
    detect_iso Lib.blank 64 (fun _ _ => []) 0 1 1 = some [Event.get_buffer 32768 2048] ∧
    (∃ trace, detect_amiga_partmap Lib.blank 64 (fun _ _ => []) 0 1 = some trace ∧
      silent trace) ∧
    detect_amiga_fs (fun _ _ => []) 0 0 = some [Event.get_buffer 0 512] := by
  have h := detectors_silent_non_match Lib.blank 64 (fun _ _ => []) 0 1 1 0
  exact ⟨h.1 (Or.inl (by decide)), h.2.1 (fun k _ hread => absurd (hread 0 (Nat.zero_le k))
    (by decide)), h.2.2 (Or.inl (by decide))⟩

/-! ## Numbers are stored as decimal strings -/

theorem digits_fuel_decimal_ascii : ∀ (fuel n : Nat), n < fuel →
    digits_fuel 10 fuel n = decimal_ascii n := by
  intro fuel
  induction fuel with
  | zero => intro n h; omega
  | succ fuel ih =>
    intro n h
    unfold digits_fuel
    by_cases h10 : n < 10
    · rw [if_pos h10]
      unfold decimal_ascii digit_char
      by_cases h0 : n = 0
      · subst h0; rfl
      · rw [if_neg h0, Nat.digits_of_lt 10 n h0 h10, if_pos h10]
        rfl
    · rw [if_neg h10, ih (n / 10) (by omega)]
      have hn0 : n ≠ 0 := by omega
      have hd0 : n / 10 ≠ 0 := by omega
      have hm : n % 10 < 10 := Nat.mod_lt _ (by decide)
      have e : Nat.digits 10 n = n % 10 :: Nat.digits 10 (n / 10) :=
        Nat.digits_def' (by decide) (by omega)
      unfold decimal_ascii digit_char
      rw [if_neg hn0, if_neg hd0, e, if_pos hm]
      simp

theorem decimal_eq_decimal_ascii (n : Nat) : decimal n = decimal_ascii n :=
  digits_fuel_decimal_ascii (n + 1) n (Nat.lt_succ_self n)

theorem decimal_int_eq_decimal_ascii_int (v : Int) : decimal_int v = decimal_ascii_int v := by
  unfold decimal_int decimal_ascii_int
  rw [decimal_eq_decimal_ascii]

theorem digits_fuel_length : ∀ (fuel n k : Nat), n < 10 ^ (k + 1) →
    (digits_fuel 10 fuel n).length ≤ k + 1 := by
  intro fuel
  induction fuel with
  | zero => intro n k _; simp [digits_fuel]
  | succ fuel ih =>
    intro n k h
    unfold digits_fuel
    by_cases h10 : n < 10
    · rw [if_pos h10]; simp
    · rw [if_neg h10]
      cases k with
      | zero => omega
      | succ k =>
        have : n / 10 < 10 ^ (k + 1) := by
          apply Nat.div_lt_of_lt_mul
          rw [← Nat.pow_succ']; exact h
        have := ih (n / 10) k this
        simp only [List.length_append, List.length_singleton]
        omega

theorem decimal_length (n k : Nat) (h : n < 10 ^ (k + 1)) : (decimal n).length ≤ k + 1 :=
  digits_fuel_length (n + 1) n k h

/-- A decimal number with its sign passes `clean_char` unchanged. -/
theorem clean_char_decimal_int (latin1 : Int) (v : Int) :
    c_str (clean_char latin1 (decimal_int v ++ [0])) = decimal_int v := by
  unfold decimal_int
  by_cases hv : v < 0
  · rw [if_pos hv]
    have hr : ∀ c ∈ decimal v.natAbs, 48 ≤ c ∧ c ≤ 57 :=
      digits_fuel_decimal_range (v.natAbs + 1) v.natAbs
    have hnz : ∀ c ∈ 45 :: decimal v.natAbs, c ≠ 0 := by
      intro c hc
      rcases List.mem_cons.mp hc with h | h
      · omega
      · have := hr c h; omega
    have hb : ∀ b ∈ 45 :: decimal v.natAbs ++ [0], b < 256 := by
      intro b hb
      simp only [List.cons_append, List.mem_cons, List.mem_append, List.mem_singleton,
        List.not_mem_nil, or_false] at hb
      rcases hb with h | h | h
      · omega
      · have := hr b h; omega
      · omega
    have hcs : c_str (45 :: decimal v.natAbs ++ [0]) = 45 :: decimal v.natAbs :=
      c_str_append_nul _ [] hnz
    have he : (45 :: decimal v.natAbs).flatMap escape_byte = 45 :: decimal v.natAbs := by
      rw [List.flatMap_cons, flatMap_escape_plain _ hr]
      rfl
    unfold clean_char
    by_cases hl : latin1 = 0
    · rw [if_pos hl, hcs]
    · rw [if_neg hl, clean_char_loop_eq _ hb, hcs, he, List.nil_append]
      exact c_str_append_nul _ [] hnz
  · rw [if_neg hv]
    exact clean_char_decimal latin1 v.natAbs

theorem decimal_ascii_int_length (v : Int) (h1 : -2 ^ 31 ≤ v) (h2 : v < 2 ^ 31) :
    (decimal_ascii_int v ++ [0]).length ≤ 12 := by
  have hn : v.natAbs < 10 ^ (9 + 1) := by omega
  have hl := decimal_length v.natAbs 9 hn
  rw [decimal_eq_decimal_ascii] at hl
  unfold decimal_ascii_int
  split
  · simp only [List.cons_append, List.length_cons, List.length_append, List.length_singleton,
      List.length_nil]
    omega
  · simp only [List.length_append, List.length_singleton]
    omega

theorem clean_char_endianness (latin1 : Int) (endianness : Int) :
    c_str (clean_char latin1 (if endianness ≠ 0 then ascii "little" else ascii "big")) =
      (if endianness = 0 then ascii "big" else ascii "little") := by
  unfold clean_char
  by_cases he : endianness = 0
  · simp only [he, ne_eq, not_true_eq_false, if_false, if_true]
    by_cases hl : latin1 = 0
    · rw [if_pos hl]; decide
    · rw [if_neg hl]; decide
  · simp only [he, ne_eq, not_false_eq_true, if_true, if_false]
    by_cases hl : latin1 = 0
    · rw [if_pos hl]; decide
    · rw [if_neg hl]; decide

/-- A number of at least `10 ^ k` has more than `k` decimal digits. -/
theorem decimal_length_lower (n k : Nat) (h : 10 ^ k ≤ n) : k < (decimal n).length := by
  rw [decimal_eq_decimal_ascii]
  have hn : n ≠ 0 := by
    intro h0
    rw [h0] at h
    have := Nat.pos_pow_of_pos k (by decide : 0 < 10)
    omega
  unfold decimal_ascii
  rw [if_neg hn, List.length_map, List.length_reverse]
  have h1 : n < 10 ^ (Nat.digits 10 n).length := Nat.lt_base_pow_length_digits (by decide)
  have h2 : 10 ^ k < 10 ^ (Nat.digits 10 n).length := Nat.lt_of_le_of_lt h h1
  exact (Nat.pow_lt_pow_iff_right (by decide)).mp h2

/-- C18. For every 32-bit `int`, every `u4` below 10^11 (every value of a
32-bit `unsigned long`) and every 64-bit `u8`, `add_property_int`,
`add_property_u4` and `add_property_u8` are `add_property` called with the
decimal ASCII representation of the number, which fits the buffer
`value_as_chars`; on a latest object that lacks the key the value stored is
that representation, whatever latin1 is. `add_property_endianness(e)` is
`add_property` with the key `endianness` and the value `big` for `e = 0`,
`little` for every other `e`, and these are stored as they are. A `u4` of
10^11 or more (a 64-bit `unsigned long`) does not fit the 12 chars of
`add_property_u4`, which then writes behind its buffer, while the 21 chars of
`add_property_u8` hold the same number. -/
theorem property_values_are_decimal_strings (t : State) (i0 : Nat)
    (l : List (List Nat × List Nat)) (key : List Nat)
    (h : current_holds t i0 l) (hcap : l.length < MAX_PROPERTIES)
    (hk : c_str key ∉ l.map Prod.fst) (hend : ascii "endianness" ∉ l.map Prod.fst) :
    (∀ (s : State) (k : List Nat) (v : Int), -2 ^ 31 ≤ v → v < 2 ^ 31 →
      add_property_int s k v = add_property s k (decimal_ascii_int v ++ [0])) ∧
    (∀ (s : State) (k : List Nat) (v : Nat), v < 10 ^ 11 →
      add_property_u4 s k v = add_property s k (decimal_ascii v ++ [0])) ∧
    (∀ (s : State) (k : List Nat) (v : Nat), v < 2 ^ 64 →
      add_property_u8 s k v = add_property s k (decimal_ascii v ++ [0])) ∧
    (∀ v : Int, -2 ^ 31 ≤ v → v < 2 ^ 31 → (decimal_ascii_int v ++ [0]).length ≤ 12) ∧
    (∀ v : Nat, v < 10 ^ 11 → (decimal_ascii v ++ [0]).length ≤ 12) ∧
    (∀ v : Nat, v < 2 ^ 64 → (decimal_ascii v ++ [0]).length ≤ 21) ∧
    (∀ v : Int, -2 ^ 31 ≤ v → v < 2 ^ 31 → ∃ t1, add_property_int t key v = some t1 ∧
      current_holds t1 i0 (l ++ [(c_str key, decimal_ascii_int v)])) ∧
    (∀ v : Nat, v < 10 ^ 11 → ∃ t1, add_property_u4 t key v = some t1 ∧
      current_holds t1 i0 (l ++ [(c_str key, decimal_ascii v)])) ∧
    (∀ v : Nat, v < 2 ^ 64 → ∃ t1, add_property_u8 t key v = some t1 ∧
      current_holds t1 i0 (l ++ [(c_str key, decimal_ascii v)])) ∧
    (∀ s : State, add_property_endianness s 0 =
      add_property s (ascii "endianness") (ascii "big")) ∧
    (∀ (s : State) (e : Int), e ≠ 0 → add_property_endianness s e =
      add_property s (ascii "endianness") (ascii "little")) ∧
    (∀ e : Int, ∃ t1, add_property_endianness t e = some t1 ∧
      current_holds t1 i0
        (l ++ [(ascii "endianness", if e = 0 then ascii "big" else ascii "little")])) ∧
    (∀ (s : State) (k : List Nat) (v : Nat), 10 ^ 11 ≤ v → add_property_u4 s k v = none) ∧
    (∀ (s : State) (k : List Nat), add_property_u8 s k (10 ^ 11) =
      add_property s k (ascii "100000000000" ++ [0])) := by
  have hnat : ∀ v : Nat, ∃ t1, add_property t key (decimal v ++ [0]) = some t1 ∧
      current_holds t1 i0 (l ++ [(c_str key, decimal_ascii v)]) := by
    intro v
    obtain ⟨t1, h1, _, h2⟩ := add_property_new h hcap key (decimal v ++ [0]) hk
    rw [clean_char_decimal, decimal_eq_decimal_ascii] at h2
    exact ⟨t1, h1, h2⟩
  have hl4 : ∀ v : Nat, v < 10 ^ 11 → (decimal v ++ [0]).length ≤ 12 := by
    intro v hv
    have := decimal_length v 10 hv
    simp only [List.length_append, List.length_singleton]
    omega
  have hl8 : ∀ v : Nat, v < 2 ^ 64 → (decimal v ++ [0]).length ≤ 21 := by
    intro v hv
    have := decimal_length v 19 (by omega)
    simp only [List.length_append, List.length_singleton]
    omega
  have hli : ∀ v : Int, -2 ^ 31 ≤ v → v < 2 ^ 31 → (decimal_int v ++ [0]).length ≤ 12 := by
    intro v h1 h2
    rw [decimal_int_eq_decimal_ascii_int]
    exact decimal_ascii_int_length v h1 h2
  refine ⟨?_, ?_, ?_, decimal_ascii_int_length, ?_, ?_, ?_, ?_, ?_, ?_, ?_, ?_, ?_, ?_⟩
  · intro s k v h1 h2
    unfold add_property_int
    rw [if_pos (hli v h1 h2), decimal_int_eq_decimal_ascii_int]
  · intro s k v hv
    unfold add_property_u4
    rw [if_pos (hl4 v hv), decimal_eq_decimal_ascii]
  · intro s k v hv
    unfold add_property_u8
    rw [if_pos (hl8 v hv), decimal_eq_decimal_ascii]
  · intro v hv
    have := hl4 v hv
    rw [decimal_eq_decimal_ascii] at this
    exact this
  · intro v hv
    have := hl8 v hv
    rw [decimal_eq_decimal_ascii] at this
    exact this
  · intro v hv1 hv2
    obtain ⟨t1, h1, _, h2⟩ := add_property_new h hcap key (decimal_int v ++ [0]) hk
    rw [clean_char_decimal_int, decimal_int_eq_decimal_ascii_int] at h2
    refine ⟨t1, ?_, h2⟩
    unfold add_property_int
    rw [if_pos (hli v hv1 hv2)]
    exact h1
  · intro v hv
    obtain ⟨t1, h1, h2⟩ := hnat v
    refine ⟨t1, ?_, h2⟩
    unfold add_property_u4
    rw [if_pos (hl4 v hv)]
    exact h1
  · intro v hv
    obtain ⟨t1, h1, h2⟩ := hnat v
    refine ⟨t1, ?_, h2⟩
    unfold add_property_u8
    rw [if_pos (hl8 v hv)]
    exact h1
  · intro s
    unfold add_property_endianness
    simp
  · intro s e he
    unfold add_property_endianness
    simp [he]
  · intro e
    have hke : c_str (ascii "endianness") ∉ l.map Prod.fst := by
      have : c_str (ascii "endianness") = ascii "endianness" := by decide
      rw [this]; exact hend
    obtain ⟨t1, h1, _, h2⟩ := add_property_new h hcap (ascii "endianness")
      (if e ≠ 0 then ascii "little" else ascii "big") hke
    rw [clean_char_endianness] at h2
    have hc : c_str (ascii "endianness") = ascii "endianness" := by decide
    rw [hc] at h2
    exact ⟨t1, h1, h2⟩
  · intro s k v hv
    have hlen := decimal_length_lower v 11 hv
    unfold add_property_u4
    rw [if_neg]
    simp only [List.length_append, List.length_singleton]
    omega
  · intro s k
    have e : decimal (10 ^ 11) = ascii "100000000000" := by
      decide
    unfold add_property_u8
    rw [e, if_pos (by decide)]

/-- C18 on the first object of a log: the smallest `int` is stored as
`-2147483648`, and endianness 0 as `big`. -/
theorem property_values_are_decimal_strings_witness :
    (∃ t1, add_property_int one_object_state (ascii "number") (-2147483648) = some t1 ∧
      current_holds t1 0 [(ascii "number", ascii "-2147483648")]) ∧
    (∃ t1, add_property_endianness one_object_state 0 = some t1 ∧
      current_holds t1 0 [(ascii "endianness", ascii "big")]) := by
  have h0 : add_content_object State.initial 0 (ascii "A") (ascii "Q1") =
      some one_object_state := rfl
  have h := property_values_are_decimal_strings one_object_state 0 [] (ascii "number")
    (add_content_object_current h0) (by decide) (by simp) (by simp)
  obtain ⟨t1, h1, h2⟩ := h.2.2.2.2.2.2.1 (-2147483648) (by decide) (by decide)
  obtain ⟨t2, h3, h4⟩ := h.2.2.2.2.2.2.2.2.2.2.2.1 0
  refine ⟨⟨t1, h1, ?_⟩, ⟨t2, h3, ?_⟩⟩
  · have e : [(c_str (ascii "number"), decimal_ascii_int (-2147483648))] =
        [(ascii "number", ascii "-2147483648")] := by
      have e1 : c_str (ascii "number") = ascii "number" := by decide
      have e2 : decimal_ascii_int (-2147483648) = ascii "-2147483648" := by
        rw [← decimal_int_eq_decimal_ascii_int]; decide
      rw [e1, e2]
    rw [List.nil_append, e] at h2
    exact h2
  · simpa using h4

/-! ## `reset_json` restores the initial state -/

/-- No call of the log's interface reads or writes the output array. -/
theorem apply_json_output (s : State) (o : List Nat) (op : Op) :
    op.apply { s with json_output := o } =
      (op.apply s).map fun t => { t with json_output := o } := by
  cases op with
  | object level object_type wikidata =>
    simp only [Op.apply, add_content_object]
    split
    · rfl
    · rfl
  | prop key value =>
    have hk : key_present { s with json_output := o } key = key_present s key := rfl
    simp only [Op.apply, add_property, hk]
    by_cases h1 : 0 < s.id ∧ s.property_counter < MAX_PROPERTIES
    · by_cases h2 : key_present s key = true
      · simp only [if_pos h1, if_pos h2]; rfl
      · simp only [if_pos h1, if_neg h2]; rfl
    · simp only [if_neg h1]; rfl
  | file_path path =>
    simp only [Op.apply, add_file_path, initialize_String, Nat.zero_lt_succ, if_true]
    rfl
  | file_characteristics file_kind size => rfl

theorem run_json_output (o : List Nat) (ops : List Op) : ∀ s : State,
    run { s with json_output := o } ops =
      (run s ops).map fun t => { t with json_output := o } := by
  induction ops with
  | nil => intro s; rfl
  | cons op ops ih =>
    intro s
    simp only [run]
    rw [apply_json_output s o op]
    cases h : op.apply s with
    | none => rfl
    | some s1 => exact ih s1

theorem reset_json_eq (s : State) :
    reset_json s = { State.start s.latin1 with json_output := array_set s.json_output 0 0 } :=
  rfl

theorem log_ok_start (latin1 : Int) : log_ok (State.start latin1) :=
  log_ok_reset (State.start latin1)

/-- C19. `reset_json` clears the whole log: the counters `id`,
`property_counter` and `number_of_objects` are 0, file kind, path and size are
cleared, the String `json` is freed and the output array holds the empty
string; with the output array of one cell that the source declares, the state
is the one at program start (with the same latin1 option). Every sequence of
log operations after it fails or succeeds as it does from the state at program
start and produces the same counters and the same log, and `convert_to_json`
builds the same document from both: with fuel for the objects and a digit
count within what `sprintf` wrote, the document of that log. -/
theorem reset_json_restores_start (s : State) (ops : List Op) :
    (reset_json s).id = 0 ∧ (reset_json s).property_counter = 0 ∧
    (reset_json s).given_file.number_of_objects = 0 ∧
    (reset_json s).given_file.file_kind = CString.zero ∧
    (reset_json s).given_file.path = CString.zero ∧
    (reset_json s).given_file.size = 0 ∧
    (reset_json s).json = CString.zero ∧
    c_str (reset_json s).json_output = [] ∧
    (s.json_output.length = 1 → reset_json s = State.start s.latin1) ∧
    (run (reset_json s) ops = none ↔ run (State.start s.latin1) ops = none) ∧
    (∀ a, run (reset_json s) ops = some a →
      ∃ b, run (State.start s.latin1) ops = some b ∧
        a.id = b.id ∧ a.property_counter = b.property_counter ∧
        a.given_file = b.given_file ∧ a.latin1 = b.latin1 ∧ a.json = b.json ∧
        (∀ fuel digits,
          convert_to_json_trace fuel digits a = convert_to_json_trace fuel digits b) ∧
        ∀ fuel digits, a.given_file.number_of_objects ≤ fuel →
          digits ≤ (decimal a.given_file.size).length + 2 →
          ∃ json emitted, convert_to_json_trace fuel digits a = some (json, emitted) ∧
            convert_to_json_trace fuel digits b = some (json, emitted) ∧
            json.holds (render_document digits b)) := by
  have hrun : run (reset_json s) ops =
      ((run (State.start s.latin1) ops).map fun t =>
        { t with json_output := array_set s.json_output 0 0 }) := by
    rw [reset_json_eq]
    exact run_json_output _ ops _
  refine ⟨rfl, rfl, rfl, rfl, rfl, rfl, rfl, ?_, ?_, ?_, ?_⟩
  · show c_str (array_set s.json_output 0 0) = []
    unfold array_set
    rw [List.take_zero, List.nil_append, List.singleton_append]
    exact c_str_cons_nul _
  · intro hlen
    rw [reset_json_eq]
    have hcell : array_set s.json_output 0 0 = [0] := by
      match hjo : s.json_output, hlen with
      | [_], _ => rfl
    rw [hcell]
    rfl
  · rw [hrun]
    cases run (State.start s.latin1) ops <;> simp
  · intro a ha
    rw [hrun] at ha
    cases hb : run (State.start s.latin1) ops with
    | none => rw [hb] at ha; cases ha
    | some b =>
      rw [hb] at ha
      simp only [Option.map_some', Option.some.injEq] at ha
      subst ha
      have hc : ∀ fuel digits,
          convert_to_json_trace fuel digits { b with json_output := array_set s.json_output 0 0 }
            = convert_to_json_trace fuel digits b :=
        fun fuel digits => @convert_to_json_trace_congr b
          { b with json_output := array_set s.json_output 0 0 } rfl fuel digits
      refine ⟨b, rfl, rfl, rfl, rfl, rfl, rfl, hc, ?_⟩
      intro fuel digits hfuel hd
      have hokb : log_ok b := log_ok_run ops (log_ok_start s.latin1) hb
      obtain ⟨json, h1, hj⟩ := convert_to_json_trace_holds b hokb fuel digits hfuel hd
      exact ⟨json, _, (hc fuel digits).trans h1, h1, hj⟩

/-- C19 after the log `late_root_log`: the reset gives the state at program
start, the calls `json_example_ops` build the same log as from program start,
and the document is the same. -/
theorem reset_json_restores_start_witness :
    reset_json late_root_log = State.start 0 ∧
    ∃ a b, run (reset_json late_root_log) json_example_ops = some a ∧
      run (State.start 0) json_example_ops = some b ∧
      a.given_file = b.given_file ∧
      ∃ json emitted, convert_to_json_trace 5 9 a = some (json, emitted) ∧
        convert_to_json_trace 5 9 b = some (json, emitted) := by
  have h := (reset_json_restores_start late_root_log json_example_ops).2.2.2.2.2.2.2.2
  have hl : late_root_log.latin1 = 0 := by decide
  rw [hl] at h
  obtain ⟨hreset, _, hall⟩ := h
  have hstart := hreset (by decide)
  have hb : (run (State.start 0) json_example_ops).isSome = true := by decide
  obtain ⟨b, hb⟩ := Option.isSome_iff_exists.mp hb
  have ha : run (reset_json late_root_log) json_example_ops = some b := by
    rw [hstart]; exact hb
  obtain ⟨b2, hb2, _, _, hgf, _, _, _, hdoc⟩ := hall _ ha
  have hbb : b2 = b := by rw [hb] at hb2; cases hb2; rfl
  subst hbb
  have hn : b2.given_file.number_of_objects = 5 := by
    have : (run (State.start 0) json_example_ops).map
        (fun t => t.given_file.number_of_objects) = some 5 := by decide
    rw [hb] at this
    simpa using this
  have hsz : b2.given_file.size = 987654321 := by
    have : (run (State.start 0) json_example_ops).map
        (fun t => t.given_file.size) = some 987654321 := by decide
    rw [hb] at this
    simpa using this
  obtain ⟨json, emitted, h1, h2, _⟩ := hdoc 5 9 (by rw [hn]) (by rw [hsz]; decide)
  exact ⟨hstart, b2, b2, ha, hb, rfl, json, emitted, h1, h2⟩

/-! ## The terminator of a `String` -/

theorem insert_single_char_fits (str : CString) (element : Nat) (h : str.fits) :
    (insert_single_char str element).fits := by
  obtain ⟨h1, h2⟩ := h
  unfold insert_single_char
  split
  · exact ⟨h1, h2⟩
  · unfold CString.fits
    dsimp only
    split <;> omega

theorem foldl_insert_fits (l : List Nat) :
    ∀ str : CString, str.fits → (l.foldl insert_single_char str).fits := by
  induction l with
  | nil => intro str h; exact h
  | cons c l ih => intro str h; exact ih _ (insert_single_char_fits str c h)

theorem string_run_fits (ops : List StringOp) :
    ∀ str : CString, str.fits → (string_run str ops).fits := by
  induction ops with
  | nil => intro str h; exact h
  | cons op ops ih =>
    intro str h
    refine ih _ ?_
    cases op with
    | single_char element => exact insert_single_char_fits str element h
    | chars append => exact foldl_insert_fits _ str h
    | string append => exact foldl_insert_fits _ str h

theorem holds_getD {str : CString} {cs : List Nat} (h : str.holds cs) :
    (∀ i d, i < cs.length → str.string.getD i d = cs.getD i d) ∧
    ∀ d, str.string.getD cs.length d = 0 := by
  obtain ⟨hs, _, _⟩ := h
  constructor
  · intro i d hi
    rw [hs, List.getD_append _ _ _ _ hi]
  · intro d
    rw [hs, List.getD_append_right _ _ _ _ (le_refl _), Nat.sub_self]
    rfl

theorem holds_terminated {str : CString} {cs : List Nat} (h : str.holds cs) :
    terminated str := by
  obtain ⟨hget, hend⟩ := holds_getD h
  obtain ⟨_, hu, hn⟩ := h
  refine ⟨by omega, ?_, ?_⟩
  · rw [hu, Nat.add_sub_cancel]; exact hend 1
  · intro i hi
    rw [hu, Nat.add_sub_cancel] at hi
    rw [hget i 0 hi, List.getD_eq_getElem _ _ hi]
    exact hn _ (List.getElem_mem _)

theorem string_run_holds (ops : List StringOp) :
    ∀ {str : CString} {cs : List Nat}, str.holds cs → ∃ cs1, (string_run str ops).holds cs1 := by
  induction ops with
  | nil => intro str cs h; exact ⟨cs, h⟩
  | cons op ops ih =>
    intro str cs h
    have h1 : ∃ cs1, (StringOp.apply str op).holds cs1 := by
      cases op with
      | single_char element =>
        by_cases he : element = 0
        · subst he
          exact ⟨cs, by simpa [StringOp.apply, insert_single_char_nul] using h⟩
        · exact ⟨_, insert_single_char_holds h he⟩
      | chars append => exact ⟨_, insert_chars_holds h append⟩
      | string append => exact ⟨_, foldl_insert_filter _ h⟩
    obtain ⟨cs1, hcs1⟩ := h1
    exact ih hcs1

/-- C20. For every String initialised with a size of at least 2 and every
sequence of `insert_single_char`, `insert_chars` and `insert_string` calls,
the chars written lie inside the buffer, the char array ends with NUL at index
`used_size - 1` and holds no NUL at an earlier index; inserting NUL leaves the
String unchanged; inserting another char increases `used_size` by exactly 1,
makes that char the last one before the terminator and leaves the chars before
it as they were. A String initialised with size 1 has, after one char,
`used_size` 2 and `total_size` 1: its terminator lies behind the buffer. -/
theorem string_terminator_invariant (init_size : Nat) (str0 : CString) (ops : List StringOp)
    (hsize : 2 ≤ init_size) (h : initialize_String init_size = some str0) :
    (string_run str0 ops).fits ∧
    terminated (string_run str0 ops) ∧
    insert_single_char (string_run str0 ops) 0 = string_run str0 ops ∧
    (∀ c, c ≠ 0 →
      (insert_single_char (string_run str0 ops) c).fits ∧
      terminated (insert_single_char (string_run str0 ops) c) ∧
      (insert_single_char (string_run str0 ops) c).used_size =
        (string_run str0 ops).used_size + 1 ∧
      (insert_single_char (string_run str0 ops) c).string.getD
        ((string_run str0 ops).used_size - 1) 0 = c ∧
      ∀ i, i < (string_run str0 ops).used_size - 1 →
        (insert_single_char (string_run str0 ops) c).string.getD i 0 =
          (string_run str0 ops).string.getD i 0) ∧
    (initialize_String 1).map (fun str =>
        ((string_run str [StringOp.single_char 97]).used_size,
         (string_run str [StringOp.single_char 97]).total_size)) = some (2, 1) := by
  obtain ⟨cs, hcs⟩ := string_run_holds ops (initialize_String_holds h).1
  have hfit : (string_run str0 ops).fits := by
    unfold initialize_String at h
    rw [if_pos (by omega)] at h
    cases h
    exact string_run_fits ops _ ⟨by show 1 ≤ init_size; omega, hsize⟩
  refine ⟨hfit, holds_terminated hcs, insert_single_char_nul _, ?_, by decide⟩
  intro c hc
  have hins := insert_single_char_holds hcs hc
  obtain ⟨hget, _⟩ := holds_getD hcs
  obtain ⟨hget1, _⟩ := holds_getD hins
  have hu := hcs.2.1
  have hlen : (cs ++ [c]).length = cs.length + 1 := by simp
  refine ⟨insert_single_char_fits _ c hfit, holds_terminated hins, ?_, ?_, ?_⟩
  · rw [hins.2.1, hu, hlen]
  · rw [hu, Nat.add_sub_cancel, hget1 cs.length 0 (by omega),
      List.getD_append_right _ _ _ _ (le_refl _), Nat.sub_self]
    rfl
  · intro i hi
    rw [hu, Nat.add_sub_cancel] at hi
    rw [hget1 i 0 (by omega), hget i 0 hi, List.getD_append _ _ _ _ hi]

/-- C20 at the calls of `test_insert_single_char`: a String of size 3 takes
`a`, a blank, a NUL, `b` and `c`; it then holds `a bc` with `used_size` 5 and
`total_size` 6, and is terminated. -/
theorem string_terminator_invariant_witness :
    string_run ⟨1, 3, [0]⟩ [StringOp.single_char 97, StringOp.single_char 32,
      StringOp.single_char 0, StringOp.single_char 98, StringOp.single_char 99] =
      ⟨5, 6, [97, 32, 98, 99, 0]⟩ ∧
    terminated (string_run ⟨1, 3, [0]⟩ [StringOp.single_char 97, StringOp.single_char 32,
      StringOp.single_char 0, StringOp.single_char 98, StringOp.single_char 99]) :=
  ⟨by decide, (string_terminator_invariant 3 ⟨1, 3, [0]⟩ _ (by decide) rfl).2.1⟩

/-! ## Round trip of the `String` interface -/

theorem StringOp.apply_holds {str : CString} {cs : List Nat} (h : str.holds cs)
    (op : StringOp) : (StringOp.apply str op).holds (cs ++ op.content) := by
  cases op with
  | single_char element =>
    by_cases he : element = 0
    · subst he
      simpa [StringOp.apply, StringOp.content, insert_single_char_nul] using h
    · simpa [StringOp.apply, StringOp.content, he] using insert_single_char_holds h he
  | chars append => exact insert_chars_holds h append
  | string append => exact foldl_insert_filter _ h

theorem string_run_content (ops : List StringOp) :
    ∀ {str : CString} {cs : List Nat}, str.holds cs →
      (string_run str ops).holds (cs ++ ops.flatMap StringOp.content) := by
  induction ops with
  | nil => intro str cs h; simpa [string_run] using h
  | cons op ops ih =>
    intro str cs h
    have := ih (StringOp.apply_holds h op)
    simpa [string_run, List.flatMap_cons, List.append_assoc] using this

theorem extract_chars_text {str : CString} {t : List Nat} (h : str.holds t) (dest : List Nat) :
    (t ≠ [] → extract_chars str dest = t ++ [0] ++ dest.drop (t.length + 1)) ∧
    (t = [] → extract_chars str dest = dest) := by
  obtain ⟨hstr, hused, hnz⟩ := h
  have hsrc : c_str str.string = t := by rw [hstr]; exact c_str_append_nul t [] hnz
  constructor
  · intro hne
    obtain ⟨c, t1, ht⟩ := List.exists_cons_of_ne_nil hne
    have hc : c ≠ 0 := hnz c (by rw [ht]; exact List.mem_cons_self c t1)
    have hhead : str.string.headD 0 = c := by rw [hstr, ht]; rfl
    unfold extract_chars
    rw [hhead, if_neg hc]
    simp only [hsrc, hused, Nat.add_sub_cancel_left, List.replicate_one]
    have hl : (t ++ [0]).length = t.length + 1 := by simp
    rw [← hl, List.take_length]
  · intro he
    subst he
    unfold extract_chars
    rw [hstr]
    simp

theorem extract_chars_length {str : CString} {t : List Nat} (h : str.holds t) (dest : List Nat)
    (hdest : str.used_size ≤ dest.length) : (extract_chars str dest).length = dest.length := by
  obtain ⟨h1, h2⟩ := extract_chars_text h dest
  by_cases ht : t = []
  · rw [h2 ht]
  · rw [h1 ht]
    have hu := h.2.1
    simp only [List.length_append, List.length_singleton, List.length_drop]
    omega

/-- C21. For a String freshly initialised with a size of at least 2, every
sequence of insertions (`insert_chars`, `insert_string`, also
`insert_single_char`) and a destination array with room for `used_size`
chars: the chars written lie inside the buffer, the String holds the
concatenation of the inserted contents in call order, `used_size` is its
length plus 1, and `extract_chars` overwrites the start of the destination
with that text and its terminator, writing no cell behind the destination; on
a String that is still empty it leaves the destination as it is. A NUL-free
char array contributes itself, a well-formed appended String its text. A
String initialised with size 1 has, after one char, `used_size` above
`total_size`: the chars lie behind the buffer. -/
theorem string_round_trip (init_size : Nat) (str0 : CString) (ops : List StringOp)
    (dest : List Nat) (hsize : 2 ≤ init_size) (h : initialize_String init_size = some str0)
    (hdest : (string_run str0 ops).used_size ≤ dest.length) :
    (string_run str0 ops).fits ∧
    (string_run str0 ops).holds (ops.flatMap StringOp.content) ∧
    (string_run str0 ops).used_size = (ops.flatMap StringOp.content).length + 1 ∧
    (ops.flatMap StringOp.content ≠ [] →
      extract_chars (string_run str0 ops) dest =
        ops.flatMap StringOp.content ++ [0] ++
          dest.drop ((ops.flatMap StringOp.content).length + 1)) ∧
    (ops.flatMap StringOp.content = [] → extract_chars (string_run str0 ops) dest = dest) ∧
    (extract_chars (string_run str0 ops) dest).length = dest.length ∧
    (∀ l : List Nat, (∀ c ∈ l, c ≠ 0) → (StringOp.chars l).content = l) ∧
    (∀ (a : CString) (ca : List Nat), a.holds ca → (StringOp.string a).content = ca) ∧
    (initialize_String 1).map (fun str =>
        decide ((string_run str [StringOp.chars (ascii "a")]).used_size ≤
          (string_run str [StringOp.chars (ascii "a")]).total_size)) = some false := by
  have hh := string_run_content ops (initialize_String_holds h).1
  rw [List.nil_append] at hh
  obtain ⟨h1, h2⟩ := extract_chars_text hh dest
  have hfit : (string_run str0 ops).fits := by
    unfold initialize_String at h
    rw [if_pos (by omega)] at h
    cases h
    exact string_run_fits ops _ ⟨by show 1 ≤ init_size; omega, hsize⟩
  refine ⟨hfit, hh, hh.2.1, h1, h2, extract_chars_length hh dest hdest, ?_, ?_, by decide⟩
  · intro l hl
    exact c_str_no_nul l hl
  · intro a ca ha
    show (a.string.take a.used_size).filter (fun c => decide (c ≠ 0)) = ca
    rw [ha.1, ha.2.1]
    have hl : (ca ++ [0]).length = ca.length + 1 := by simp
    rw [← hl, List.take_length, List.filter_append]
    have : ca.filter (fun c => decide (c ≠ 0)) = ca := by
      rw [List.filter_eq_self]
      intro c hc
      simpa using ha.2.2 c hc
    rw [this]
    simp

/-- C21 at the calls of `test_insert_String` and `test_extract_chars`: a
String of size 2 takes a blank and then the String `hello`; it holds ` hello`
with `used_size` 7, and extraction overwrites the destination `abcdefgh`. -/
theorem string_round_trip_witness :
    (string_run ⟨1, 2, [0]⟩ [StringOp.chars (ascii " "),
        StringOp.string ⟨6, 6, ascii "hello" ++ [0]⟩]).used_size = 7 ∧
    extract_chars (string_run ⟨1, 2, [0]⟩ [StringOp.chars (ascii " "),
        StringOp.string ⟨6, 6, ascii "hello" ++ [0]⟩]) (ascii "abcdefgh") =
      ascii " hello" ++ [0] ++ ascii "h" ∧
    extract_chars (string_run ⟨1, 6, [0]⟩ []) (ascii "abcd" ++ [0]) = ascii "abcd" ++ [0] := by
  have h := string_round_trip 2 ⟨1, 2, [0]⟩ [StringOp.chars (ascii " "),
    StringOp.string ⟨6, 6, ascii "hello" ++ [0]⟩] (ascii "abcdefgh") (by decide) rfl
    (by decide)
  have h6 := string_round_trip 6 ⟨1, 6, [0]⟩ [] (ascii "abcd" ++ [0]) (by decide) rfl
    (by decide)
  exact ⟨h.2.2.1.trans (by decide), (h.2.2.2.1 (by decide)).trans (by decide),
    h6.2.2.2.2.1 rfl⟩

/-! ## The position of the first path -/

/-- C22 at the code. For the command line `disktype file --test x` the path
`file` comes first, yet `test_arg` accepts `--test` as second argument
without looking at the first, and `optional_args` returns 2: the argument
before position 2 is no option but a path. The well-formed orders
`--latin1 --test x`, `--test x`, `--latin1 x` and `x` give 3, 2, 2 and 1, and
an option without a path after it gives -1. -/
theorem optional_args_path_before_test :
    optional_args argv_path_before_test = 2 ∧
    argv_path_before_test.getD 1 [] = ascii "file" ∧
    optional_args [ascii "disktype", ascii "--latin1", ascii "--test", ascii "x"] = 3 ∧
    optional_args [ascii "disktype", ascii "--test", ascii "x"] = 2 ∧
    optional_args [ascii "disktype", ascii "--latin1", ascii "x"] = 2 ∧
    optional_args [ascii "disktype", ascii "x"] = 1 ∧
    optional_args [ascii "disktype"] = -1 ∧
    optional_args [ascii "disktype", ascii "--latin1"] = -1 ∧
    optional_args [ascii "disktype", ascii "--test"] = -1 ∧
    optional_args [ascii "disktype", ascii "--latin1", ascii "--test"] = -1 := by
  decide

/-! ## The block-size test -/

theorem and_pred_ne_zero (b : Nat) (h0 : b ≠ 0) (hp : ∀ k, b ≠ 2 ^ k) :
    b &&& (b - 1) ≠ 0 := by
  obtain ⟨k, r, hb, hr, hpos⟩ : ∃ k r, b = 2 ^ k + r ∧ r < 2 ^ k ∧ 0 < r := by
    have hk1 : 2 ^ Nat.log 2 b ≤ b := Nat.pow_log_le_self 2 h0
    have hk2 : b < 2 ^ (Nat.log 2 b + 1) := Nat.lt_pow_succ_log_self (by decide) b
    have hne : b ≠ 2 ^ Nat.log 2 b := hp _
    rw [Nat.pow_succ] at hk2
    exact ⟨Nat.log 2 b, b - 2 ^ Nat.log 2 b, by omega, by omega, by omega⟩
  subst hb
  have e2 : 2 ^ k + r - 1 = 2 ^ k + (r - 1) := by omega
  have t1 : (2 ^ k + r).testBit k = true := by
    rw [Nat.testBit_two_pow_add_eq, Nat.testBit_lt_two_pow hr]; rfl
  have t2 : (2 ^ k + r - 1).testBit k = true := by
    rw [e2, Nat.testBit_two_pow_add_eq, Nat.testBit_lt_two_pow (by omega)]; rfl
  intro h
  have : ((2 ^ k + r) &&& (2 ^ k + r - 1)).testBit k = true := by
    rw [Nat.testBit_and, t1, t2]; rfl
  rw [h, Nat.zero_testBit] at this
  exact absurd this (by decide)

/-- The block-size test of `detect_amiga_partmap` rejects exactly the values
that are below 256 or no power of two. -/
theorem blocksize_test_iff (w blocksize : Nat) (hlt : blocksize < 2 ^ w) :
    (blocksize < 256 ∨ blocksize &&& ((blocksize + 2 ^ w - 1) % 2 ^ w) ≠ 0) ↔
      ¬ (256 ≤ blocksize ∧ ∃ k, blocksize = 2 ^ k) := by
  constructor
  · intro h hv
    obtain ⟨h256, k, hk⟩ := hv
    exact blocksize_test_pow_two w blocksize k h256 hk hlt h
  · intro h
    by_cases h256 : blocksize < 256
    · exact Or.inl h256
    · right
      have hp : ∀ k, blocksize ≠ 2 ^ k := fun k hk => h ⟨by omega, k, hk⟩
      have h1 : (blocksize + 2 ^ w - 1) % 2 ^ w = blocksize - 1 := by
        have : blocksize + 2 ^ w - 1 = (blocksize - 1) + 2 ^ w := by omega
        rw [this, Nat.add_mod_right, Nat.mod_eq_of_lt (by omega)]
      rw [h1]
      exact and_pred_ne_zero blocksize (by omega) hp

theorem partmap_head_plain (level : Int) (reads : List Event) (off blocksize : Nat)
    (hreads : ∀ e ∈ reads, ∃ p l, e = Event.get_buffer p l) :
    no_partition_object (partmap_head level reads off blocksize) ∧
    (partmap_head level reads off blocksize).filter is_illegal_block_size = [] ∧
    (partmap_head level reads off blocksize).filter is_recursion = [] := by
  have hcase : ∀ e ∈ partmap_head level reads off blocksize,
      (∃ p l, e = Event.get_buffer p l) ∨
      e = Event.add_content_object level (ascii "Amiga rigid disk partition map")
        (ascii "Q55357472") ∨
      e = Event.print_line level (ascii "Amiga Rigid Disk partition map") [] ∨
      e = ev_property_int (ascii "sector") off ∨
      e = Event.print_line level (ascii "Amiga Rigid Disk partition map at sector %d")
        [Arg.int off] ∨
      e = ev_property_u4 (ascii "sector_size") blocksize := by
    intro e he
    unfold partmap_head at he
    simp only [List.mem_append, List.mem_singleton] at he
    rcases he with ((he | he) | he) | he
    · exact Or.inl (hreads e he)
    · exact Or.inr (Or.inl he)
    · split at he
      · simp only [List.mem_singleton] at he
        exact Or.inr (Or.inr (Or.inl he))
      · simp only [List.mem_cons, List.mem_singleton, List.not_mem_nil, or_false] at he
        rcases he with he | he
        · exact Or.inr (Or.inr (Or.inr (Or.inl he)))
        · exact Or.inr (Or.inr (Or.inr (Or.inr (Or.inl he))))
    · exact Or.inr (Or.inr (Or.inr (Or.inr (Or.inr he))))
  refine ⟨?_, ?_, ?_⟩
  · intro l t wd hm
    rcases hcase _ hm with ⟨p, n, h⟩ | h | h | h | h | h
    · exact absurd h (by simp)
    · injection h with _ h2 _
      rw [h2]; decide
    · exact absurd h (by simp)
    · exact absurd h (by simp [ev_property_int])
    · exact absurd h (by simp)
    · exact absurd h (by simp [ev_property_u4])
  · rw [List.filter_eq_nil_iff]
    intro e he
    rcases hcase e he with ⟨p, n, h⟩ | h | h | h | h | h <;> rw [h] <;>
      simp only [is_illegal_block_size, ev_property_int, ev_property_u4] <;>
      decide
  · rw [List.filter_eq_nil_iff]
    intro e he
    rcases hcase e he with ⟨p, n, h⟩ | h | h | h | h | h <;> rw [h] <;>
      simp only [is_recursion, ev_property_int, ev_property_u4] <;>
      decide

/-- C23. For a map block found by the scan, with `b` the big-endian block-size
field at its offset 16: the test of the code rejects exactly the values that
are below 256 or no power of two. When `b >= 256` is a power of two,
`detect_amiga_partmap` walks the partition list (its calls are the head, the
note on an unusual size, and those of the walk); otherwise its calls end with
the one diagnostic `Illegal block size`, and they record no `Partition` object
and start no recursion. -/
theorem detect_amiga_partmap_block_size (lib : Lib) (w : Nat)
    (get_buffer : Nat → Nat → List Nat) (level latin1 : Int) (fuel : Nat)
    (reads : List Event) (off : Nat) (buf : List Nat)
    (hw : 32 ≤ w) (hbytes : ∀ x ∈ buf, x < 256)
    (hfound : find_rdsk get_buffer 0 16 = (reads, some (off, buf))) :
    ((get_be_long buf 16 < 256 ∨
        get_be_long buf 16 &&& ((get_be_long buf 16 + 2 ^ w - 1) % 2 ^ w) ≠ 0) ↔
      ¬ (256 ≤ get_be_long buf 16 ∧ ∃ k, get_be_long buf 16 = 2 ^ k)) ∧
    ((256 ≤ get_be_long buf 16 ∧ ∃ k, get_be_long buf 16 = 2 ^ k) →
      detect_amiga_partmap lib w get_buffer level fuel =
        (partition_walk lib w get_buffer level fuel 1 (get_be_long buf 28)).map fun walk =>
          partmap_head level reads off (get_be_long buf 16) ++
            (if get_be_long buf 16 ≠ 512 then
              [Event.print_line (level + 1)
                (ascii "Unusual block size %lu, not sure this will work...")
                [Arg.ulong (get_be_long buf 16)]]
             else []) ++ walk) ∧
    (¬ (256 ≤ get_be_long buf 16 ∧ ∃ k, get_be_long buf 16 = 2 ^ k) →
      ∃ trace, detect_amiga_partmap lib w get_buffer level fuel = some trace ∧
        trace = partmap_head level reads off (get_be_long buf 16) ++
          [Event.print_line (level + 1) (ascii "Illegal block size %lu")
            [Arg.ulong (get_be_long buf 16)]] ∧
        trace.filter is_illegal_block_size =
          [Event.print_line (level + 1) (ascii "Illegal block size %lu")
            [Arg.ulong (get_be_long buf 16)]] ∧
        partition_records latin1 trace = [] ∧
        trace.filter is_recursion = []) := by
  have hlt : get_be_long buf 16 < 2 ^ w :=
    lt_of_lt_of_le (get_be_long_lt buf 16 hbytes) (Nat.pow_le_pow_right (by decide) hw)
  have hiff := blocksize_test_iff w (get_be_long buf 16) hlt
  have hreads : ∀ e ∈ reads, ∃ p l, e = Event.get_buffer p l := by
    have h := find_rdsk_reads get_buffer 16 0
    rw [hfound] at h
    exact h
  obtain ⟨hnp, hnd, hnr⟩ := partmap_head_plain level reads off (get_be_long buf 16) hreads
  refine ⟨hiff, ?_, ?_⟩
  · intro hv
    have htest := hiff.not.mpr (not_not.mpr hv)
    unfold detect_amiga_partmap partmap_head
    rw [hfound]
    simp only [if_neg htest]
    cases partition_walk lib w get_buffer level fuel 1 (get_be_long buf 28) <;> rfl
  · intro hv
    have htest := hiff.mpr hv
    refine ⟨_, ?_, rfl, ?_, ?_, ?_⟩
    · unfold detect_amiga_partmap partmap_head
      rw [hfound]
      simp only [if_pos htest]
    · rw [List.filter_append, hnd, List.nil_append]
      rfl
    · have hplain : no_partition_object
          (partmap_head level reads off (get_be_long buf 16) ++
            [Event.print_line (level + 1) (ascii "Illegal block size %lu")
              [Arg.ulong (get_be_long buf 16)]]) := by
        intro l t wd hm
        rcases List.mem_append.mp hm with h | h
        · exact hnp l t wd h
        · rw [List.mem_singleton] at h
          exact absurd h (by simp)
      have h := partition_records_skip latin1 [] _ hplain
      rw [List.append_nil] at h
      rw [h]
      rfl
    · rw [List.filter_append, hnr, List.nil_append]
      rfl

/-- C23 witness: the example map with block size 1024 is walked, and the
example map with block size 768 ends with the one diagnostic line. -/
theorem detect_amiga_partmap_block_size_witness :
    detect_amiga_partmap Lib.blank 64 amiga_example_get_buffer 0 2 =
      (partition_walk Lib.blank 64 amiga_example_get_buffer 0 2 1
          (get_be_long amiga_example_rdsk 28)).map (fun walk =>
        partmap_head 0 [Event.get_buffer 0 512] 0 (get_be_long amiga_example_rdsk 16) ++
          (if get_be_long amiga_example_rdsk 16 ≠ 512 then
            [Event.print_line (0 + 1)
              (ascii "Unusual block size %lu, not sure this will work...")
              [Arg.ulong (get_be_long amiga_example_rdsk 16)]]
           else []) ++ walk) ∧
    ∃ trace, detect_amiga_partmap Lib.blank 64 amiga_example_768_get_buffer 0 2 = some trace ∧
      trace.filter is_illegal_block_size =
        [Event.print_line (0 + 1) (ascii "Illegal block size %lu") [Arg.ulong 768]] ∧
      partition_records 0 trace = [] ∧
      trace.filter is_recursion = [] := by
  refine ⟨(detect_amiga_partmap_block_size Lib.blank 64 amiga_example_get_buffer 0 0 2
      [Event.get_buffer 0 512] 0 amiga_example_rdsk (by decide) (by decide) (by decide)).2.1
      ⟨by decide, 10, by decide⟩, ?_⟩
  obtain ⟨trace, h1, _, h3, h4, h5⟩ :=
    (detect_amiga_partmap_block_size Lib.blank 64 amiga_example_768_get_buffer 0 0 2
      [Event.get_buffer 0 512] 0 amiga_example_rdsk_768 (by decide) (by decide) (by decide)).2.2
      (by
        rintro ⟨_, k, hk⟩
        have h768 : get_be_long amiga_example_rdsk_768 16 = 768 := by decide
        rw [h768] at hk
        have hlt : k < 10 := by
          by_contra hge
          have : 2 ^ 10 ≤ 2 ^ k := Nat.pow_le_pow_right (by decide) (not_lt.mp hge)
          omega
        interval_cases k <;> omega)
  exact ⟨trace, h1, h3, h4, h5⟩

/-- C24. On a table of contents with one data track of 100 sectors (204800
bytes) at frame 0, `analyze_cdaccess` starts one analysis, at byte 0 and of
size (100 - 250) * 2048 in 64-bit unsigned arithmetic, which is
18446744073709244416 bytes and more than the track has. -/
theorem analyze_cdaccess_short_data_track :
    (analyze_cdaccess Lib.blank 64 toc_short_track 0).map
        (fun r => (r.1, r.2.filter is_recursion)) =
      some (1, [Event.analyze_source_special 1 0 18446744073709244416]) ∧
    (toc_short_track.lba 64 1 - toc_short_track.lba 64 0) * 2048 = 204800 ∧
    toc_short_track.ctrl 0 &&& 4 ≠ 0 := by
  refine ⟨by decide, by decide, by decide⟩

theorem iso_boot_lengths :
    (iso_boot_get_buffer 32768 2048).length = 2048 ∧
    (iso_boot_get_buffer (17 * 2048) 2048).length = 2048 ∧
    (iso_boot_get_buffer (18 * 2048) 2048).length = 2048 ∧
    (iso_boot_get_buffer (19 * 2048) 2048).length = 2048 ∧
    (iso_boot_get_buffer 40960 2048).length = 2048 := by
  have h16 : iso_boot_get_buffer 32768 2048 =
      1 :: ascii "CD001" ++ List.replicate 2042 0 := by rfl
  have h17 : iso_boot_get_buffer (17 * 2048) 2048 =
      0 :: ascii "CD001" ++ [1] ++ ascii "EL TORITO SPECIFICATION" ++ List.replicate 41 0 ++
        [20, 0, 0, 0] ++ List.replicate 1973 0 := by rfl
  have h18 : iso_boot_get_buffer (18 * 2048) 2048 =
      2 :: ascii "CD001" ++ List.replicate 2042 0 := by rfl
  have h19 : iso_boot_get_buffer (19 * 2048) 2048 =
      255 :: ascii "CD001" ++ List.replicate 2042 0 := by rfl
  have h20 : iso_boot_get_buffer 40960 2048 =
      [1, 0] ++ List.replicate 28 0 ++ [0x55, 0xAA] ++ [0x88] ++ List.replicate 2015 0 := by rfl
  have a5 : (ascii "CD001").length = 5 := by decide
  have a23 : (ascii "EL TORITO SPECIFICATION").length = 23 := by decide
  rw [h16, h17, h18, h19, h20]
  simp only [List.length_cons, List.length_append, List.length_replicate, a5, a23,
    List.length_nil]
  decide

theorem dump_boot_catalog_iso_boot :
    dump_boot_catalog Lib.blank 64 iso_boot_get_buffer 40960 2 3 =
      some (Event.get_buffer 40960 2048 ::
        boot_entry_events Lib.blank 64 2 0 (iso_boot_get_buffer 40960 2048) 32) := by
  obtain ⟨_, _, _, _, l20⟩ := iso_boot_lengths
  have hv : ¬ ((iso_boot_get_buffer 40960 2048).getD 0 0 ≠ 0x01 ∨
      (iso_boot_get_buffer 40960 2048).getD 30 0 ≠ 0x55 ∨
      (iso_boot_get_buffer 40960 2048).getD 31 0 ≠ 0xAA) := by decide
  have hloop : boot_catalog_loop Lib.blank 64 iso_boot_get_buffer 40960 2 3 1 2
      ((iso_boot_get_buffer 40960 2048).getD 1 0) (iso_boot_get_buffer 40960 2048) =
      some (boot_entry_events Lib.blank 64 2 0 (iso_boot_get_buffer 40960 2048) 32) := by
    decide
  unfold dump_boot_catalog
  simp only [l20, Nat.lt_irrefl, if_false, if_neg hv, hloop]

/-- What `detect_iso` does on an image with an El Torito boot record at sector
17, a supplementary descriptor at sector 18 and the terminator at sector 19,
with `cat` the calls of `dump_boot_catalog`. -/
theorem detect_iso_boot_then_joliet (lib : Lib) (w : Nat) (get_buffer : Nat → Nat → List Nat)
    (level : Int) (fuel cfuel : Nat) (cat : List Event)
    (l16 : (get_buffer 32768 2048).length = 2048)
    (m16 : memcmp_eq (get_buffer 32768 2048) 0 (1 :: ascii "CD001") = true)
    (l17 : (get_buffer (17 * 2048) 2048).length = 2048)
    (m17 : memcmp_eq (get_buffer (17 * 2048) 2048) 1 (ascii "CD001") = true)
    (t17 : (get_buffer (17 * 2048) 2048).getD 0 0 = 0)
    (el : memcmp_eq (get_buffer (17 * 2048) 2048) 7 (ascii "EL TORITO SPECIFICATION") = true)
    (hcat : dump_boot_catalog lib w get_buffer
      (get_le_long (get_buffer (17 * 2048) 2048) 0x47 * 2048 % 2 ^ 64) (level + 2) cfuel =
        some cat)
    (l18 : (get_buffer (18 * 2048) 2048).length = 2048)
    (m18 : memcmp_eq (get_buffer (18 * 2048) 2048) 1 (ascii "CD001") = true)
    (t18 : (get_buffer (18 * 2048) 2048).getD 0 0 = 2)
    (l19 : (get_buffer (19 * 2048) 2048).length = 2048)
    (m19 : memcmp_eq (get_buffer (19 * 2048) 2048) 1 (ascii "CD001") = true)
    (t19 : (get_buffer (19 * 2048) 2048).getD 0 0 = 255) :
    detect_iso lib w get_buffer level (fuel + 3) cfuel =
      some (Event.get_buffer 32768 2048 :: iso_volume_events lib level (get_buffer 32768 2048) ++
        (Event.get_buffer (17 * 2048) 2048 ::
          ([Event.print_line (level + 1) (ascii "El Torito boot record, catalog at %llu")
              [Arg.ullong (get_le_long (get_buffer (17 * 2048) 2048) 0x47)],
            ev_property_u8 (ascii "el_torito_boot_record")
              (get_le_long (get_buffer (17 * 2048) 2048) 0x47)] ++ cat) ++
          (Event.get_buffer (18 * 2048) 2048 ::
            [Event.print_line (level + 1) (ascii "Joliet extension, volume name \"%s\"")
              [Arg.str (trim_blanks (lib.format_utf16_be
                ((get_buffer (18 * 2048) 2048).drop 40) 32))],
            Event.add_property (ascii "joliet_extension")
              (trim_blanks (lib.format_utf16_be ((get_buffer (18 * 2048) 2048).drop 40) 32))] ++
            [Event.get_buffer (19 * 2048) 2048]))) := by
  have hd17 : iso_descriptor_events lib w get_buffer level cfuel 17
      (get_buffer (17 * 2048) 2048) =
      some ([Event.print_line (level + 1) (ascii "El Torito boot record, catalog at %llu")
              [Arg.ullong (get_le_long (get_buffer (17 * 2048) 2048) 0x47)],
            ev_property_u8 (ascii "el_torito_boot_record")
              (get_le_long (get_buffer (17 * 2048) 2048) 0x47)] ++ cat) := by
    unfold iso_descriptor_events
    simp only [t17, if_true, el, not_true_eq_false, if_false, hcat]
  have hd18 : iso_descriptor_events lib w get_buffer level cfuel 18
      (get_buffer (18 * 2048) 2048) =
      some [Event.print_line (level + 1) (ascii "Joliet extension, volume name \"%s\"")
          [Arg.str (trim_blanks (lib.format_utf16_be
            ((get_buffer (18 * 2048) 2048).drop 40) 32))],
        Event.add_property (ascii "joliet_extension")
          (trim_blanks (lib.format_utf16_be ((get_buffer (18 * 2048) 2048).drop 40) 32))] := by
    unfold iso_descriptor_events
    simp only [t18]
    rfl
  have s17 : ¬ 2 ^ 31 ≤ 17 * 2048 := by decide
  have s18 : ¬ 2 ^ 31 ≤ 18 * 2048 := by decide
  have s19 : ¬ 2 ^ 31 ≤ 19 * 2048 := by decide
  have h19 : ∀ f, iso_sector_loop lib w get_buffer level cfuel (f + 1) 19 =
      some [Event.get_buffer (19 * 2048) 2048] := by
    intro f
    rw [iso_sector_loop, if_neg s19]
    simp only [l19, Nat.lt_irrefl, if_false, m19, not_true_eq_false, t19, if_true]
  have h18 : ∀ f, iso_sector_loop lib w get_buffer level cfuel (f + 2) 18 =
      some (Event.get_buffer (18 * 2048) 2048 ::
        [Event.print_line (level + 1) (ascii "Joliet extension, volume name \"%s\"")
          [Arg.str (trim_blanks (lib.format_utf16_be
            ((get_buffer (18 * 2048) 2048).drop 40) 32))],
        Event.add_property (ascii "joliet_extension")
          (trim_blanks (lib.format_utf16_be ((get_buffer (18 * 2048) 2048).drop 40) 32))] ++
        [Event.get_buffer (19 * 2048) 2048]) := by
    intro f
    rw [iso_sector_loop, if_neg s18]
    have t : (get_buffer (18 * 2048) 2048).getD 0 0 ≠ 255 := by rw [t18]; decide
    simp only [l18, Nat.lt_irrefl, if_false, m18, not_true_eq_false, if_neg t, hd18, h19 f]
  unfold detect_iso
  simp only [l16, Nat.lt_irrefl, if_false, m16, not_true_eq_false]
  rw [iso_sector_loop, if_neg s17]
  have t : (get_buffer (17 * 2048) 2048).getD 0 0 ≠ 255 := by rw [t17]; decide
  simp only [l17, Nat.lt_irrefl, if_false, m17, not_true_eq_false, if_neg t, hd17, h18 fuel]

/-- C25. On the example image, whose boot record at sector 17 has a catalog
with one boot entry and whose supplementary descriptor follows at sector 18,
the calls of `detect_iso` leave two objects in the log: `ISO9660` with the
properties volume_name, block_size, volume_size and el_torito_boot_record, and
`Disk Image`, which holds `joliet_extension` after its own five properties. -/
theorem detect_iso_joliet_on_disk_image :
    ((detect_iso Lib.blank 64 iso_boot_get_buffer 0 4 3).bind fun trace =>
        run (reset_json State.initial) (log_ops trace)).map (fun s => object_keys s 2) =
      some [(ascii "ISO9660",
          [ascii "volume_name", ascii "block_size", ascii "volume_size",
           ascii "el_torito_boot_record"]),
        (ascii "Disk Image",
          [ascii "bootable", ascii "source", ascii "start_sector", ascii "platform",
           ascii "mbr_type", ascii "joliet_extension"])] := by
  obtain ⟨l16, l17, l18, l19, _⟩ := iso_boot_lengths
  have hbc : get_le_long (iso_boot_get_buffer (17 * 2048) 2048) 0x47 = 20 := by decide
  have hvol : iso_volume_events Lib.blank 0 (iso_boot_get_buffer 32768 2048) =
      [Event.print_line 0 (ascii "ISO9660 file system") [],
       Event.print_line 1 (ascii "Volume name \"%s\"") [Arg.str []],
       Event.add_content_object 0 (ascii "ISO9660") (ascii "Q55336682"),
       Event.add_property (ascii "volume_name") [],
       Event.print_line 1 (ascii "Data size %s") [Arg.str []],
       ev_property_u8 (ascii "block_size") 0,
       ev_property_u8 (ascii "volume_size") 0] := by decide
  have hent : boot_entry_events Lib.blank 64 2 0 (iso_boot_get_buffer 40960 2048) 32 =
      [Event.print_line 2 (ascii "%s %s image, starts at %lu, preloads %s")
        [Arg.str (ascii "Bootable"), Arg.str (ascii "non-emulated"), Arg.ulong 0, Arg.str []],
       Event.print_line 3 (ascii "Platform 0x%02X (%s), System Type 0x%02X (%s)")
        [Arg.int 0, Arg.str (ascii "x86"), Arg.int 0, Arg.str []],
       Event.add_content_object 2 (ascii "Disk Image") (ascii "Q592312"),
       Event.add_property (ascii "bootable") (ascii "true"),
       Event.add_property (ascii "source") (ascii "non-emulated"),
       ev_property_u4 (ascii "start_sector") 0,
       Event.add_property (ascii "platform") (ascii "x86"),
       Event.add_property (ascii "mbr_type") []] := by decide
  have hj : trim_blanks (Lib.blank.format_utf16_be
      ((iso_boot_get_buffer (18 * 2048) 2048).drop 40) 32) = [] := rfl
  have h := detect_iso_boot_then_joliet Lib.blank 64 iso_boot_get_buffer 0 1 3
    (Event.get_buffer 40960 2048 ::
      boot_entry_events Lib.blank 64 2 0 (iso_boot_get_buffer 40960 2048) 32)
    l16 (by decide) l17 (by decide) (by decide) (by decide)
    (by rw [hbc]; exact dump_boot_catalog_iso_boot)
    l18 (by decide) (by decide) l19 (by decide) (by decide)
  rw [hvol, hent, hj, hbc] at h
  rw [h]
  rfl

/-- C26. A String initialised with `init_size = 1` and given one char has
`used_size = 2` and `total_size = 1`: the full buffer of size 1 "grows" to
floor(1.5 * 1) = 1. From `init_size >= 2` on, `used_size <= total_size` holds
after every sequence of insertions, and the buffer of the test grows 3, 4, 6. -/
theorem insert_single_char_size_one :
    (initialize_String 1).map (fun str => insert_single_char str 97) =
      some ⟨2, 1, [97, 0]⟩ ∧
    (∀ init_size str ops, 2 ≤ init_size → initialize_String init_size = some str →
      (string_run str ops).used_size ≤ (string_run str ops).total_size) ∧
    (initialize_String 3).map (fun str =>
        [1, 2, 3, 4].map fun k =>
          (string_run str ((ascii "abcd").take k |>.map StringOp.single_char)).total_size) =
      some [3, 3, 4, 6] := by
  refine ⟨by decide, ?_, by decide⟩
  intro init_size str ops h2 hinit
  unfold initialize_String at hinit
  rw [if_pos (by omega)] at hinit
  cases hinit
  exact (string_run_fits ops _ ⟨by show 1 ≤ init_size; omega, h2⟩).1

theorem escape_byte_length (b : Nat) : (escape_byte b).length ≤ 6 := by
  unfold escape_byte
  split
  · decide
  · split
    · exact Nat.le_refl 6
    · exact Nat.le_of_lt (by decide : 1 < 6)

theorem flatMap_escape_length (l : List Nat) :
    (l.flatMap escape_byte).length ≤ 6 * l.length := by
  induction l with
  | nil => exact Nat.le_refl 0
  | cons b l ih =>
    rw [List.flatMap_cons, List.length_append, List.length_cons]
    have := escape_byte_length b
    omega

/-- C27. For every array of bytes whose C string has length `n` (with `7 * n`
in the `int` range), the buffer that `clean_char` allocates has
`max 1 (7 * n)` chars; the loop writes at most `6 * n` chars, at most 6 per
input byte, so the index of the closing NUL is inside the buffer, and the
output with its NUL has at most `max 1 (7 * n)` chars. -/
theorem clean_char_fits_buffer (latin1 : Int) (value : List Nat)
    (hb : ∀ b ∈ value, b < 256) (hn : strlen value * 7 < 2 ^ 31) :
    clean_buffer_size value = some (max 1 (7 * strlen value)) ∧
    (clean_char_loop value []).length ≤ 6 * strlen value ∧
    (clean_char_loop value []).length < max 1 (7 * strlen value) ∧
    (latin1 ≠ 0 → (clean_char latin1 value).length ≤ max 1 (7 * strlen value)) ∧
    (latin1 ≠ 0 → strlen (clean_char latin1 value) + 1 ≤ max 1 (7 * strlen value)) ∧
    ∀ b, b < 256 → ∀ clean, (clean_char_loop [b] clean).length ≤ clean.length + 6 := by
  have hloop := clean_char_loop_eq value hb []
  rw [List.nil_append] at hloop
  have hlen : (clean_char_loop value []).length ≤ 6 * strlen value := by
    rw [hloop]
    exact flatMap_escape_length _
  have hlt : (clean_char_loop value []).length < max 1 (7 * strlen value) := by
    rcases Nat.eq_zero_or_pos (strlen value) with h0 | hpos
    · rw [h0] at hlen ⊢
      have : (clean_char_loop value []).length = 0 := by omega
      rw [this]
      decide
    · have : 7 * strlen value ≤ max 1 (7 * strlen value) := Nat.le_max_right _ _
      omega
  refine ⟨?_, hlen, hlt, ?_, ?_, ?_⟩
  · unfold clean_buffer_size
    rw [if_pos hn, Nat.mul_comm]
  · intro hl
    unfold clean_char
    rw [if_neg hl, List.length_append, List.length_singleton]
    exact hlt
  · intro hl
    have hz : ∀ c ∈ clean_char_loop value [], c ≠ 0 := by
      intro c hc
      rw [hloop, List.mem_flatMap] at hc
      obtain ⟨b, hbm, hcb⟩ := hc
      have hbv : b ∈ value := (List.takeWhile_prefix _).subset hbm
      exact escape_byte_ne_zero b (hb b hbv) (c_str_ne_zero value b hbm) c hcb
    unfold clean_char strlen
    rw [if_neg hl, c_str_append_nul _ [] hz]
    exact hlt
  · intro b hb1 clean
    have h := clean_char_loop_eq [b] (by intro x hx; rw [List.mem_singleton] at hx; omega) clean
    rw [h, List.length_append]
    have h1 := flatMap_escape_length (c_str [b])
    have h2 : (c_str [b]).length ≤ 1 := by
      unfold c_str
      exact (List.takeWhile_prefix _).length_le
    omega

/-- C27 witness: the string of a percent sign, a double quote and `a`. -/
theorem clean_char_fits_buffer_witness :
    clean_buffer_size [37, 34, 97, 0] = some 21 ∧
    (clean_char 1 [37, 34, 97, 0]).length = 10 := by
  have h := clean_char_fits_buffer 1 [37, 34, 97, 0] (by decide) (by decide)
  exact ⟨h.1.trans (by decide), by decide⟩

theorem dropWhile_dropWhile_of_imp {α : Type} (p q : α → Bool)
    (h : ∀ x, q x = true → p x = true) (l : List α) :
    (l.dropWhile q).dropWhile p = l.dropWhile p := by
  induction l with
  | nil => rfl
  | cons a l ih =>
    by_cases hq : q a = true
    · rw [List.dropWhile_cons_of_pos hq, List.dropWhile_cons_of_pos (h a hq), ih]
    · rw [List.dropWhile_cons_of_neg hq]

theorem nearest_lower_unique (lev : Nat → Int) (L : Int) (x : Nat) (p p1 : Int)
    (h : nearest_lower lev L x p) (h1 : nearest_lower lev L x p1) : p = p1 := by
  rcases h with ⟨e, hall⟩ | ⟨q, e, hq, hlev, hmax⟩
  · rcases h1 with ⟨e1, _⟩ | ⟨q1, _, hq1, hlev1, _⟩
    · rw [e, e1]
    · exact absurd hlev1 (hall q1 hq1)
  · rcases h1 with ⟨_, hall1⟩ | ⟨q1, e1, hq1, hlev1, hmax1⟩
    · exact absurd hlev (hall1 q hq)
    · rw [e, e1]
      rcases Nat.lt_trichotomy q q1 with hlt | heq | hgt
      · exact absurd hlev1 (hmax q1 hlt hq1)
      · rw [heq]
      · exact absurd hlev (hmax1 q hgt hq)

theorem stack_answers_nil (lev : Nat → Int) : stack_answers lev [] 0 := by
  intro L
  left
  exact ⟨rfl, fun j hj => absurd hj (Nat.not_lt_zero j)⟩

theorem stack_answers_push (lev : Nat → Int) (stack : List (Nat × Int)) (i : Nat)
    (h : stack_answers lev stack i) :
    stack_answers lev
      ((i, lev i) :: stack.dropWhile fun p => decide (lev i ≤ p.2)) (i + 1) := by
  intro L
  by_cases hL : L ≤ lev i
  · have hpop : List.dropWhile (fun p : Nat × Int => decide (L ≤ p.2))
        ((i, lev i) :: stack.dropWhile fun p => decide (lev i ≤ p.2)) =
        List.dropWhile (fun p : Nat × Int => decide (L ≤ p.2))
          (stack.dropWhile fun p => decide (lev i ≤ p.2)) :=
      List.dropWhile_cons_of_pos (decide_eq_true hL)
    rw [hpop]
    rw [dropWhile_dropWhile_of_imp (fun p : Nat × Int => decide (L ≤ p.2))
      (fun p : Nat × Int => decide (lev i ≤ p.2))
      (fun x hx => decide_eq_true (le_trans hL (of_decide_eq_true hx)))]
    rcases h L with ⟨e, hall⟩ | ⟨q, e, hq, hlev, hmax⟩
    · left
      refine ⟨e, ?_⟩
      intro j hj
      rcases Nat.lt_succ_iff_lt_or_eq.mp hj with hlt | heq
      · exact hall j hlt
      · rw [heq]; omega
    · right
      refine ⟨q, e, Nat.lt_succ_of_lt hq, hlev, ?_⟩
      intro j h1 h2
      rcases Nat.lt_succ_iff_lt_or_eq.mp h2 with hlt | heq
      · exact hmax j h1 hlt
      · rw [heq]; omega
  · have hstay : List.dropWhile (fun p : Nat × Int => decide (L ≤ p.2))
        ((i, lev i) :: stack.dropWhile fun p => decide (lev i ≤ p.2)) =
        (i, lev i) :: stack.dropWhile fun p => decide (lev i ≤ p.2) :=
      List.dropWhile_cons_of_neg (fun hd => hL (of_decide_eq_true hd))
    rw [hstay]
    right
    refine ⟨i, rfl, Nat.lt_succ_self i, by omega, ?_⟩
    intro j h1 h2
    omega

theorem stack_parents_aux_length (levels : List Int) :
    ∀ stack i, (stack_parents_aux stack i levels).length = levels.length := by
  induction levels with
  | nil => intro stack i; rfl
  | cons L rest ih =>
    intro stack i
    simp only [stack_parents_aux, List.length_cons, ih]

/-- Each parent id that the stack assigns is the answer of the backward scan
for the object's own level. -/
theorem stack_parents_aux_nearest (lev : Nat → Int) (rest : List Int) :
    ∀ stack i, stack_answers lev stack i → (∀ k, k < rest.length → rest.getD k 0 = lev (i + k)) →
      ∀ k, k < rest.length →
        nearest_lower lev (lev (i + k)) (i + k) ((stack_parents_aux stack i rest).getD k 0) := by
  induction rest with
  | nil => intro stack i _ _ k hk; exact absurd hk (Nat.not_lt_zero k)
  | cons L rest ih =>
    intro stack i hst hlev k hk
    have hL : L = lev i := by
      have := hlev 0 (Nat.zero_lt_succ _)
      simpa using this
    subst hL
    cases k with
    | zero =>
      simp only [stack_parents_aux, List.getD_cons_zero, Nat.add_zero]
      exact hst (lev i)
    | succ k =>
      simp only [stack_parents_aux, List.getD_cons_succ]
      have h := ih ((i, lev i) :: stack.dropWhile fun p => decide (lev i ≤ p.2)) (i + 1)
        (stack_answers_push lev stack i hst)
        (by
          intro k1 hk1
          have := hlev (k1 + 1) (Nat.succ_lt_succ hk1)
          rw [List.getD_cons_succ] at this
          rw [this]
          congr 1
          omega)
        k (Nat.lt_of_succ_lt_succ hk)
      have e : i + 1 + k = i + (k + 1) := by omega
      rw [e] at h
      exact h

/-- C28. For every sequence of `add_content_object` calls with non-negative
levels that fits the log (at most 500 objects), made on a reset log: the calls
succeed, the parent id stored with object `i` is `identify_parent_id` evaluated
on the log as it was before call `i`, and the list of these parent ids is the
one that the stack of open ancestors assigns to the sequence of levels. -/
theorem stack_parents_eq_backward_scan (s0 : State)
    (calls : List (Int × List Nat × List Nat))
    (hnn : ∀ c ∈ calls, 0 ≤ c.1) (hcap : calls.length ≤ MAX_OBJECTS) :
    ∃ s, run (reset_json s0) (object_ops calls) = some s ∧
      (List.range calls.length).map (fun i => (s.given_file.content i).parent_id) =
        stack_parents (calls.map fun c => c.1) ∧
      ∀ i c, calls[i]? = some c →
        ∃ si, run (reset_json s0) (object_ops (calls.take i)) = some si ∧
          (s.given_file.content i).parent_id = identify_parent_id si c.1 := by
  obtain ⟨s, hrun, hid, _, _, hobj⟩ := run_object_ops calls (reset_json s0) rfl
    (by show 0 + calls.length ≤ MAX_OBJECTS; omega)
  have hid0 : s.id = calls.length := by
    rw [hid]; show 0 + calls.length = calls.length; omega
  have hpar := parents_ok_run (object_ops calls) (parents_ok_reset s0) hrun
  have hlev : ∀ k, k < calls.length →
      (calls.map fun c => c.1).getD k 0 = (s.given_file.content (0 + k)).level ∧
      0 ≤ (s.given_file.content (0 + k)).level := by
    intro k hk
    have hc : calls[k]? = some calls[k] := List.getElem?_eq_getElem hk
    obtain ⟨_, hl, _⟩ := hobj k calls[k] hc
    have hl1 : (s.given_file.content (0 + k)).level = calls[k].1 := hl
    rw [hl1]
    refine ⟨?_, hnn _ (List.getElem_mem hk)⟩
    rw [List.getD_eq_getElem?_getD, List.getElem?_map, hc]
    rfl
  refine ⟨s, hrun, ?_, ?_⟩
  · apply List.ext_getElem
    · rw [List.length_map, List.length_range]
      have hl := stack_parents_aux_length (calls.map fun c => c.1) [] 0
      rw [List.length_map] at hl
      exact hl.symm
    · intro x h1 h2
      rw [List.length_map, List.length_range] at h1
      rw [List.getElem_map, List.getElem_range]
      have hstack := stack_parents_aux_nearest (fun j => (s.given_file.content j).level)
        (calls.map fun c => c.1) [] 0 (stack_answers_nil _)
        (by
          intro k hk
          rw [List.length_map] at hk
          exact (hlev k hk).1)
        x (by rw [List.length_map]; exact h1)
      have e0 : 0 + x = x := Nat.zero_add x
      rw [e0] at hstack
      have hget : (stack_parents_aux [] 0 (calls.map fun c => c.1)).getD x 0 =
          (stack_parents (calls.map fun c => c.1))[x] := by
        have h3 : x < (stack_parents_aux [] 0 (calls.map fun c => c.1)).length := h2
        rw [List.getD_eq_getElem?_getD, List.getElem?_eq_getElem h3]
        rfl
      rw [hget] at hstack
      refine nearest_lower_unique _ _ _ _ _ ?_ hstack
      obtain ⟨hz, hnz⟩ := hpar x (by rw [hid0]; exact h1)
      by_cases hx0 : (s.given_file.content x).level = 0
      · left
        refine ⟨hz hx0, ?_⟩
        intro j hj
        have := (hlev j (by omega)).2
        rw [Nat.zero_add] at this
        show ¬ (s.given_file.content j).level < (s.given_file.content x).level
        rw [hx0]
        omega
      · exact hnz hx0
  · intro i c hc
    obtain ⟨_, _, _, _, _, si, hsi, hp⟩ := hobj i c hc
    refine ⟨si, hsi, ?_⟩
    have e0 : (reset_json s0).id + i = i := Nat.zero_add i
    rw [e0] at hp
    exact hp

/-- C28 witness: the levels 0, 1, 2, 1, 2, 0, 3 fall and rise again; both ways
assign the parents -1, 0, 1, 0, 3, -1, 5. -/
theorem stack_parents_eq_backward_scan_witness :
    stack_parents [0, 1, 2, 1, 2, 0, 3] = [-1, 0, 1, 0, 3, -1, 5] ∧
    ∃ s, run (reset_json State.initial)
        (object_ops ([0, 1, 2, 1, 2, 0, 3].map fun L => (L, [], []))) = some s ∧
      (List.range 7).map (fun i => (s.given_file.content i).parent_id) =
        [-1, 0, 1, 0, 3, -1, 5] := by
  refine ⟨by decide, ?_⟩
  obtain ⟨s, h1, h2, _⟩ := stack_parents_eq_backward_scan State.initial
    ([0, 1, 2, 1, 2, 0, 3].map fun L => (L, [], [])) (by decide) (by decide)
  exact ⟨s, h1, h2.trans (by decide)⟩

/-- C29. For a boot catalog whose first sector is read in full: if the first
entry does not have byte 0 = 0x01 and bytes 30, 31 = 0x55, 0xAA, the calls of
`dump_boot_catalog` are the read and the one line `Validation entry missing`,
whatever else the sector holds; if it has them and the tag of entry 1 (byte
32) is neither 0x88 nor 0x00, they are the read and the one line
`Initial/Default entry missing`. In both cases no object is created and no
nested analysis is started. -/
theorem dump_boot_catalog_validation (lib : Lib) (w : Nat) (get_buffer : Nat → Nat → List Nat)
    (pos : Nat) (level : Int) (fuel : Nat)
    (hlen : 2048 ≤ (get_buffer pos 2048).length) :
    (((get_buffer pos 2048).getD 0 0 ≠ 0x01 ∨ (get_buffer pos 2048).getD 30 0 ≠ 0x55 ∨
        (get_buffer pos 2048).getD 31 0 ≠ 0xAA) →
      dump_boot_catalog lib w get_buffer pos level fuel =
        some [Event.get_buffer pos 2048,
          Event.print_line level (ascii "Validation entry missing") []]) ∧
    ((get_buffer pos 2048).getD 0 0 = 0x01 → (get_buffer pos 2048).getD 30 0 = 0x55 →
      (get_buffer pos 2048).getD 31 0 = 0xAA →
      (get_buffer pos 2048).getD 32 0 ≠ 0x88 → (get_buffer pos 2048).getD 32 0 ≠ 0x00 →
      dump_boot_catalog lib w get_buffer pos level (fuel + 1) =
        some [Event.get_buffer pos 2048,
          Event.print_line level (ascii "Initial/Default entry missing") []]) := by
  have hl : ¬ (get_buffer pos 2048).length < 2048 := Nat.not_lt.mpr hlen
  constructor
  · intro hv
    unfold dump_boot_catalog
    simp only [if_neg hl, if_pos hv]
  · intro h0 h30 h31 h88 h00
    have hv : ¬ ((get_buffer pos 2048).getD 0 0 ≠ 0x01 ∨
        (get_buffer pos 2048).getD 30 0 ≠ 0x55 ∨ (get_buffer pos 2048).getD 31 0 ≠ 0xAA) := by
      rw [h0, h30, h31]; decide
    have hloop : boot_catalog_loop lib w get_buffer pos level (fuel + 1) 1 2
        ((get_buffer pos 2048).getD 1 0) (get_buffer pos 2048) =
        some [Event.print_line level (ascii "Initial/Default entry missing") []] := by
      rw [boot_catalog_loop]
      have e1 : ¬ ¬ (1 < 2 + 1) := by decide
      have e2 : ¬ 2 ^ 31 ≤ 1 * 32 := by decide
      have e3 : ¬ (1 % 64 = 0) := by decide
      have e4 : 1 * 32 % 2048 = 32 := by decide
      have e5 : ¬ 2 ≤ 1 := by decide
      simp only [if_neg e1, if_neg e2, e3, if_false, false_and, e4, e5, true_and, h88, h00,
        or_self, not_false_eq_true, if_true, List.nil_append]
    unfold dump_boot_catalog
    simp only [if_neg hl, if_neg hv, hloop]

theorem catalog_example_lengths :
    (catalog_example_get_buffer 0 2048).length = 2048 ∧
    (catalog_invalid_get_buffer 0 2048).length = 2048 := by
  have h1 : catalog_example_get_buffer 0 2048 =
      [1, 0] ++ List.replicate 28 0 ++ [0x55, 0xAA] ++ [0x44] ++ List.replicate 2015 0 := by
    rfl
  have h2 : catalog_invalid_get_buffer 0 2048 =
      [1, 0] ++ List.replicate 30 0 ++ [0x88] ++ List.replicate 7 0 ++ [1] ++
        List.replicate 2007 0 := by rfl
  rw [h1, h2]
  simp only [List.length_cons, List.length_append, List.length_replicate, List.length_nil]
  decide

/-- C29 witness: a catalog whose first entry lacks the key bytes and whose
entry 1 is a bootable entry with start sector 1, and a catalog with a valid
first entry whose entry 1 has the tag 0x44. -/
theorem dump_boot_catalog_validation_witness :
    dump_boot_catalog Lib.blank 64 catalog_invalid_get_buffer 0 2 5 =
      some [Event.get_buffer 0 2048,
        Event.print_line 2 (ascii "Validation entry missing") []] ∧
    dump_boot_catalog Lib.blank 64 catalog_example_get_buffer 0 2 (4 + 1) =
      some [Event.get_buffer 0 2048,
        Event.print_line 2 (ascii "Initial/Default entry missing") []] := by
  obtain ⟨l1, l2⟩ := catalog_example_lengths
  exact ⟨(dump_boot_catalog_validation Lib.blank 64 catalog_invalid_get_buffer 0 2 5
      (by rw [l2])).1 (by decide),
    (dump_boot_catalog_validation Lib.blank 64 catalog_example_get_buffer 0 2 4
      (by rw [l1])).2 (by decide) (by decide) (by decide) (by decide) (by decide)⟩

theorem offered_lookup_cons (latin1 : Int) (k key value : List Nat)
    (rest : List (List Nat × List Nat)) :
    (offered latin1 ((key, value) :: rest)).lookup k =
      if k = c_str key then some (c_str (clean_char latin1 value))
      else (offered latin1 rest).lookup k := by
  unfold offered
  rw [List.map_cons, List.lookup_cons]
  by_cases h : k = c_str key
  · rw [if_pos h]
    have hb : (k == c_str key) = true := by simpa using h
    simp only [hb]
  · rw [if_neg h]
    have hb : (k == c_str key) = false := by simpa using h
    simp only [hb]

theorem offered_lookup_nil (latin1 : Int) (k : List Nat) :
    (offered latin1 []).lookup k = none := rfl

theorem clean_char_of_plain (latin1 : Int) (v : List Nat) (h0 : c_str v = v)
    (h1 : c_str (clean_char_loop v [] ++ [0]) = v) : c_str (clean_char latin1 v) = v := by
  unfold clean_char
  split
  · exact h0
  · exact h1

theorem eltorito_platform_names (id : Int) :
    get_name_for_eltorito_platform id ∈
      [ascii "x86", ascii "PowerPC", ascii "Macintosh", ascii "EFI", ascii "unknown"] ∧
    ∀ latin1, c_str (clean_char latin1 (get_name_for_eltorito_platform id)) =
      get_name_for_eltorito_platform id := by
  unfold get_name_for_eltorito_platform
  split
  · exact ⟨by decide, fun l => clean_char_of_plain l _ (by decide) (by decide)⟩
  · split
    · exact ⟨by decide, fun l => clean_char_of_plain l _ (by decide) (by decide)⟩
    · split
      · exact ⟨by decide, fun l => clean_char_of_plain l _ (by decide) (by decide)⟩
      · split
        · exact ⟨by decide, fun l => clean_char_of_plain l _ (by decide) (by decide)⟩
        · exact ⟨by decide, fun l => clean_char_of_plain l _ (by decide) (by decide)⟩

/-- The calls of the `switch (media)` are `add_property` calls only. -/
theorem media_events_calls (m : Nat) (latin1 : Int) (name : List Nat) (rest : List Event) :
    property_calls (media_events m ++ rest) =
      property_calls (media_events m) ++ property_calls rest ∧
    object_records latin1 name (media_events m ++ rest) = object_records latin1 name rest := by
  unfold media_events
  split_ifs <;> exact ⟨rfl, rfl⟩

/-- What the `switch (media)` offers for the keys `source` and `floppy_size`. -/
theorem media_events_lookup (m : Nat) (latin1 : Int) (rest : List (List Nat × List Nat))
    (hf : (offered latin1 rest).lookup (ascii "floppy_size") = none) :
    (offered latin1 (property_calls (media_events m) ++ rest)).lookup (ascii "source") =
      some (if m = 0 then ascii "non-emulated"
        else if m = 1 ∨ m = 2 ∨ m = 3 then ascii "floppy"
        else if m = 4 then ascii "hard_disk" else ascii "unknown") ∧
    (offered latin1 (property_calls (media_events m) ++ rest)).lookup (ascii "floppy_size") =
      (if m = 1 then some (ascii "1.2") else if m = 2 then some (ascii "1.44")
        else if m = 3 then some (ascii "2.88") else none) := by
  have c1 : c_str (clean_char latin1 (ascii "non-emulated")) = ascii "non-emulated" :=
    clean_char_of_plain _ _ (by decide) (by decide)
  have c2 : c_str (clean_char latin1 (ascii "floppy")) = ascii "floppy" :=
    clean_char_of_plain _ _ (by decide) (by decide)
  have c3 : c_str (clean_char latin1 (ascii "hard_disk")) = ascii "hard_disk" :=
    clean_char_of_plain _ _ (by decide) (by decide)
  have c4 : c_str (clean_char latin1 (ascii "unknown")) = ascii "unknown" :=
    clean_char_of_plain _ _ (by decide) (by decide)
  have c5 : c_str (clean_char latin1 (ascii "1.2")) = ascii "1.2" :=
    clean_char_of_plain _ _ (by decide) (by decide)
  have c6 : c_str (clean_char latin1 (ascii "1.44")) = ascii "1.44" :=
    clean_char_of_plain _ _ (by decide) (by decide)
  have c7 : c_str (clean_char latin1 (ascii "2.88")) = ascii "2.88" :=
    clean_char_of_plain _ _ (by decide) (by decide)
  have ks : ascii "source" = c_str (ascii "source") := by decide
  have kf : ascii "floppy_size" = c_str (ascii "floppy_size") := by decide
  have ksf : ¬ ascii "source" = c_str (ascii "floppy_size") := by decide
  have kfs : ¬ ascii "floppy_size" = c_str (ascii "source") := by decide
  by_cases h0 : m = 0
  · subst h0
    have e : property_calls (media_events 0) = [(ascii "source", ascii "non-emulated")] := rfl
    rw [e]
    simp only [List.cons_append, List.nil_append, offered_lookup_cons, if_pos ks, if_neg kfs,
      c1, hf]
    exact ⟨rfl, rfl⟩
  by_cases h1 : m = 1
  · subst h1
    have e : property_calls (media_events 1) =
        [(ascii "source", ascii "floppy"), (ascii "floppy_size", ascii "1.2")] := rfl
    rw [e]
    simp only [List.cons_append, List.nil_append, offered_lookup_cons, if_pos ks, if_neg kfs,
      if_pos kf, c2, c5]
    exact ⟨rfl, rfl⟩
  by_cases h2 : m = 2
  · subst h2
    have e : property_calls (media_events 2) =
        [(ascii "source", ascii "floppy"), (ascii "floppy_size", ascii "1.44")] := rfl
    rw [e]
    simp only [List.cons_append, List.nil_append, offered_lookup_cons, if_pos ks, if_neg kfs,
      if_pos kf, c2, c6]
    exact ⟨rfl, rfl⟩
  by_cases h3 : m = 3
  · subst h3
    have e : property_calls (media_events 3) =
        [(ascii "source", ascii "floppy"), (ascii "floppy_size", ascii "2.88")] := rfl
    rw [e]
    simp only [List.cons_append, List.nil_append, offered_lookup_cons, if_pos ks, if_neg kfs,
      if_pos kf, c2, c7]
    exact ⟨rfl, rfl⟩
  by_cases h4 : m = 4
  · subst h4
    have e : property_calls (media_events 4) =
        [(ascii "source", ascii "hard_disk"), (ascii "source", ascii "unknown")] := rfl
    rw [e]
    simp only [List.cons_append, List.nil_append, offered_lookup_cons, if_pos ks, if_neg kfs,
      c3, hf]
    exact ⟨rfl, rfl⟩
  · have e : property_calls (media_events m) = [(ascii "source", ascii "unknown")] := by
      unfold media_events
      rw [if_neg h0, if_neg h1, if_neg h2, if_neg h3, if_neg h4]
      rfl
    rw [e]
    simp only [List.cons_append, List.nil_append, offered_lookup_cons, if_pos ks, if_neg kfs,
      c4, hf]
    have h123 : ¬ (m = 1 ∨ m = 2 ∨ m = 3) := by omega
    rw [if_neg h0, if_neg h123, if_neg h4, if_neg h1, if_neg h2, if_neg h3]
    exact ⟨rfl, rfl⟩

/-- The `switch (media)` writes no key besides `source` and `floppy_size`. -/
theorem media_events_lookup_other (m : Nat) (latin1 : Int)
    (rest : List (List Nat × List Nat)) (k : List Nat)
    (h1 : k ≠ ascii "source") (h2 : k ≠ ascii "floppy_size") :
    (offered latin1 (property_calls (media_events m) ++ rest)).lookup k =
      (offered latin1 rest).lookup k := by
  have hs : ¬ k = c_str (ascii "source") := by
    have e : c_str (ascii "source") = ascii "source" := by decide
    rw [e]; exact h1
  have hf : ¬ k = c_str (ascii "floppy_size") := by
    have e : c_str (ascii "floppy_size") = ascii "floppy_size" := by decide
    rw [e]; exact h2
  unfold media_events
  split_ifs <;>
    simp only [property_calls, List.cons_append, List.nil_append, offered_lookup_cons,
      if_neg hs, if_neg hf]

/-- C30. The branch of `dump_boot_catalog` for a boot entry records one `Disk
Image` object. With `m` the low nibble of the entry's byte 1, its property
list has `bootable` = `true` exactly when the tag is 0x88 (`false` otherwise),
`source` = `non-emulated` for m = 0, `floppy` for m = 1, 2, 3, `hard_disk` for
m = 4 (the second write of `source` by the fall-through is dropped) and
`unknown` for every other m, `floppy_size` = 1.2, 1.44, 2.88 for m = 1, 2, 3
and absent otherwise, and `platform` one of x86, PowerPC, Macintosh, EFI,
unknown. -/
theorem boot_entry_disk_image (lib : Lib) (w : Nat) (level latin1 : Int) (platform : Nat)
    (buf : List Nat) (off : Nat) :
    ∃ ps, object_records latin1 (ascii "Disk Image")
        (boot_entry_events lib w level platform buf off) = [ps] ∧
      ps.lookup (ascii "bootable") =
        some (if buf.getD off 0 = 0x88 then ascii "true" else ascii "false") ∧
      (ps.lookup (ascii "bootable") = some (ascii "true") ↔ buf.getD off 0 = 0x88) ∧
      ps.lookup (ascii "source") =
        some (if buf.getD (off + 1) 0 % 16 = 0 then ascii "non-emulated"
          else if buf.getD (off + 1) 0 % 16 = 1 ∨ buf.getD (off + 1) 0 % 16 = 2 ∨
            buf.getD (off + 1) 0 % 16 = 3 then ascii "floppy"
          else if buf.getD (off + 1) 0 % 16 = 4 then ascii "hard_disk"
          else ascii "unknown") ∧
      ps.lookup (ascii "floppy_size") =
        (if buf.getD (off + 1) 0 % 16 = 1 then some (ascii "1.2")
          else if buf.getD (off + 1) 0 % 16 = 2 then some (ascii "1.44")
          else if buf.getD (off + 1) 0 % 16 = 3 then some (ascii "2.88")
          else none) ∧
      ps.lookup (ascii "platform") = some (get_name_for_eltorito_platform platform) ∧
      get_name_for_eltorito_platform platform ∈
        [ascii "x86", ascii "PowerPC", ascii "Macintosh", ascii "EFI", ascii "unknown"] := by
  have hrec : object_records latin1 (ascii "Disk Image")
      (boot_entry_events lib w level platform buf off) =
      [first_writes (offered latin1
        ((ascii "bootable", if buf.getD off 0 = 0x88 then ascii "true" else ascii "false") ::
          (property_calls (media_events (buf.getD (off + 1) 0 % 16)) ++
            [(ascii "start_sector", decimal (get_le_long buf (off + 8)) ++ [0]),
             (ascii "platform", get_name_for_eltorito_platform platform),
             (ascii "mbr_type", lib.get_name_for_mbrtype (buf.getD (off + 4) 0))])))] := by
    unfold boot_entry_events
    simp only [List.cons_append, List.nil_append, List.append_assoc]
    rw [object_records, object_records, object_records, if_pos (by decide), property_calls,
      object_records]
    rw [(media_events_calls _ latin1 (ascii "Disk Image") _).1,
      (media_events_calls _ latin1 (ascii "Disk Image") _).2]
    by_cases hs : get_le_long buf (off + 8) > 0
    · rw [if_pos hs]; rfl
    · rw [if_neg hs]; rfl
  refine ⟨_, hrec, ?_⟩
  simp only [lookup_first_writes]
  have kb : ascii "bootable" = c_str (ascii "bootable") := by decide
  have ksb : ¬ ascii "source" = c_str (ascii "bootable") := by decide
  have kfb : ¬ ascii "floppy_size" = c_str (ascii "bootable") := by decide
  have kpb : ¬ ascii "platform" = c_str (ascii "bootable") := by decide
  have kfs : ¬ ascii "floppy_size" = c_str (ascii "start_sector") := by decide
  have kfp : ¬ ascii "floppy_size" = c_str (ascii "platform") := by decide
  have kfm : ¬ ascii "floppy_size" = c_str (ascii "mbr_type") := by decide
  have hrest : (offered latin1
      [(ascii "start_sector", decimal (get_le_long buf (off + 8)) ++ [0]),
       (ascii "platform", get_name_for_eltorito_platform platform),
       (ascii "mbr_type", lib.get_name_for_mbrtype (buf.getD (off + 4) 0))]).lookup
        (ascii "floppy_size") = none := by
    simp only [offered_lookup_cons, if_neg kfs, if_neg kfp, if_neg kfm, offered_lookup_nil]
  obtain ⟨hsrc, hfl⟩ := media_events_lookup (buf.getD (off + 1) 0 % 16) latin1 _ hrest
  have hboot : (offered latin1
      ((ascii "bootable", if buf.getD off 0 = 0x88 then ascii "true" else ascii "false") ::
        (property_calls (media_events (buf.getD (off + 1) 0 % 16)) ++
          [(ascii "start_sector", decimal (get_le_long buf (off + 8)) ++ [0]),
           (ascii "platform", get_name_for_eltorito_platform platform),
           (ascii "mbr_type", lib.get_name_for_mbrtype (buf.getD (off + 4) 0))]))).lookup
        (ascii "bootable") =
      some (if buf.getD off 0 = 0x88 then ascii "true" else ascii "false") := by
    rw [offered_lookup_cons, if_pos kb]
    split
    · rw [clean_char_of_plain _ _ (by decide) (by decide)]
    · rw [clean_char_of_plain _ _ (by decide) (by decide)]
  refine ⟨hboot, ?_, ?_, ?_, ?_, (eltorito_platform_names platform).1⟩
  · rw [hboot]
    constructor
    · intro h
      by_contra hne
      rw [if_neg hne] at h
      exact absurd h (by decide)
    · intro h
      rw [if_pos h]
  · rw [offered_lookup_cons, if_neg ksb]
    exact hsrc
  · rw [offered_lookup_cons, if_neg kfb]
    exact hfl
  · have ks : ¬ ascii "platform" = c_str (ascii "start_sector") := by decide
    have kp : ascii "platform" = c_str (ascii "platform") := by decide
    rw [offered_lookup_cons, if_neg kpb,
      media_events_lookup_other _ _ _ _ (by decide) (by decide),
      offered_lookup_cons, if_neg ks, offered_lookup_cons, if_pos kp,
      (eltorito_platform_names platform).2 latin1]

/-- The loop of `detect_blank` counts the leading blank blocks and only reads. -/
theorem blank_loop_spec (get_buffer : Nat → Nat → List Nat) (code : Nat) :
    ∀ n i, (blank_loop get_buffer code n i i).2 =
        i + ((List.range' i n).takeWhile fun i =>
          decide (512 ≤ (get_buffer (i * 512) 512).length) &&
            ((get_buffer (i * 512) 512).take 512).all fun b => decide (b = code)).length ∧
      log_ops (blank_loop get_buffer code n i i).1 = [] := by
  intro n
  induction n with
  | zero => intro i; exact ⟨rfl, rfl⟩
  | succ n ih =>
    intro i
    rw [blank_loop, List.range'_succ]
    by_cases hl : (get_buffer (i * 512) 512).length < 512
    · have hd : decide (512 ≤ (get_buffer (i * 512) 512).length) = false := by
        simp only [decide_eq_false_iff_not]; omega
      simp only [if_pos hl]
      rw [List.takeWhile_cons_of_neg (by simp only [hd, Bool.false_and]; decide)]
      exact ⟨rfl, rfl⟩
    · have hd : decide (512 ≤ (get_buffer (i * 512) 512).length) = true := by
        simp only [decide_eq_true_eq]; omega
      by_cases hb : block_is_blank (get_buffer (i * 512) 512) code = true
      · simp only [if_neg hl, hb, not_true_eq_false, if_false]
        rw [List.takeWhile_cons_of_pos (by
          simp only [hd, Bool.true_and]
          exact hb)]
        obtain ⟨h1, h2⟩ := ih (i + 1)
        refine ⟨?_, ?_⟩
        · rw [h1, List.length_cons]; omega
        · exact h2
      · simp only [if_neg hl, hb, not_false_eq_true, if_true]
        rw [List.takeWhile_cons_of_neg (by
          simp only [hd, Bool.true_and]
          exact hb)]
        exact ⟨rfl, rfl⟩

/-- Calls that do not reach the log create no object. -/
theorem object_records_skip (latin1 : Int) (name : List Nat) (rest : List Event) :
    ∀ evs, log_ops evs = [] →
      object_records latin1 name (evs ++ rest) = object_records latin1 name rest := by
  intro evs
  induction evs with
  | nil => intro _; rfl
  | cons e evs ih =>
    intro h
    cases e with
    | add_content_object l t wd => exact absurd h (by simp [log_ops])
    | add_property k v => exact absurd h (by simp [log_ops])
    | print_line l f a => exact ih h
    | get_buffer p n => exact ih h
    | analyze_recursive l p sz fl => exact ih h
    | analyze_source_special l p sz => exact ih h

/-- The object that `add_blank` records, read with first-write-wins. -/
theorem add_blank_record (latin1 : Int) (level : Int) (blank_blocks : Nat) (guess : Int)
    (tail : List Event) (htail : log_ops tail = []) (hprop : property_calls tail = []) :
    object_records latin1 (ascii "Blank") (add_blank level blank_blocks guess ++ tail) =
      [[(ascii "all_empty_guess", if guess ≠ 0 then ascii "true" else ascii "false"),
        (ascii "empty_section_size", decimal_ascii (blank_blocks * 512))]] := by
  have hrest : object_records latin1 (ascii "Blank") tail = [] := by
    have := object_records_skip latin1 (ascii "Blank") [] tail htail
    rw [List.append_nil] at this
    exact this
  have hv : c_str (clean_char latin1 (if guess ≠ 0 then ascii "true" else ascii "false")) =
      (if guess ≠ 0 then ascii "true" else ascii "false") := by
    split
    · exact clean_char_of_plain _ _ (by decide) (by decide)
    · exact clean_char_of_plain _ _ (by decide) (by decide)
  unfold add_blank ev_property_u8
  simp only [List.cons_append, List.nil_append]
  rw [object_records, if_pos (by decide), object_records, object_records, hrest,
    property_calls, property_calls, hprop]
  simp only [offered, List.map_cons, List.map_nil, first_writes, first_writes_aux, hv,
    clean_char_decimal]
  have k1 : c_str (ascii "all_empty_guess") = ascii "all_empty_guess" := by decide
  have k2 : c_str (ascii "empty_section_size") = ascii "empty_section_size" := by decide
  have k3 : ¬ ascii "empty_section_size" ∈ ([] : List (List Nat)) ++ [ascii "all_empty_guess"] := by
    decide
  rw [k1, k2]
  simp only [List.not_mem_nil, if_false, if_neg k3]
  rw [decimal_eq_decimal_ascii]

/-- C31. When the first byte of the section can be read, with `code` that
byte, `max_blocks` 4096 or, for a known section size below 4096 * 512, the
size divided by 512, and `k` the number of leading blocks among the first
`max_blocks` that are read in full and hold only `code`: the calls of
`detect_blank` that reach the log are those of one `Blank` object with
`all_empty_guess` = `true` and `empty_section_size` = `k * 512` when
`k >= max_blocks`, of one `Blank` object with `all_empty_guess` = `false` and
`empty_section_size` = `k * 512` when `128 < k < max_blocks`, and none
otherwise. -/
theorem detect_blank_records (lib : Lib) (get_buffer : Nat → Nat → List Nat)
    (section_size : Nat) (level latin1 : Int) (code max_blocks k : Nat)
    (hfirst : 1 ≤ (get_buffer 0 1).length)
    (hcode : code = (get_buffer 0 1).getD 0 0)
    (hmax : max_blocks =
      if section_size ≠ 0 ∧ section_size < 4096 * 512 then section_size / 512 else 4096)
    (hk : k = leading_blank_blocks get_buffer code max_blocks) :
    k ≤ max_blocks ∧
    (max_blocks ≤ k →
      log_ops (detect_blank lib get_buffer section_size level) =
        [Op.object level (ascii "Blank") (ascii "Q543287"),
         Op.prop (ascii "all_empty_guess") (ascii "true"),
         Op.prop (ascii "empty_section_size") (decimal (k * 512) ++ [0])] ∧
      object_records latin1 (ascii "Blank") (detect_blank lib get_buffer section_size level) =
        [[(ascii "all_empty_guess", ascii "true"),
          (ascii "empty_section_size", decimal_ascii (k * 512))]]) ∧
    (128 < k → k < max_blocks →
      log_ops (detect_blank lib get_buffer section_size level) =
        [Op.object level (ascii "Blank") (ascii "Q543287"),
         Op.prop (ascii "all_empty_guess") (ascii "false"),
         Op.prop (ascii "empty_section_size") (decimal (k * 512) ++ [0])] ∧
      object_records latin1 (ascii "Blank") (detect_blank lib get_buffer section_size level) =
        [[(ascii "all_empty_guess", ascii "false"),
          (ascii "empty_section_size", decimal_ascii (k * 512))]]) ∧
    (k ≤ 128 → k < max_blocks →
      log_ops (detect_blank lib get_buffer section_size level) = [] ∧
      object_records latin1 (ascii "Blank") (detect_blank lib get_buffer section_size level) =
        []) := by
  obtain ⟨hcount, hreads⟩ := blank_loop_spec get_buffer code max_blocks 0
  have hk2 : (blank_loop get_buffer code max_blocks 0 0).2 = k := by
    rw [hcount, hk, leading_blank_blocks, List.range_eq_range', Nat.zero_add]
  have hle : k ≤ max_blocks := by
    rw [hk, leading_blank_blocks]
    have hp : ((List.range max_blocks).takeWhile fun i =>
        decide (512 ≤ (get_buffer (i * 512) 512).length) &&
          ((get_buffer (i * 512) 512).take 512).all fun b => decide (b = code)).length ≤
        (List.range max_blocks).length := (List.takeWhile_prefix _).length_le
    rw [List.length_range] at hp
    exact hp
  have hl : ¬ (get_buffer 0 1).length < 1 := by omega
  have hshape : detect_blank lib get_buffer section_size level =
      (Event.get_buffer 0 1 :: (blank_loop get_buffer code max_blocks 0 0).1) ++
        (if k ≥ max_blocks then
          add_blank level k 1 ++ [Event.print_line level (ascii "Blank disk/medium") []]
        else if k > 128 then
          add_blank level k 0 ++
            [Event.print_line level (ascii "First %s are blank")
              [Arg.str (lib.format_size (k * 512))]]
        else []) := by
    unfold detect_blank blank_max_blocks
    simp only [if_neg hl, ← hcode, ← hmax, hk2]
    try rfl
  have hhead : log_ops (Event.get_buffer 0 1 :: (blank_loop get_buffer code max_blocks 0 0).1) =
      [] := hreads
  have hlog : ∀ tail, log_ops ((Event.get_buffer 0 1 ::
      (blank_loop get_buffer code max_blocks 0 0).1) ++ tail) = log_ops tail := by
    intro tail
    generalize (Event.get_buffer 0 1 :: (blank_loop get_buffer code max_blocks 0 0).1) = evs
      at hhead
    induction evs with
    | nil => rfl
    | cons e evs ih =>
      cases e with
      | add_content_object l t wd => exact absurd hhead (by simp [log_ops])
      | add_property k v => exact absurd hhead (by simp [log_ops])
      | print_line l f a => exact ih hhead
      | get_buffer p n => exact ih hhead
      | analyze_recursive l p sz fl => exact ih hhead
      | analyze_source_special l p sz => exact ih hhead
  refine ⟨hle, ?_, ?_, ?_⟩
  · intro h1
    rw [hshape, hlog, object_records_skip latin1 _ _ _ hhead, if_pos h1]
    exact ⟨rfl, add_blank_record latin1 level k 1 _ rfl rfl⟩
  · intro h1 h2
    rw [hshape, hlog, object_records_skip latin1 _ _ _ hhead, if_neg (by omega), if_pos h1]
    exact ⟨rfl, add_blank_record latin1 level k 0 _ rfl rfl⟩
  · intro h1 h2
    rw [hshape, hlog, object_records_skip latin1 _ _ _ hhead, if_neg (by omega),
      if_neg (by omega)]
    exact ⟨rfl, rfl⟩

/-- C31 witness: a section of 1024 bytes that reads as zeros has
`max_blocks = 2` and two blank blocks; a `Blank` object with the guess `true`
and the size 1024 is recorded. -/
theorem detect_blank_records_witness :
    leading_blank_blocks zero_section_get_buffer 0 2 = 2 ∧
    object_records 0 (ascii "Blank") (detect_blank Lib.blank zero_section_get_buffer 1024 0) =
      [[(ascii "all_empty_guess", ascii "true"), (ascii "empty_section_size", ascii "1024")]] := by
  have hk : 2 = leading_blank_blocks zero_section_get_buffer 0 2 := by decide
  have h := (detect_blank_records Lib.blank zero_section_get_buffer 1024 0 0 0 2 2
    (by decide) (by decide) (by decide) hk).2.1 (Nat.le_refl 2)
  have e : decimal_ascii (2 * 512) = ascii "1024" := by
    rw [← decimal_eq_decimal_ascii]; decide
  rw [e] at h
  exact ⟨hk.symm, h.2⟩

/-! ## The objects of cdaccess.c in the log -/

/-- A string of chars between `0` and `Z` passes `clean_char` unchanged. -/
theorem clean_char_alnum (latin1 : Int) (v : List Nat) (hr : ∀ c ∈ v, 48 ≤ c ∧ c ≤ 90) :
    c_str (clean_char latin1 (v ++ [0])) = v := by
  have hnz : ∀ c ∈ v, c ≠ 0 := fun c hc => by have := hr c hc; omega
  have hcs : c_str (v ++ [0]) = v := c_str_append_nul _ [] hnz
  have hb : ∀ b ∈ v ++ [0], b < 256 := by
    intro b hb
    rcases List.mem_append.mp hb with h | h
    · have := hr b h; omega
    · simp at h; omega
  have hplain : v.flatMap escape_byte = v := by
    clear hcs hb hnz
    induction v with
    | nil => rfl
    | cons a l ih =>
      have ha := hr a (List.mem_cons_self a l)
      have e : escape_byte a = [a] := by
        unfold escape_byte
        rw [if_neg (by omega), if_neg (by omega)]
      rw [List.flatMap_cons, e, ih (fun c hc => hr c (List.mem_cons_of_mem a hc))]
      rfl
  unfold clean_char
  by_cases hl : latin1 = 0
  · rw [if_pos hl, hcs]
  · rw [if_neg hl, clean_char_loop_eq _ hb, hcs, hplain, List.nil_append]
    exact c_str_append_nul _ [] hnz

theorem clean_char_sprintf_08lX (latin1 : Int) (n : Nat) :
    c_str (clean_char latin1 (sprintf_08lX n ++ [0])) = sprintf_08lX n := by
  apply clean_char_alnum
  intro c hc
  unfold sprintf_08lX at hc
  rcases List.mem_append.mp hc with h | h
  · rw [List.mem_replicate] at h
    omega
  · exact digits_fuel_hex_range _ _ c h

theorem first_writes_aux_length_le (l : List (List Nat × List Nat)) :
    ∀ seen, (first_writes_aux seen l).length ≤ l.length := by
  induction l with
  | nil => intro seen; exact Nat.le_refl 0
  | cons a l ih =>
    intro seen
    obtain ⟨k, v⟩ := a
    unfold first_writes_aux
    split
    · exact Nat.le_succ_of_le (ih seen)
    · exact Nat.succ_le_succ (ih _)

/-- A successful `add_property` writes only the properties and the property
count of the latest object. -/
theorem add_property_keeps {s s1 : State} {key value : List Nat}
    (h : add_property s key value = some s1) :
    s1.id = s.id ∧
    (∀ i, (s1.given_file.content i).level = (s.given_file.content i).level ∧
      (s1.given_file.content i).parent_id = (s.given_file.content i).parent_id ∧
      (s1.given_file.content i).object_type = (s.given_file.content i).object_type ∧
      (s1.given_file.content i).wikidata = (s.given_file.content i).wikidata) ∧
    ∀ i, i ≠ s.id - 1 → s1.given_file.content i = s.given_file.content i := by
  obtain ⟨_, _, hcase⟩ := add_property_some h
  rcases hcase with ⟨_, rfl⟩ | ⟨_, hid1, _, _, _, _, _, _, _, _, hc1⟩
  · exact ⟨rfl, fun i => ⟨rfl, rfl, rfl, rfl⟩, fun i _ => rfl⟩
  · refine ⟨hid1, ?_, ?_⟩
    · intro i
      rw [hc1]
      by_cases hi : i = s.id - 1
      · subst hi; rw [Function.update_same]; exact ⟨rfl, rfl, rfl, rfl⟩
      · rw [Function.update_noteq hi]; exact ⟨rfl, rfl, rfl, rfl⟩
    · intro i hi
      rw [hc1, Function.update_noteq hi]

theorem run_prop_ops_keeps (calls : List (List Nat × List Nat)) :
    ∀ (t t1 : State), run t (prop_ops calls) = some t1 →
      t1.id = t.id ∧
      (∀ i, (t1.given_file.content i).level = (t.given_file.content i).level ∧
        (t1.given_file.content i).parent_id = (t.given_file.content i).parent_id ∧
        (t1.given_file.content i).object_type = (t.given_file.content i).object_type ∧
        (t1.given_file.content i).wikidata = (t.given_file.content i).wikidata) ∧
      ∀ i, i ≠ t.id - 1 → t1.given_file.content i = t.given_file.content i := by
  induction calls with
  | nil =>
    intro t t1 h
    cases h
    exact ⟨rfl, fun i => ⟨rfl, rfl, rfl, rfl⟩, fun i _ => rfl⟩
  | cons c calls ih =>
    intro t t1 h
    simp only [prop_ops, List.map_cons, run, Op.apply] at h
    cases hp : add_property t c.1 c.2 with
    | none => rw [hp] at h; cases h
    | some t2 =>
      rw [hp] at h
      obtain ⟨a1, a2, a3⟩ := add_property_keeps hp
      obtain ⟨b1, b2, b3⟩ := ih t2 t1 h
      refine ⟨b1.trans a1, ?_, ?_⟩
      · intro i
        obtain ⟨x1, x2, x3, x4⟩ := a2 i
        obtain ⟨y1, y2, y3, y4⟩ := b2 i
        exact ⟨y1.trans x1, y2.trans x2, y3.trans x3, y4.trans x4⟩
      · intro i hi
        rw [b3 i (by rw [a1]; exact hi), a3 i hi]

/-- One `add_content_object` call followed by `add_property` calls: the log
gains one object with the level, type and wikidata identifier given, whose
property list holds the first writes of the calls. -/
theorem record_object (s : State) (level : Int) (object_type wikidata : List Nat)
    (calls : List (List Nat × List Nat)) (hroom : s.id < MAX_OBJECTS)
    (hcap : calls.length ≤ MAX_PROPERTIES) :
    ∃ s1, run s (Op.object level object_type wikidata :: prop_ops calls) = some s1 ∧
      s1.id = s.id + 1 ∧
      (∀ i, i < s.id → s1.given_file.content i = s.given_file.content i) ∧
      (s1.given_file.content s.id).level = level ∧
      c_str (s1.given_file.content s.id).object_type.string = c_str object_type ∧
      c_str (s1.given_file.content s.id).wikidata.string = c_str wikidata ∧
      property_list s1 s.id = first_writes (offered s.latin1 calls) := by
  obtain ⟨s0, h0⟩ := add_content_object_isSome s level object_type wikidata hroom
  obtain ⟨_, hid0, _, hlat0, _, _, _, _, _, _, hc0⟩ := add_content_object_some h0
  have hcur := add_content_object_current h0
  obtain ⟨t1, hrun, _, hcur1⟩ := run_prop_ops s.id calls s0 [] hcur
    (by
      intro j hj
      have := first_writes_aux_length_le (offered s0.latin1 (calls.take j)) []
      simp only [offered, List.length_map, List.length_take] at this
      simp only [List.nil_append, List.map_nil, offered]
      omega)
  obtain ⟨k1, k2, k3⟩ := run_prop_ops_keeps calls s0 t1 hrun
  have hnew : s0.given_file.content s.id =
      { s.given_file.content s.id with
        id := s.id
        level := level
        parent_id := identify_parent_id s level
        object_type := insert_chars ⟨1, 25, [0]⟩ object_type
        wikidata := insert_chars ⟨1, 25, [0]⟩ wikidata
        number_of_properties := 0 } := by
    rw [hc0, Function.update_same]
  refine ⟨t1, ?_, by rw [k1, hid0], ?_, ?_, ?_, ?_, ?_⟩
  · simp only [run, Op.apply, h0]
    exact hrun
  · intro i hi
    rw [k3 i (by rw [hid0]; omega), hc0, Function.update_noteq (Nat.ne_of_lt hi)]
  · rw [(k2 s.id).1, hnew]
  · rw [(k2 s.id).2.2.1, hnew]
    have := insert_chars_holds (fresh_holds 25) object_type
    rw [List.nil_append] at this
    exact CString.holds_c_str this
  · rw [(k2 s.id).2.2.2, hnew]
    have := insert_chars_holds (fresh_holds 25) wikidata
    rw [List.nil_append] at this
    exact CString.holds_c_str this
  · have := hcur1.2.2.2
    rw [List.nil_append, List.map_nil, hlat0] at this
    exact this

/-- C32. On a log with room for one more object, the calls of
`add_track_json` and of `add_cd_rom_json` append exactly one object at the
given level: for kind 0 an `Audio track` (Q7302866) with the properties
seconds, number and size = length * 2352, in this order; for kind 1 a `Track`
(Q7831478) with number and size = length * 2048; for `add_cd_rom_json` a
`CD-ROM` (Q7982) with number_of_tracks and disk_ID. The numbers are stored in
decimal, the identifier as eight zero-padded upper-case hexadecimal digits.
The products are `unsigned long` products and the identifier is below 2^32. -/
theorem cdaccess_objects_in_log (s : State) (w : Nat) (level num seconds ntracks : Int)
    (length diskid : Nat) (hroom : s.id < MAX_OBJECTS) (hlen : length * 2352 < 2 ^ w)
    (hid : diskid < 2 ^ 32) :
    (∃ evs s1, add_track_json w level 0 num length seconds = some evs ∧
      run s (log_ops evs) = some s1 ∧ s1.id = s.id + 1 ∧
      (∀ i, i < s.id → s1.given_file.content i = s.given_file.content i) ∧
      (s1.given_file.content s.id).level = level ∧
      c_str (s1.given_file.content s.id).object_type.string = ascii "Audio track" ∧
      c_str (s1.given_file.content s.id).wikidata.string = ascii "Q7302866" ∧
      property_list s1 s.id =
        [(ascii "seconds", decimal_ascii_int seconds), (ascii "number", decimal_ascii_int num),
         (ascii "size", decimal_ascii (length * 2352))]) ∧
    (∃ evs s1, add_track_json w level 1 num length seconds = some evs ∧
      run s (log_ops evs) = some s1 ∧ s1.id = s.id + 1 ∧
      (∀ i, i < s.id → s1.given_file.content i = s.given_file.content i) ∧
      (s1.given_file.content s.id).level = level ∧
      c_str (s1.given_file.content s.id).object_type.string = ascii "Track" ∧
      c_str (s1.given_file.content s.id).wikidata.string = ascii "Q7831478" ∧
      property_list s1 s.id =
        [(ascii "number", decimal_ascii_int num),
         (ascii "size", decimal_ascii (length * 2048))]) ∧
    (∃ s1, run s (log_ops (add_cd_rom_json level ntracks diskid)) = some s1 ∧
      s1.id = s.id + 1 ∧
      (∀ i, i < s.id → s1.given_file.content i = s.given_file.content i) ∧
      (s1.given_file.content s.id).level = level ∧
      c_str (s1.given_file.content s.id).object_type.string = ascii "CD-ROM" ∧
      c_str (s1.given_file.content s.id).wikidata.string = ascii "Q7982" ∧
      property_list s1 s.id =
        [(ascii "number_of_tracks", decimal_ascii_int ntracks),
         (ascii "disk_ID", hex_padded8 diskid)] ∧
      (hex_padded8 diskid).length = 8) := by
  have m1 : length * 2352 % 2 ^ w = length * 2352 := Nat.mod_eq_of_lt hlen
  have m2 : length * 2048 % 2 ^ w = length * 2048 := Nat.mod_eq_of_lt (by omega)
  refine ⟨?_, ?_, ?_⟩
  · obtain ⟨s1, h1, h2, h3, h4, h5, h6, h7⟩ := record_object s level (ascii "Audio track")
      (ascii "Q7302866")
      [(ascii "seconds", decimal_int seconds ++ [0]), (ascii "number", decimal_int num ++ [0]),
       (ascii "size", decimal (length * 2352) ++ [0])] hroom (by show 3 ≤ 100; decide)
    refine ⟨_, s1, rfl, ?_, h2, h3, h4, h5.trans (by decide), h6.trans (by decide), ?_⟩
    · rw [m1]; exact h1
    · rw [h7]
      have k1 : c_str (ascii "seconds") = ascii "seconds" := by decide
      have k2 : c_str (ascii "number") = ascii "number" := by decide
      have k3 : c_str (ascii "size") = ascii "size" := by decide
      have n2 : ¬ ascii "number" ∈ ([] : List (List Nat)) ++ [ascii "seconds"] := by decide
      have n3 : ¬ ascii "size" ∈ ([] : List (List Nat)) ++ [ascii "seconds"] ++ [ascii "number"] := by
        decide
      simp only [offered, List.map_cons, List.map_nil, first_writes, first_writes_aux,
        clean_char_decimal, clean_char_decimal_int, k1, k2, k3, List.not_mem_nil, if_false,
        if_neg n2, if_neg n3]
      rw [decimal_eq_decimal_ascii, decimal_int_eq_decimal_ascii_int,
        decimal_int_eq_decimal_ascii_int]
  · obtain ⟨s1, h1, h2, h3, h4, h5, h6, h7⟩ := record_object s level (ascii "Track")
      (ascii "Q7831478")
      [(ascii "number", decimal_int num ++ [0]),
       (ascii "size", decimal (length * 2048) ++ [0])] hroom (by show 2 ≤ 100; decide)
    refine ⟨_, s1, rfl, ?_, h2, h3, h4, h5.trans (by decide), h6.trans (by decide), ?_⟩
    · rw [m2]; exact h1
    · rw [h7]
      have k2 : c_str (ascii "number") = ascii "number" := by decide
      have k3 : c_str (ascii "size") = ascii "size" := by decide
      have n3 : ¬ ascii "size" ∈ ([] : List (List Nat)) ++ [ascii "number"] := by decide
      simp only [offered, List.map_cons, List.map_nil, first_writes, first_writes_aux,
        clean_char_decimal, clean_char_decimal_int, k2, k3, List.not_mem_nil, if_false,
        if_neg n3]
      rw [decimal_eq_decimal_ascii, decimal_int_eq_decimal_ascii_int]
  · obtain ⟨s1, h1, h2, h3, h4, h5, h6, h7⟩ := record_object s level (ascii "CD-ROM")
      (ascii "Q7982")
      [(ascii "number_of_tracks", decimal_int ntracks ++ [0]),
       (ascii "disk_ID", sprintf_08lX diskid ++ [0])] hroom (by show 2 ≤ 100; decide)
    obtain ⟨e1, e2⟩ := sprintf_08lX_eq diskid
    refine ⟨s1, h1, h2, h3, h4, h5.trans (by decide), h6.trans (by decide), ?_, ?_⟩
    · rw [h7]
      have k2 : c_str (ascii "number_of_tracks") = ascii "number_of_tracks" := by decide
      have k3 : c_str (ascii "disk_ID") = ascii "disk_ID" := by decide
      have n3 : ¬ ascii "disk_ID" ∈ ([] : List (List Nat)) ++ [ascii "number_of_tracks"] := by
        decide
      simp only [offered, List.map_cons, List.map_nil, first_writes, first_writes_aux,
        clean_char_sprintf_08lX, clean_char_decimal_int, k2, k3, List.not_mem_nil, if_false,
        if_neg n3]
      rw [e1, decimal_int_eq_decimal_ascii_int]
    · rw [← e1]; exact e2 hid

/-- C32 witness: the values of `test_cdaccess`. The audio track 7 of 1500
sectors and 20 seconds has the size 3528000, the data track 17 of 3000 sectors
the size 6144000, and the identifier 46 of a disk of 5 tracks is stored as
0000002E. -/
theorem cdaccess_objects_in_log_witness :
    (∃ evs s1, add_track_json 64 0 0 7 1500 20 = some evs ∧
      run State.initial (log_ops evs) = some s1 ∧
      property_list s1 0 =
        [(ascii "seconds", ascii "20"), (ascii "number", ascii "7"),
         (ascii "size", ascii "3528000")]) ∧
    (∃ evs s1, add_track_json 64 0 1 17 3000 0 = some evs ∧
      run State.initial (log_ops evs) = some s1 ∧
      property_list s1 0 = [(ascii "number", ascii "17"), (ascii "size", ascii "6144000")]) ∧
    (∃ s1, run State.initial (log_ops (add_cd_rom_json 0 5 46)) = some s1 ∧
      property_list s1 0 =
        [(ascii "number_of_tracks", ascii "5"), (ascii "disk_ID", ascii "0000002E")]) := by
  have d1 : decimal_ascii_int 20 = ascii "20" := by
    rw [← decimal_int_eq_decimal_ascii_int]; decide
  have d2 : decimal_ascii_int 7 = ascii "7" := by
    rw [← decimal_int_eq_decimal_ascii_int]; decide
  have d3 : decimal_ascii (1500 * 2352) = ascii "3528000" := by
    rw [← decimal_eq_decimal_ascii]; decide
  have d4 : decimal_ascii_int 17 = ascii "17" := by
    rw [← decimal_int_eq_decimal_ascii_int]; decide
  have d5 : decimal_ascii (3000 * 2048) = ascii "6144000" := by
    rw [← decimal_eq_decimal_ascii]; decide
  have d6 : decimal_ascii_int 5 = ascii "5" := by
    rw [← decimal_int_eq_decimal_ascii_int]; decide
  have d7 : hex_padded8 46 = ascii "0000002E" := by
    rw [← (sprintf_08lX_eq 46).1]; decide
  obtain ⟨⟨evs, s1, a1, a2, _, _, _, _, _, a3⟩, _, ⟨s3, c1, _, _, _, _, _, c2, _⟩⟩ :=
    cdaccess_objects_in_log State.initial 64 0 7 20 5 1500 46 (by decide) (by decide)
      (by decide)
  obtain ⟨_, ⟨evs2, s2, b1, b2, _, _, _, _, _, b3⟩, _⟩ :=
    cdaccess_objects_in_log State.initial 64 0 17 0 5 3000 46 (by decide) (by decide)
      (by decide)
  rw [d1, d2, d3] at a3
  rw [d4, d5] at b3
  rw [d6, d7] at c2
  exact ⟨⟨evs, s1, a1, a2, a3⟩, ⟨evs2, s2, b1, b2, b3⟩, ⟨s3, c1, c2⟩⟩

/-! ## At most 100 properties per object -/

theorem props_bounded_add_content_object {s s1 : State} {level : Int}
    {object_type wikidata : List Nat} (hb : props_bounded s)
    (h : add_content_object s level object_type wikidata = some s1) :
    props_bounded s1 ∧ s1.property_counter = 0 ∧
    (s1.given_file.content (s1.id - 1)).number_of_properties = 0 := by
  obtain ⟨_, hid1, hpc, _, _, _, _, _, _, _, hc1⟩ := add_content_object_some h
  have hnew : (s1.given_file.content s.id).number_of_properties = 0 := by
    rw [hc1, Function.update_same]
  refine ⟨?_, hpc, ?_⟩
  · intro x hx
    by_cases hxs : x = s.id
    · subst hxs; rw [hnew]; exact Nat.zero_le _
    · rw [hc1, Function.update_noteq hxs]
      exact hb x (by omega)
  · have e : s1.id - 1 = s.id := by omega
    rw [e, hnew]

theorem props_bounded_add_property {s s1 : State} {key value : List Nat}
    (hs : log_ok s) (hb : props_bounded s) (h : add_property s key value = some s1) :
    props_bounded s1 ∧
    (s1 = s ∨
      (key_present s key = false ∧
       (s.given_file.content (s.id - 1)).number_of_properties < MAX_PROPERTIES ∧
       (s1.given_file.content (s.id - 1)).number_of_properties =
         (s.given_file.content (s.id - 1)).number_of_properties + 1)) := by
  obtain ⟨hpos, hlt, hcase⟩ := add_property_some h
  rcases hcase with ⟨_, rfl⟩ | ⟨hkp, hid1, _, _, _, _, _, _, _, _, hc1⟩
  · exact ⟨hb, Or.inl rfl⟩
  · have hcount := hs.2.2.1 hpos
    have hnew : (s1.given_file.content (s.id - 1)).number_of_properties =
        (s.given_file.content (s.id - 1)).number_of_properties + 1 := by
      rw [hc1, Function.update_same]
    refine ⟨?_, Or.inr ⟨hkp, by omega, hnew⟩⟩
    intro x hx
    by_cases hxs : x = s.id - 1
    · subst hxs; rw [hnew]; omega
    · rw [hc1, Function.update_noteq hxs]
      exact hb x (by omega)

theorem props_bounded_apply {s s1 : State} (op : Op) (hs : log_ok s) (hb : props_bounded s)
    (h : op.apply s = some s1) : props_bounded s1 := by
  cases op with
  | object level object_type wikidata => exact (props_bounded_add_content_object hb h).1
  | prop key value => exact (props_bounded_add_property hs hb h).1
  | file_path path =>
    simp only [Op.apply, add_file_path, initialize_String, Nat.zero_lt_succ, if_true] at h
    cases h
    exact hb
  | file_characteristics file_kind size =>
    simp only [Op.apply, add_file_characteristics, initialize_String,
      show (0 : Nat) < 3 by decide, if_true] at h
    cases h
    exact hb

theorem props_bounded_run (ops : List Op) : ∀ {s s1 : State}, log_ok s → props_bounded s →
    run s ops = some s1 → props_bounded s1 := by
  induction ops with
  | nil => intro s s1 _ hb h; cases h; exact hb
  | cons op ops ih =>
    intro s s1 hs hb h
    simp only [run] at h
    cases hop : op.apply s with
    | none => rw [hop] at h; cases h
    | some s2 =>
      rw [hop] at h
      exact ih (log_ok_apply op hs hop) (props_bounded_apply op hs hb hop) h

/-- C33. In every log built from a reset log through the interface, every
object has at most 100 properties and `property_counter` is the property count
of the latest object. A further `add_content_object` or `add_property` that
succeeds keeps this; `add_property` either leaves the log as it is or stores a
key that was not present, and this only when the latest object had fewer than
100 properties. -/
theorem properties_at_most_hundred (s0 : State) (ops : List Op) (s : State)
    (hlog : run (reset_json s0) ops = some s) :
    (∀ x, x < s.id → (s.given_file.content x).number_of_properties ≤ 100) ∧
    (0 < s.id →
      s.property_counter = (s.given_file.content (s.id - 1)).number_of_properties) ∧
    (∀ key value s1, add_property s key value = some s1 →
      (∀ x, x < s1.id → (s1.given_file.content x).number_of_properties ≤ 100) ∧
      s1.property_counter = (s1.given_file.content (s1.id - 1)).number_of_properties ∧
      (s1 = s ∨
        (key_present s key = false ∧
         (s.given_file.content (s.id - 1)).number_of_properties < 100 ∧
         (s1.given_file.content (s.id - 1)).number_of_properties =
           (s.given_file.content (s.id - 1)).number_of_properties + 1))) ∧
    (∀ level object_type wikidata s1,
      add_content_object s level object_type wikidata = some s1 →
      (∀ x, x < s1.id → (s1.given_file.content x).number_of_properties ≤ 100) ∧
      s1.property_counter = (s1.given_file.content (s1.id - 1)).number_of_properties) := by
  have hs : log_ok s := log_ok_run ops (log_ok_reset s0) hlog
  have hb : props_bounded s :=
    props_bounded_run ops (log_ok_reset s0) (fun x hx => absurd hx (Nat.not_lt_zero x)) hlog
  refine ⟨hb, hs.2.2.1, ?_, ?_⟩
  · intro key value s1 h
    obtain ⟨hb1, hcase⟩ := props_bounded_add_property hs hb h
    have hs1 : log_ok s1 := log_ok_apply (Op.prop key value) hs h
    have hpos1 : 0 < s1.id := by
      obtain ⟨hpos, _, hc⟩ := add_property_some h
      rcases hc with ⟨_, rfl⟩ | ⟨_, hid1, _⟩
      · exact hpos
      · omega
    exact ⟨hb1, hs1.2.2.1 hpos1, hcase⟩
  · intro level object_type wikidata s1 h
    obtain ⟨hb1, hpc, hz⟩ := props_bounded_add_content_object hb h
    exact ⟨hb1, by rw [hpc, hz]⟩

/-- C33 witness: the example log of five objects. -/
theorem properties_at_most_hundred_witness :
    (∀ x, x < json_example_log.id →
      (json_example_log.given_file.content x).number_of_properties ≤ 100) ∧
    json_example_log.property_counter =
      (json_example_log.given_file.content 4).number_of_properties := by
  obtain ⟨h1, h2, _⟩ := properties_at_most_hundred State.initial json_example_ops
    json_example_log (by rfl)
  exact ⟨h1, h2 (by decide)⟩

/-! ## Parent links point backwards -/

/-- C34. In every log built from a reset log through the interface, the
`parent_id` of each object is -1 or the id of an earlier object of strictly
lower level, and every object between the two has at least the object's level.
Consequently the recursion of `add_obj_json` ends: called for object `i` with
fuel for the objects from `i` on it returns, and so does the construction of
the document in `convert_to_json` (`convert_to_json_trace`) with fuel for all
objects. -/
theorem parent_links_point_backwards (s0 : State) (ops : List Op) (s : State)
    (hlog : run (reset_json s0) ops = some s) :
    (∀ x, x < s.id →
      (s.given_file.content x).parent_id = -1 ∨
      ∃ p : Nat, (s.given_file.content x).parent_id = (p : Int) ∧ p < x ∧
        (s.given_file.content p).level < (s.given_file.content x).level ∧
        ∀ j, p < j → j < x →
          (s.given_file.content x).level ≤ (s.given_file.content j).level) ∧
    (∀ (fuel i : Nat) (flag : Int) (json : CString) (em t : List Nat),
      i < s.given_file.number_of_objects → s.given_file.number_of_objects - i ≤ fuel →
      json.holds t → ∃ r, add_obj_json fuel s i flag (json, em) = some r) ∧
    (∀ fuel digits : Nat, s.given_file.number_of_objects ≤ fuel →
      digits ≤ (decimal s.given_file.size).length + 2 →
      ∃ r, convert_to_json_trace fuel digits s = some r) := by
  have hs : log_ok s := log_ok_run ops (log_ok_reset s0) hlog
  have hp : parents_ok s := parents_ok_run ops (parents_ok_reset s0) hlog
  refine ⟨?_, ?_, ?_⟩
  · intro x hx
    obtain ⟨h0, hne⟩ := hp x hx
    by_cases hl : (s.given_file.content x).level = 0
    · exact Or.inl (h0 hl)
    · rcases hne hl with ⟨b1, _⟩ | ⟨p, b1, b2, b3, b4⟩
      · exact Or.inl b1
      · right
        refine ⟨p, b1, b2, b3, ?_⟩
        intro j h1 h2
        have := b4 j h1 h2
        omega
  · intro fuel i flag json em t hi hf hj
    obtain ⟨json1, h1, _⟩ := add_obj_json_holds s hs fuel i hi hf flag json em t hj
    exact ⟨_, h1⟩
  · intro fuel digits hf hd
    obtain ⟨json, h1, _⟩ := convert_to_json_trace_holds s hs fuel digits hf hd
    exact ⟨_, h1⟩

/-- C34 witness: in the example log of levels 0, 1, 2, 1, 0 the parents are
-1, 0, 1, 0, -1, and the construction of the document with fuel 5 returns. -/
theorem parent_links_point_backwards_witness :
    (List.range 5).map (fun x => (json_example_log.given_file.content x).parent_id) =
      [-1, 0, 1, 0, -1] ∧
    ∃ r, convert_to_json_trace 5 9 json_example_log = some r := by
  obtain ⟨_, _, h3⟩ := parent_links_point_backwards State.initial json_example_ops
    json_example_log (by rfl)
  exact ⟨by decide, h3 5 9 (by decide) (by decide)⟩

/-! ## Which objects reach the document -/

theorem first_root_spec (s : State)
    (hnn : ∀ j, j < s.given_file.number_of_objects → 0 ≤ (s.given_file.content j).level) :
    first_root s ≤ s.given_file.number_of_objects ∧
    (∀ j, j < first_root s → 0 < (s.given_file.content j).level) ∧
    (first_root s < s.given_file.number_of_objects →
      (s.given_file.content (first_root s)).level = 0) := by
  obtain ⟨_, h2, h3, h4⟩ := scan_end_spec (fun j => (s.given_file.content j).level) 0
    s.given_file.number_of_objects 0
  rw [Nat.zero_add] at h2 h4
  refine ⟨h2, fun j hj => h3 j (Nat.zero_le j) hj, ?_⟩
  intro hlt
  have h5 : (s.given_file.content (first_root s)).level ≤ 0 := h4 hlt
  have h6 := hnn _ hlt
  omega

/-- In a built log with non-negative levels the objects emitted are those from
the first object of level 0 on, in id order. -/
theorem roots_emission_from_first_root (s : State) (hs : log_ok s) (hp : parents_ok s)
    (hnn : ∀ j, j < s.given_file.number_of_objects → 0 ≤ (s.given_file.content j).level) :
    ((roots_of s).map (emission_order s.given_file.number_of_objects s)).flatten
      = List.range' (first_root s) (s.given_file.number_of_objects - first_root s) := by
  obtain ⟨hr1, hr2, hr3⟩ := first_root_spec s hnn
  have hspan := span_flatten
    (fun x => decide ((s.given_file.content x).level = 0))
    (emission_order s.given_file.number_of_objects s) (subtree_end s)
    s.given_file.number_of_objects s.given_file.number_of_objects (Nat.le_refl _)
    (by
      intro x hPx hxN
      have hPx1 : (s.given_file.content x).level = 0 := by simpa using hPx
      obtain ⟨ex1, ex2, ex3, ex4⟩ := subtree_end_spec s x hxN
      refine ⟨emission_order_range s hs hp hnn _ x hxN (by omega), ex1, ex2, ?_, ?_⟩
      · intro y hy1 hy2
        have := ex3 y hy1 hy2
        simp only [decide_eq_false_iff_not]
        omega
      · by_cases heq : subtree_end s x = s.given_file.number_of_objects
        · exact Or.inl heq
        · right
          have hlt : subtree_end s x < s.given_file.number_of_objects := by omega
          have h1 := ex4 hlt
          have h2 := hnn _ hlt
          simp only [decide_eq_true_eq]
          omega)
    (by intro y hy1 hy2; omega)
    s.given_file.number_of_objects (first_root s) (by omega) hr1
    (by
      by_cases h0 : first_root s = s.given_file.number_of_objects
      · exact Or.inl h0
      · right
        simp only [decide_eq_true_eq]
        exact hr3 (by omega))
  have hsplit : List.range s.given_file.number_of_objects
      = List.range' 0 (first_root s) ++
        List.range' (first_root s) (s.given_file.number_of_objects - first_root s) := by
    rw [List.range_eq_range']
    have h1 : List.range' (first_root s) (s.given_file.number_of_objects - first_root s)
        = List.range' (0 + first_root s) (s.given_file.number_of_objects - first_root s) := by
      rw [Nat.zero_add]
    rw [h1, List.range'_append_1]
    congr 1
    omega
  have hnil : (List.range' 0 (first_root s)).filter
      (fun x => decide ((s.given_file.content x).level = 0)) = [] := by
    rw [List.filter_eq_nil_iff]
    intro y hy
    rw [List.mem_range'_1] at hy
    have := hr2 y (by omega)
    simp only [decide_eq_true_eq]
    omega
  unfold roots_of
  rw [hsplit, List.filter_append, hnil, List.nil_append]
  exact hspan

/-- In a built log with non-negative levels the parent links from object `i`
end at an object of level 0 exactly when `i` is not before the first object of
level 0. -/
theorem chain_root_level (s : State) (hs : log_ok s) (hp : parents_ok s)
    (hnn : ∀ j, j < s.given_file.number_of_objects → 0 ≤ (s.given_file.content j).level) :
    ∀ (n i fuel : Nat), i ≤ n → i < s.given_file.number_of_objects → i ≤ fuel →
      ((s.given_file.content (chain_root s fuel i)).level = 0 ↔ first_root s ≤ i) := by
  obtain ⟨hr1, hr2, hr3⟩ := first_root_spec s hnn
  have hN : s.id = s.given_file.number_of_objects := hs.1
  intro n
  induction n with
  | zero =>
    intro i fuel hi hiN hf
    have hi0 : i = 0 := by omega
    subst hi0
    obtain ⟨h0, hne⟩ := hp 0 (by omega)
    have hpar : (s.given_file.content 0).parent_id < 0 := by
      have := (hs.2.2.2.2.2 0 (by omega)).1
      omega
    have hroot : chain_root s fuel 0 = 0 := by
      cases fuel with
      | zero => rfl
      | succ f => simp only [chain_root, if_pos hpar]
    rw [hroot]
    constructor
    · intro hl
      by_contra hlt
      have := hr2 0 (by omega)
      omega
    · intro hle
      have h0r : first_root s = 0 := by omega
      have := hr3 (by omega)
      rw [h0r] at this
      exact this
  | succ n ih =>
    intro i fuel hi hiN hf
    by_cases hin : i ≤ n
    · exact ih i fuel hin hiN hf
    · have hi1 : i = n + 1 := by omega
      obtain ⟨h0, hne⟩ := hp i (by omega)
      have hnni := hnn i hiN
      by_cases hl : (s.given_file.content i).level = 0
      · have hpar : (s.given_file.content i).parent_id < 0 := by rw [h0 hl]; decide
        have hroot : chain_root s fuel i = i := by
          cases fuel with
          | zero => rfl
          | succ f => simp only [chain_root, if_pos hpar]
        rw [hroot]
        constructor
        · intro _
          by_contra hlt
          have := hr2 i (by omega)
          omega
        · intro _; exact hl
      · rcases hne hl with ⟨b1, b2⟩ | ⟨p, b1, b2, b3, b4⟩
        · have hpar : (s.given_file.content i).parent_id < 0 := by rw [b1]; decide
          have hroot : chain_root s fuel i = i := by
            cases fuel with
            | zero => rfl
            | succ f => simp only [chain_root, if_pos hpar]
          rw [hroot]
          constructor
          · intro h; exact absurd h hl
          · intro hle
            exfalso
            have hlt : first_root s < s.given_file.number_of_objects := by omega
            have hz := hr3 hlt
            by_cases he : first_root s = i
            · rw [he] at hz; exact hl hz
            · exact b2 (first_root s) (by omega) (by rw [hz]; omega)
        · have hpar : ¬ (s.given_file.content i).parent_id < 0 := by rw [b1]; omega
          have htn : (s.given_file.content i).parent_id.toNat = p := by rw [b1]; rfl
          cases fuel with
          | zero => omega
          | succ f =>
            have hroot : chain_root s (f + 1) i = chain_root s f p := by
              simp only [chain_root, if_neg hpar, htn]
            rw [hroot, ih p f (by omega) (by omega) (by omega)]
            constructor
            · intro h; omega
            · intro hle
              by_contra hlt
              have hlt2 : first_root s < s.given_file.number_of_objects := by omega
              have hz := hr3 hlt2
              by_cases he : first_root s = i
              · rw [he] at hz; exact hl hz
              · exact b4 (first_root s) (by omega) (by omega) (by rw [hz]; omega)

/-- C35. For every log built from a reset log through the interface with
non-negative levels (and fuel for its objects), `convert_to_json` returns and
the objects it emits are exactly those whose `parent_id` links end at an
object of level 0, each of them once; an object of a level above 0 without a
parent is not emitted, and neither is any object whose links end at it. -/
theorem document_holds_rooted_objects (s0 : State) (ops : List Op) (s : State)
    (fuel digits : Nat)
    (hlog : run (reset_json s0) ops = some s)
    (hfuel : s.given_file.number_of_objects ≤ fuel)
    (hd : digits ≤ (decimal s.given_file.size).length + 2)
    (hnn : ∀ j, j < s.given_file.number_of_objects → 0 ≤ (s.given_file.content j).level) :
    ∃ json emitted, convert_to_json_trace fuel digits s = some (json, emitted) ∧
      json.holds (render_document digits s) ∧
      (∀ i, i ∈ emitted → i < s.given_file.number_of_objects) ∧
      (∀ i, i < s.given_file.number_of_objects →
        (i ∈ emitted ↔ (s.given_file.content (chain_root s i i)).level = 0)) ∧
      (∀ i, i ∈ emitted → emitted.count i = 1) ∧
      (∀ i, i < s.given_file.number_of_objects → 0 < (s.given_file.content i).level →
        (s.given_file.content i).parent_id = -1 →
        ∀ j, j < s.given_file.number_of_objects → chain_root s j j = i → j ∉ emitted) := by
  have hs : log_ok s := log_ok_run ops (log_ok_reset s0) hlog
  have hp : parents_ok s := parents_ok_run ops (parents_ok_reset s0) hlog
  obtain ⟨json, h1, hj⟩ := convert_to_json_trace_holds s hs fuel digits hfuel hd
  rw [roots_emission_from_first_root s hs hp hnn] at h1
  obtain ⟨hr1, _, _⟩ := first_root_spec s hnn
  have hmem : ∀ i, i ∈ List.range' (first_root s)
      (s.given_file.number_of_objects - first_root s) ↔
      first_root s ≤ i ∧ i < s.given_file.number_of_objects := by
    intro i
    rw [List.mem_range'_1]
    constructor
    · intro h; exact ⟨h.1, by omega⟩
    · intro h; exact ⟨h.1, by omega⟩
  have hiff : ∀ i, i < s.given_file.number_of_objects →
      (i ∈ List.range' (first_root s) (s.given_file.number_of_objects - first_root s) ↔
        (s.given_file.content (chain_root s i i)).level = 0) := by
    intro i hi
    rw [hmem, chain_root_level s hs hp hnn i i i (Nat.le_refl i) hi (Nat.le_refl i)]
    exact ⟨fun h => h.1, fun h => ⟨h, hi⟩⟩
  refine ⟨json, _, h1, hj, ?_, hiff, ?_, ?_⟩
  · intro i hi
    exact ((hmem i).mp hi).2
  · intro i hi
    exact List.count_eq_one_of_mem (List.nodup_range' _ _) hi
  · intro i hi hlev hpar j hj hroot hin
    have := (hiff j hj).mp hin
    rw [hroot] at this
    omega

/-- C35 witness: in the log of the levels 1, 2, 0, 1 the objects 2 and 3 are
emitted, and the objects 0 and 1, whose links end at object 0 of level 1, are
not. -/
theorem document_holds_rooted_objects_witness :
    (List.range 4).map (fun i => chain_root orphan_example_log i i) = [0, 0, 2, 2] ∧
    ∃ json emitted, convert_to_json_trace 4 1 orphan_example_log = some (json, emitted) ∧
      (List.range 4).map (fun i => decide (i ∈ emitted)) = [false, false, true, true] := by
  obtain ⟨json, emitted, h1, _, _, h4, _⟩ := document_holds_rooted_objects State.initial
    orphan_example_ops orphan_example_log 4 1 (by rfl) (by decide) (by decide)
    (by intro j hj
        have hj4 : j < 4 := hj
        interval_cases j <;> decide)
  refine ⟨by decide, json, emitted, h1, ?_⟩
  have e0 := h4 0 (by decide)
  have e1 := h4 1 (by decide)
  have e2 := h4 2 (by decide)
  have e3 := h4 3 (by decide)
  have c0 : ¬ (orphan_example_log.given_file.content
      (chain_root orphan_example_log 0 0)).level = 0 := by decide
  have c1 : ¬ (orphan_example_log.given_file.content
      (chain_root orphan_example_log 1 1)).level = 0 := by decide
  have c2 : (orphan_example_log.given_file.content
      (chain_root orphan_example_log 2 2)).level = 0 := by decide
  have c3 : (orphan_example_log.given_file.content
      (chain_root orphan_example_log 3 3)).level = 0 := by decide
  have m0 : ¬ 0 ∈ emitted := fun h => c0 (e0.mp h)
  have m1 : ¬ 1 ∈ emitted := fun h => c1 (e1.mp h)
  have m2 : 2 ∈ emitted := e2.mpr c2
  have m3 : 3 ∈ emitted := e3.mpr c3
  simp only [List.range, List.range.loop, List.map_cons, List.map_nil, m0, m1, m2, m3,
    decide_True, decide_False]

end Disktype
